import Mathlib

/-!
# Directus model importer: a shallow embedding

The development embeds `Runtime/Resource/Import/ModelImporter.cpp` and the
inline setters and getters of `Runtime/Graphics/Mesh.h` as Lean functions and
proves properties of the import pipeline.

* Mutable engine state that the importer only reaches through calls on other
  subsystems (scene, file system, resource manager, logger) is recorded as a
  chronological list of `Event`s; values those subsystems hand back are taken
  from an `Env` of oracles, each of which may depend on the events so far.
* `float` values are only copied and compared by the importer; they are
  represented by rationals.
* A `weakGameObj` is an optional handle; `none` is the empty (expired) handle.
-/

namespace Directus

/-! ## Math types -/

/-- Two-component vector (`Math::Vector2`). -/
structure Vector2 where
  x : Rat
  y : Rat
deriving DecidableEq

/-- Three-component vector (`Math::Vector3`). -/
structure Vector3 where
  x : Rat
  y : Rat
  z : Rat
deriving DecidableEq

/-- Four-component vector (`Math::Vector4`). -/
structure Vector4 where
  x : Rat
  y : Rat
  z : Rat
  w : Rat
deriving DecidableEq

/-- Rotation quaternion (`Math::Quaternion`). -/
structure Quaternion where
  x : Rat
  y : Rat
  z : Rat
  w : Rat
deriving DecidableEq

/-- The constant `Vector2::Zero`. -/
def Vector2.Zero : Vector2 := ⟨0, 0⟩

/-- The constant `Vector3::Zero`. -/
def Vector3.Zero : Vector3 := ⟨0, 0, 0⟩

/-- Row-major 4x4 matrix (`Math::Matrix`), in constructor argument order. -/
structure Matrix where
  m00 : Rat
  m01 : Rat
  m02 : Rat
  m03 : Rat
  m10 : Rat
  m11 : Rat
  m12 : Rat
  m13 : Rat
  m20 : Rat
  m21 : Rat
  m22 : Rat
  m23 : Rat
  m30 : Rat
  m31 : Rat
  m32 : Rat
  m33 : Rat
deriving DecidableEq

/-- Vertex layout `VertexPosTexNorTan`. -/
structure VertexPosTexNorTan where
  position : Vector3
  uv : Vector2
  normal : Vector3
  tangent : Vector3
deriving DecidableEq

/-! ## Assimp scene data, as the importer reads it -/

/-- Assimp `aiVector3D`. -/
structure aiVector3D where
  x : Rat
  y : Rat
  z : Rat
deriving DecidableEq

/-- Assimp `aiVector2D`. -/
structure aiVector2D where
  x : Rat
  y : Rat
deriving DecidableEq

/-- Assimp `aiColor4D`. -/
structure aiColor4D where
  r : Rat
  g : Rat
  b : Rat
  a : Rat
deriving DecidableEq

/-- Assimp `aiMatrix4x4`; field `a1` is row a, column 1. -/
structure aiMatrix4x4 where
  a1 : Rat
  a2 : Rat
  a3 : Rat
  a4 : Rat
  b1 : Rat
  b2 : Rat
  b3 : Rat
  b4 : Rat
  c1 : Rat
  c2 : Rat
  c3 : Rat
  c4 : Rat
  d1 : Rat
  d2 : Rat
  d3 : Rat
  d4 : Rat
deriving DecidableEq

/-- Assimp `aiFace`: the array `mIndices`, whose length is `mNumIndices`. -/
structure aiFace where
  mIndices : List Nat
deriving DecidableEq

/-- Number of indices of a face (`aiFace::mNumIndices`). -/
def aiFace.mNumIndices (face : aiFace) : Nat := face.mIndices.length

/-- Assimp `aiMesh`. Per-vertex arrays have `mNumVertices` entries; an absent
channel is a null array. `mTextureCoords0` is UV channel 0. -/
structure aiMesh where
  mName : String
  mNumVertices : Nat
  mVertices : Fin mNumVertices → aiVector3D
  mNormals : Option (Fin mNumVertices → aiVector3D)
  mTangents : Option (Fin mNumVertices → aiVector3D)
  mTextureCoords0 : Option (Fin mNumVertices → aiVector3D)
  mFaces : List aiFace
  mMaterialIndex : Nat

/-- Number of faces of a mesh (`aiMesh::mNumFaces`). -/
def aiMesh.mNumFaces (mesh : aiMesh) : Nat := mesh.mFaces.length

/-- Assimp texture kinds queried by the importer. -/
inductive aiTextureType where
  | aiTextureType_DIFFUSE
  | aiTextureType_SHININESS
  | aiTextureType_AMBIENT
  | aiTextureType_NORMALS
  | aiTextureType_LIGHTMAP
  | aiTextureType_EMISSIVE
  | aiTextureType_HEIGHT
  | aiTextureType_OPACITY
deriving DecidableEq

/-- Assimp `aiMaterial`, as seen through the queries the importer makes:
the name string, the two-sided flag and the colours (`none` when the query
does not succeed), the texture count per kind and the path that
`GetTexture(kind, 0, ...)` yields on `AI_SUCCESS`. -/
structure aiMaterial where
  name : String
  twoSided : Option Bool
  colorDiffuse : Option aiColor4D
  opacity : Option aiColor4D
  GetTextureCount : aiTextureType → Nat
  GetTexture : aiTextureType → Option String

/-- Assimp `aiNode` of a scene with `numMeshes` meshes. `hasParent` records
whether `mParent` is non-null; `mMeshes` are indices into the scene's mesh
array. -/
inductive aiNode (numMeshes : Nat) where
  | mk (mName : String) (hasParent : Bool) (mTransformation : aiMatrix4x4)
      (mMeshes : List (Fin numMeshes)) (mChildren : List (aiNode numMeshes))

/-- Assimp `aiScene`: mesh array, material array and root node. -/
structure aiScene where
  mNumMeshes : Nat
  mMeshes : Fin mNumMeshes → aiMesh
  mMaterials : List aiMaterial
  mRootNode : aiNode mNumMeshes

/-! ## Engine-side values -/

/-- Texture slots of a material (`TextureType`). -/
inductive TextureType where
  | Albedo_Texture
  | Roughness_Texture
  | Metallic_Texture
  | Normal_Texture
  | Occlusion_Texture
  | Emission_Texture
  | Height_Texture
  | Mask_Texture
deriving DecidableEq

/-- Face culling modes (`CullMode`); only `CullNone` is named by the importer. -/
inductive CullMode where
  | CullBack
  | CullFront
  | CullNone
deriving DecidableEq

/-- The part of a `Material` the importer writes: resource name, model id,
cull mode, albedo colour, opacity and the textures set so far (slot and
file path of the loaded texture), oldest first. -/
structure Material where
  resourceName : String
  modelID : String
  cullMode : CullMode
  colorAlbedo : Vector4
  opacity : Rat
  textures : List (TextureType × String)
deriving DecidableEq

/-- Setter `Material::SetTexture`, recording the slot and the texture. -/
def Material.SetTexture (m : Material) (slot : TextureType) (path : String) : Material :=
  { m with textures := m.textures ++ [(slot, path)] }

/-- A `weakGameObj`: `none` is the empty handle, `some h` refers to the game
object with handle `h`. -/
abbrev weakGameObj := Option Nat

/-- Whether a weak handle is expired (`weak_ptr::expired`). -/
def weakGameObj.expired (g : weakGameObj) : Bool := g.isNone

/-- Severity of a log line. -/
inductive LogLevel where
  | Info
  | Warning
  | Error
deriving DecidableEq

/-- Calls the importer makes on its collaborators, in the order made. -/
inductive Event where
  | Log (level : LogLevel) (msg : String)
  | CreateDirectory (path : String)
  | CopyFileFromTo (source : String) (destination : String)
  | CreateGameObject (h : Nat)
  | SetName (h : Nat) (name : String)
  | SetParent (h : Nat) (parent : weakGameObj)
  | SetPositionLocal (h : Nat) (position : Vector3)
  | SetRotationLocal (h : Nat) (rotation : Quaternion)
  | SetScaleLocal (h : Nat) (scale : Vector3)
  | AddMeshFilter (h : Nat)
  | CreateAndSet (h : Nat) (name : String) (rootGameObjID : String)
      (vertices : List VertexPosTexNorTan) (indices : List Nat)
  | SetDirectory (h : Nat) (directory : String)
  | AddMaterial (material : Material)
  | AddMeshRenderer (h : Nat)
  | SetMaterial (h : Nat) (material : Option Material)
  | SaveMaterial (material : Material) (path : String)
  | LoadTexture (path : String)
  | SetTextureType (path : String) (slot : TextureType)
  | NormalizeModelScale (h : Nat)
deriving DecidableEq

/-- Everything the importer obtains from code that is not part of the
importer itself. Oracles whose answer can depend on earlier side effects take
the list of events so far. -/
structure Env where
  /-- The string constant `DATA_NOT_ASSIGNED`. -/
  DATA_NOT_ASSIGNED : String
  /-- A default-constructed `VertexPosTexNorTan`. -/
  defaultVertex : VertexPosTexNorTan
  /-- A freshly constructed `Material`. -/
  newMaterial : Material
  GetFileNameFromPath : String → String
  GetFileNameNoExtensionFromPath : String → String
  GetPathWithoutFileName : String → String
  GetExtensionFromPath : String → String
  /-- Result of `FileSystem::GetSupportedImageFileFormats(true)`. -/
  GetSupportedImageFileFormats : List String
  FileExists : List Event → String → Bool
  GetFilesInDirectory : List Event → String → List String
  /-- Outcome of `Assimp::Importer::ReadFile`; `none` is the null scene. -/
  ReadFile : List Event → String → Option aiScene
  /-- Text of `Assimp::Importer::GetErrorString`. -/
  GetErrorString : List Event → String → String
  /-- Identifier `GameObject::GetID` of the game object with a handle. -/
  GetID : Nat → String
  /-- Result of `MeshFilter::HasMesh` on the mesh filter of a game object. -/
  HasMesh : List Event → Nat → Bool
  /-- Result of `Matrix::Decompose`: scale, rotation, position. -/
  Decompose : Matrix → Vector3 × Quaternion × Vector3
  /-- Material handle returned by `ResourceManager::Add`; `none` is expired. -/
  ResourceAdd : List Event → Material → Option Material
  /-- Whether `ResourceManager::Load<Texture>` returns a live texture. -/
  LoadTexture : List Event → String → Bool
  /-- Game objects of the transforms that `Transform::GetDescendants` returns
  for the transform of a game object, in order. -/
  GetDescendants : List Event → Nat → List weakGameObj
  /-- Whether `GetComponent<MeshFilter>` on a game object is non-null. -/
  GetMeshFilter : List Event → Nat → Bool

/-- The engine as the importer sees it: the handle the next created game
object receives and the events so far. -/
structure World where
  nextHandle : Nat
  trace : List Event
deriving DecidableEq

/-- Append one event to the trace. -/
def World.emit (w : World) (e : Event) : World :=
  { w with trace := w.trace ++ [e] }

/-- Call of `Scene::CreateGameObject`: a new live game object with a fresh handle. -/
def CreateGameObject (w : World) : Nat × World :=
  (w.nextHandle, { nextHandle := w.nextHandle + 1,
                   trace := w.trace ++ [Event.CreateGameObject w.nextHandle] })

/-- Fields of `ModelImporter`. `m_context` is `true` when the context pointer
is non-null. -/
structure ModelImporter where
  m_context : Bool
  m_isLoading : Bool
  m_filePath : String
  m_rootGameObject : weakGameObj
  m_modelName : String
deriving DecidableEq

/-! ## Texture lookup (`FindTexture`, `TryPathWithMultipleExtensions`) -/

/-- Position of the last occurrence of `c` (`std::string::find_last_of` with
a one-character set); `none` stands for `npos`. -/
def find_last_of : List Char → Char → Option Nat
  | [], _ => none
  | x :: xs, c =>
    match find_last_of xs c with
    | some i => some (i + 1)
    | none => if x = c then some 0 else none

/-- The prefix `fullpath.substr(0, lastindex)` with
`lastindex = fullpath.find_last_of(".")`. When there is no dot, `npos`
becomes `-1` as an `int` and `npos` again as the length argument, so the whole
string is kept. (Paths are assumed shorter than 2^31 characters, so that a
found position fits the `int`.) -/
def removeExtension (fullpath : String) : String :=
  match find_last_of fullpath.data '.' with
  | some lastindex => String.mk (fullpath.data.take lastindex)
  | none => fullpath

/-- The loop of `TryPathWithMultipleExtensions` over the remaining supported
extensions: the first existing `fileName + extension`, else `fullpath`. -/
def tryExtensions (fileExists : String → Bool) (fileName fullpath : String) :
    List String → String
  | [] => fullpath
  | ext :: rest =>
    if fileExists (fileName ++ ext) then fileName ++ ext
    else tryExtensions fileExists fileName fullpath rest

/-- Source function `ModelImporter::TryPathWithMultipleExtensions`. -/
def TryPathWithMultipleExtensions (env : Env) (hist : List Event) (fullpath : String) :
    String :=
  let fileName := removeExtension fullpath
  let supportedImageExtensions := env.GetSupportedImageFileFormats
  tryExtensions (env.FileExists hist) fileName fullpath supportedImageExtensions

/-- Source function `ModelImporter::FindTexture`. -/
def FindTexture (env : Env) (imp : ModelImporter) (hist : List Event)
    (texturePath : String) : String :=
  let modelRootDirectory := env.GetPathWithoutFileName imp.m_filePath
  let texturePath := modelRootDirectory ++ texturePath
  -- 1. the path as given
  if env.FileExists hist texturePath then texturePath
  else
    -- 2. the same path with other extensions
    let texturePath := TryPathWithMultipleExtensions env hist texturePath
    if env.FileExists hist texturePath then texturePath
    else
      -- 3. the file name alone
      let texturePath := env.GetFileNameFromPath texturePath
      if env.FileExists hist texturePath then texturePath
      else
        -- 4. the file name with other extensions
        let texturePath := TryPathWithMultipleExtensions env hist texturePath
        if env.FileExists hist texturePath then texturePath
        else env.DATA_NOT_ASSIGNED

/-- The directory `"Standard Assets/Models/" + stem(m_modelName)` that the
importer spells out at every use. -/
def modelDirectory (env : Env) (imp : ModelImporter) : String :=
  "Standard Assets/Models/" ++ env.GetFileNameNoExtensionFromPath imp.m_modelName

/-- Source function `ModelImporter::AddTextureToMaterial`: the material after the
call and the world after the call. -/
def AddTextureToMaterial (env : Env) (imp : ModelImporter) (w : World)
    (material : Material) (textureType : TextureType) (texturePath : String) :
    Material × World :=
  let textureSource := FindTexture env imp w.trace texturePath
  if textureSource = env.DATA_NOT_ASSIGNED then
    (material, w.emit (Event.Log LogLevel.Warning ("Failed to find \"" ++ texturePath ++ "\".")))
  else
    let textureDestination :=
      modelDirectory env imp ++ "/Textures/" ++ env.GetFileNameFromPath textureSource
    let w := w.emit (Event.CopyFileFromTo textureSource textureDestination)
    let w := w.emit (Event.LoadTexture textureDestination)
    if env.LoadTexture w.trace textureDestination then
      (material.SetTexture textureType textureDestination,
        w.emit (Event.SetTextureType textureDestination textureType))
    else (material, w)

/-! ## Materials (`GenerateMaterialFromAiMaterial`) -/

/-- Helper `ToVector4`. -/
def ToVector4 (aiColor : aiColor4D) : Vector4 := ⟨aiColor.r, aiColor.g, aiColor.b, aiColor.a⟩

/-- Helper `ToVector3`. -/
def ToVector3 (aiVector : aiVector3D) : Vector3 := ⟨aiVector.x, aiVector.y, aiVector.z⟩

/-- Helper `ToVector2`. -/
def ToVector2 (aiVector : aiVector2D) : Vector2 := ⟨aiVector.x, aiVector.y⟩

/-- One of the eight texture blocks of `GenerateMaterialFromAiMaterial`: when
the material has a texture of the kind and its path can be read, add it to
the slot. -/
def addTextureOfType (env : Env) (imp : ModelImporter) (material : aiMaterial)
    (kind : aiTextureType) (slot : TextureType) (st : Material × World) :
    Material × World :=
  if material.GetTextureCount kind > 0 then
    match material.GetTexture kind with
    | some texturePath => AddTextureToMaterial env imp st.2 st.1 slot texturePath
    | none => st
  else st

/-- Source function `ModelImporter::GenerateMaterialFromAiMaterial`. -/
def GenerateMaterialFromAiMaterial (env : Env) (imp : ModelImporter) (w : World)
    (material : aiMaterial) : Material × World :=
  let engineMaterial := env.newMaterial
  let engineMaterial := { engineMaterial with resourceName := material.name }
  let engineMaterial := { engineMaterial with modelID := imp.m_modelName }
  -- cull mode
  let st : Material × World :=
    if material.twoSided = some true then
      ({ engineMaterial with cullMode := CullMode.CullNone },
        w.emit (Event.Log LogLevel.Info "two-sided"))
    else (engineMaterial, w)
  let engineMaterial := st.1
  let w := st.2
  -- diffuse colour
  let colorDiffuse := material.colorDiffuse.getD ⟨1, 1, 1, 1⟩
  let engineMaterial := { engineMaterial with colorAlbedo := ToVector4 colorDiffuse }
  -- opacity
  let opacity := material.opacity.getD ⟨1, 1, 1, 1⟩
  let engineMaterial := { engineMaterial with opacity := opacity.r }
  -- materials that have a diffuse texture should not be tinted black
  let engineMaterial :=
    if engineMaterial.colorAlbedo = ⟨0, 0, 0, 1⟩ then
      { engineMaterial with colorAlbedo := ⟨1, 1, 1, 1⟩ }
    else engineMaterial
  let st := (engineMaterial, w)
  let st := addTextureOfType env imp material .aiTextureType_DIFFUSE .Albedo_Texture st
  let st := addTextureOfType env imp material .aiTextureType_SHININESS .Roughness_Texture st
  let st := addTextureOfType env imp material .aiTextureType_AMBIENT .Metallic_Texture st
  let st := addTextureOfType env imp material .aiTextureType_NORMALS .Normal_Texture st
  let st := addTextureOfType env imp material .aiTextureType_LIGHTMAP .Occlusion_Texture st
  let st := addTextureOfType env imp material .aiTextureType_EMISSIVE .Emission_Texture st
  let st := addTextureOfType env imp material .aiTextureType_HEIGHT .Height_Texture st
  let st := addTextureOfType env imp material .aiTextureType_OPACITY .Mask_Texture st
  st

/-! ## Meshes (`ProcessMesh`) -/

/-- Whether the scene has materials (`aiScene::HasMaterials`). -/
def aiScene.HasMaterials (scene : aiScene) : Bool := decide (scene.mMaterials.length > 0)

/-- Body of the vertex loop of `ProcessMesh`. The state is the variable
`vertex`, which lives across iterations, and the vector `vertices`. -/
def processVertex (mesh : aiMesh) (st : VertexPosTexNorTan × List VertexPosTexNorTan)
    (vertexIndex : Fin mesh.mNumVertices) : VertexPosTexNorTan × List VertexPosTexNorTan :=
  let vertex := st.1
  let vertices := st.2
  let vertex := { vertex with position := ToVector3 (mesh.mVertices vertexIndex) }
  let vertex :=
    match mesh.mNormals with
    | some mNormals => { vertex with normal := ToVector3 (mNormals vertexIndex) }
    | none => vertex
  let vertex :=
    match mesh.mTangents with
    | some mTangents => { vertex with tangent := ToVector3 (mTangents vertexIndex) }
    | none => vertex
  let vertex :=
    match mesh.mTextureCoords0 with
    | some uvs =>
      { vertex with uv := ToVector2 (aiVector2D.mk (uvs vertexIndex).x (uvs vertexIndex).y) }
    | none => vertex
  let vertices := vertices ++ [vertex]
  let vertex := { vertex with normal := Vector3.Zero, tangent := Vector3.Zero, uv := Vector2.Zero }
  (vertex, vertices)

/-- The vector `vertices` after the vertex loop of `ProcessMesh`. -/
def meshVertices (env : Env) (mesh : aiMesh) : List VertexPosTexNorTan :=
  ((List.finRange mesh.mNumVertices).foldl (processVertex mesh) (env.defaultVertex, [])).2

/-- Body of the face loop of `ProcessMesh`: a face with fewer than three
indices is skipped, any other face has each index pushed back in turn. -/
def processFace (indices : List Nat) (face : aiFace) : List Nat :=
  if face.mNumIndices < 3 then indices
  else face.mIndices.foldl (fun acc index => acc ++ [index]) indices

/-- The vector `indices` after the face loop of `ProcessMesh`. -/
def meshIndices (mesh : aiMesh) : List Nat :=
  mesh.mFaces.foldl processFace []

/-- The root identifier `ProcessMesh` passes on: the ID of the importer's root
game object, or `DATA_NOT_ASSIGNED` when that handle is expired. -/
def rootGameObjID (env : Env) (imp : ModelImporter) : String :=
  match imp.m_rootGameObject with
  | some root => env.GetID root
  | none => env.DATA_NOT_ASSIGNED

/-- Material part of `ProcessMesh` for a mesh filter on game object `h`. A
material index outside the scene's material array (excluded by Assimp's
validation; an out-of-bounds read in the source) processes no material. -/
def processMeshMaterial (env : Env) (imp : ModelImporter) (scene : aiScene) (w : World)
    (mesh : aiMesh) (h : Nat) : World :=
  if scene.HasMaterials then
    match scene.mMaterials[mesh.mMaterialIndex]? with
    | some assimpMaterial =>
      let generated := GenerateMaterialFromAiMaterial env imp w assimpMaterial
      let w := generated.2
      let material := env.ResourceAdd w.trace generated.1
      let w := w.emit (Event.AddMaterial generated.1)
      let w := w.emit (Event.AddMeshRenderer h)
      let w := w.emit (Event.SetMaterial h material)
      match material with
      | some m =>
        w.emit (Event.SaveMaterial m (modelDirectory env imp ++ "/Materials/" ++ m.resourceName))
      | none => w
    | none => w
  else w

/-- Source function `ModelImporter::ProcessMesh`. -/
def ProcessMesh (env : Env) (imp : ModelImporter) (scene : aiScene) (w : World)
    (mesh : aiMesh) (gameobject : weakGameObj) : World :=
  match gameobject with
  | none => w
  | some h =>
    let vertices := meshVertices env mesh
    let indices := meshIndices mesh
    let w := w.emit (Event.AddMeshFilter h)
    let w := w.emit (Event.CreateAndSet h mesh.mName (rootGameObjID env imp) vertices indices)
    let w :=
      if env.HasMesh w.trace h then
        w.emit (Event.SetDirectory h (modelDirectory env imp ++ "/Meshes/"))
      else w
    processMeshMaterial env imp scene w mesh h

/-! ## Nodes (`ProcessNode`) -/

/-- Helper `aiMatrix4x4ToMatrix`. -/
def aiMatrix4x4ToMatrix (transform : aiMatrix4x4) : Matrix :=
  ⟨transform.a1, transform.b1, transform.c1, transform.d1,
   transform.a2, transform.b2, transform.c2, transform.d2,
   transform.a3, transform.b3, transform.c3, transform.d3,
   transform.a4, transform.b4, transform.c4, transform.d4⟩

/-- Helper `SetGameObjectTransform`. -/
def SetGameObjectTransform (env : Env) (w : World) (gameObject : weakGameObj)
    (mTransformation : aiMatrix4x4) : World :=
  match gameObject with
  | none => w
  | some h =>
    let mEngine := aiMatrix4x4ToMatrix mTransformation
    let decomposed := env.Decompose mEngine
    let scale := decomposed.1
    let rotation := decomposed.2.1
    let position := decomposed.2.2
    let w := w.emit (Event.SetPositionLocal h position)
    let w := w.emit (Event.SetRotationLocal h rotation)
    w.emit (Event.SetScaleLocal h scale)

/-- The game object that receives mesh number `i` of a node, its name, and
the world after it has been set up: a new child of `newNode` named with the
suffix `_(i+1)` when the node has more than one mesh, else `newNode` itself. -/
def meshGameObject (mName : String) (mNumMeshes : Nat) (newNode : Nat) (i : Nat) (w : World) :
    Nat × String × World :=
  if mNumMeshes > 1 then
    let created := CreateGameObject w
    let w := created.2.emit (Event.SetParent created.1 (some newNode))
    (created.1, mName ++ ("_" ++ toString (i + 1)), w)
  else (newNode, mName, w)

/-- The mesh loop of `ProcessNode`, from iteration `i` on, over the mesh
references still to process. -/
def processNodeMeshes (env : Env) (imp : ModelImporter) (scene : aiScene) (mName : String)
    (mNumMeshes : Nat) (newNode : Nat) : Nat → List (Fin scene.mNumMeshes) → World → World
  | _, [], w => w
  | i, meshIndex :: rest, w =>
    let mesh := scene.mMeshes meshIndex
    let target := meshGameObject mName mNumMeshes newNode i w
    let gameobject := target.1
    let name := target.2.1
    let w := target.2.2
    let w := w.emit (Event.SetName gameobject name)
    let w := ProcessMesh env imp scene w mesh (some gameobject)
    processNodeMeshes env imp scene mName mNumMeshes newNode (i + 1) rest w

/-- The game objects the importer used for the external nodes: for each
external node the handle of `newNode`, and the same for its children. This is
bookkeeping added to `ProcessNode`; the source returns nothing. -/
inductive GoTree where
  | mk (h : Nat) (children : List GoTree)

/-- Handle at the root of a handle tree. -/
def GoTree.handle : GoTree → Nat
  | GoTree.mk h _ => h

/-- Children of the root of a handle tree. -/
def GoTree.children : GoTree → List GoTree
  | GoTree.mk _ cs => cs

/-- The part of `ProcessNode` before its two loops: obtain `newNode`, record
the root, name the game object, attach it to the parent and apply the
transform. Returns the handle of `newNode`. -/
def processNodeHead (env : Env) (mName : String) (hasParent : Bool)
    (mTransformation : aiMatrix4x4) (parentNode newNode : weakGameObj)
    (imp : ModelImporter) (w : World) : Nat × ModelImporter × World :=
  let created := match newNode with
    | none => CreateGameObject w
    | some h => (h, w)
  let newNode := created.1
  let w := created.2
  let imp := if !hasParent then { imp with m_rootGameObject := some newNode } else imp
  let w :=
    if hasParent then w.emit (Event.SetName newNode mName)
    else w.emit (Event.SetName newNode (env.GetFileNameNoExtensionFromPath imp.m_filePath))
  let parentTrans : weakGameObj := if !parentNode.expired then parentNode else none
  let w := w.emit (Event.SetParent newNode parentTrans)
  let w := SetGameObjectTransform env w (some newNode) mTransformation
  (newNode, imp, w)

mutual
/-- Source function `ModelImporter::ProcessNode`. -/
def ProcessNode (env : Env) (scene : aiScene) :
    aiNode scene.mNumMeshes → weakGameObj → weakGameObj → ModelImporter → World →
      ModelImporter × World × GoTree
  | aiNode.mk mName hasParent mTransformation mMeshes mChildren, parentNode, newNode, imp, w =>
    let head := processNodeHead env mName hasParent mTransformation parentNode newNode imp w
    let newNode := head.1
    let imp := head.2.1
    let w := head.2.2
    let w := processNodeMeshes env imp scene mName mMeshes.length newNode 0 mMeshes w
    let r := ProcessChildren env scene newNode mChildren imp w
    (r.1, r.2.1, GoTree.mk newNode r.2.2)
/-- The child loop of `ProcessNode` over the children still to process. -/
def ProcessChildren (env : Env) (scene : aiScene) (newNode : Nat) :
    List (aiNode scene.mNumMeshes) → ModelImporter → World →
      ModelImporter × World × List GoTree
  | [], imp, w => (imp, w, [])
  | assimpChild :: rest, imp, w =>
    let created := CreateGameObject w
    let child := created.1
    let r := ProcessNode env scene assimpChild (some newNode) (some child) imp created.2
    let rs := ProcessChildren env scene newNode rest r.1 r.2.1
    (rs.1, rs.2.1, r.2.2 :: rs.2.2)
end

/-! ## Loading (`Load`, `GetModelRoot`) -/

/-- The loop of `Load` that copies material files: one pass over the files of
the model's directory. -/
def copyMaterialFiles (env : Env) (imp : ModelImporter) : List String → World → World
  | [], w => w
  | file :: rest, w =>
    let w :=
      if env.GetExtensionFromPath file = ".mtl" then
        w.emit (Event.CopyFileFromTo imp.m_filePath
          (modelDirectory env imp ++ "/" ++ env.GetFileNameFromPath file))
      else w
    copyMaterialFiles env imp rest w

/-- The loop of `Load` over the descendants of the root: the first live game
object with a mesh filter has its model scale normalized, then the loop ends. -/
def normalizeFirst (env : Env) : List weakGameObj → World → World
  | [], w => w
  | descendantGameObj :: rest, w =>
    match descendantGameObj with
    | some h =>
      if env.GetMeshFilter w.trace h then w.emit (Event.NormalizeModelScale h)
      else normalizeFirst env rest w
    | none => normalizeFirst env rest w

/-- The scale normalization block of `Load`. -/
def normalizeScale (env : Env) (imp : ModelImporter) (w : World) : World :=
  match imp.m_rootGameObject with
  | none => w
  | some root => normalizeFirst env (env.GetDescendants w.trace root) w

/-- The file system part of `Load`: create the model's directories, copy the
model file, copy the material files found next to it. -/
def prepareModelFiles (env : Env) (imp : ModelImporter) (w : World) : World :=
  let w := w.emit (Event.CreateDirectory "Standard Assets/Models/")
  let w := w.emit (Event.CreateDirectory (modelDirectory env imp))
  let w := w.emit (Event.CreateDirectory (modelDirectory env imp ++ "/Meshes/"))
  let w := w.emit (Event.CreateDirectory (modelDirectory env imp ++ "/Materials/"))
  let w := w.emit (Event.CreateDirectory (modelDirectory env imp ++ "/Textures/"))
  let modelDestination := modelDirectory env imp ++ "/" ++ env.GetFileNameFromPath imp.m_modelName
  let w := w.emit (Event.CopyFileFromTo imp.m_filePath modelDestination)
  let files := env.GetFilesInDirectory w.trace (env.GetPathWithoutFileName imp.m_filePath)
  copyMaterialFiles env imp files w

/-- The part of `Load` after a scene has been read: file system work, node
processing, scale normalization, and the final flag update. -/
def loadScene (env : Env) (imp : ModelImporter) (w : World) (scene : aiScene) :
    Bool × ModelImporter × World :=
  let w := prepareModelFiles env imp w
  let r := ProcessNode env scene scene.mRootNode none none imp w
  let imp := r.1
  let w := r.2.1
  let w := normalizeScale env imp w
  let imp := { imp with m_isLoading := false }
  (true, imp, w)

/-- The assignments at the start of `Load`, once a context is known to exist. -/
def beginLoad (env : Env) (imp : ModelImporter) (filePath : String) : ModelImporter :=
  let imp := { imp with m_isLoading := true }
  let imp := { imp with m_filePath := filePath }
  let imp := { imp with m_rootGameObject := none }
  { imp with m_modelName := env.GetFileNameFromPath imp.m_filePath }

/-- Source function `ModelImporter::Load`: the returned flag, the importer
after the call and the world after the call. -/
def Load (env : Env) (imp : ModelImporter) (w : World) (filePath : String) :
    Bool × ModelImporter × World :=
  if !imp.m_context then
    (false, imp,
      w.emit (Event.Log LogLevel.Error
        "Aborting loading. ModelImporter requires an initialized Context"))
  else
    let imp := beginLoad env imp filePath
    match env.ReadFile w.trace imp.m_filePath with
    | none =>
      (false, imp,
        w.emit (Event.Log LogLevel.Error
          ("Failed to load \"" ++ env.GetFileNameNoExtensionFromPath imp.m_filePath ++ "\". "
            ++ env.GetErrorString w.trace imp.m_filePath)))
    | some scene => loadScene env imp w scene

/-- Source function `ModelImporter::GetModelRoot`. -/
def GetModelRoot (imp : ModelImporter) : weakGameObj :=
  if !imp.m_isLoading then imp.m_rootGameObject else none

/-! ## Mesh data (`Graphics/Mesh.h`) -/

/-- Conversion `(unsigned int)` of a container size. -/
def toUInt32 (n : Nat) : Nat := n % 2 ^ 32

/-- Data members of `Mesh` that its inline setters and getters touch. -/
structure Mesh where
  m_rootGameObjectID : String
  m_directory : String
  m_vertices : List VertexPosTexNorTan
  m_indices : List Nat
  m_vertexCount : Nat
  m_indexCount : Nat
  m_triangleCount : Nat
  m_min : Vector3
  m_max : Vector3
  m_center : Vector3
  m_boundingBox : Vector3
deriving DecidableEq

/-- Source function `Mesh::SetVertices`. -/
def Mesh.SetVertices (mesh : Mesh) (vertices : List VertexPosTexNorTan) : Mesh :=
  let mesh := { mesh with m_vertices := vertices }
  { mesh with m_vertexCount := toUInt32 vertices.length }

/-- Source function `Mesh::SetIndices`. -/
def Mesh.SetIndices (mesh : Mesh) (indices : List Nat) : Mesh :=
  let mesh := { mesh with m_indices := indices }
  let mesh := { mesh with m_indexCount := toUInt32 indices.length }
  { mesh with m_triangleCount := mesh.m_indexCount / 3 }

/-- Source function `Mesh::GetVertexCount`. -/
def Mesh.GetVertexCount (mesh : Mesh) : Nat := mesh.m_vertexCount

/-- Source function `Mesh::GetIndexCount`. -/
def Mesh.GetIndexCount (mesh : Mesh) : Nat := mesh.m_indexCount

/-- Source function `Mesh::GetTriangleCount`. -/
def Mesh.GetTriangleCount (mesh : Mesh) : Nat := mesh.m_triangleCount

/-- Source function `Mesh::GetMin`. -/
def Mesh.GetMin (mesh : Mesh) : Vector3 := mesh.m_min

/-- Source function `Mesh::GetMax`. -/
def Mesh.GetMax (mesh : Mesh) : Vector3 := mesh.m_max

/-- Source function `Mesh::GetCenter`. -/
def Mesh.GetCenter (mesh : Mesh) : Vector3 := mesh.m_center

/-- Source function `Mesh::GetBoundingBox`. -/
def Mesh.GetBoundingBox (mesh : Mesh) : Vector3 := mesh.m_boundingBox

/-- A mesh without vertices or indices whose extents are all zero. -/
def Mesh.empty : Mesh :=
  ⟨"", "", [], [], 0, 0, 0, Vector3.Zero, Vector3.Zero, Vector3.Zero, Vector3.Zero⟩

/-! ## A concrete environment for evaluation -/

/-- Position of the last `/` or `\` in a path, if any
(`find_last_of("\\/")`). -/
def lastSeparator : List Char → Option Nat
  | [] => none
  | x :: xs =>
    match lastSeparator xs with
    | some i => some (i + 1)
    | none => if x = '/' ∨ x = '\\' then some 0 else none

/-- Modelled from the spec: `FileSystem::GetFileNameFromPath` is not in the
source tree; "just the filename, ignoring directory" is what follows the last
directory separator of the path. -/
def sampleFileName (path : String) : String :=
  match lastSeparator path.data with
  | some i => String.mk (path.data.drop (i + 1))
  | none => path

/-- Modelled from the spec: `FileSystem::GetPathWithoutFileName` is not in
the source tree; the model's own directory is the path up to and including
its last directory separator. -/
def samplePathWithoutFileName (path : String) : String :=
  match lastSeparator path.data with
  | some i => String.mk (path.data.take (i + 1))
  | none => ""

/-- Modelled from the spec: `FileSystem::GetFileNameNoExtensionFromPath` is
not in the source tree; the file-stem is the file name without its
extension. -/
def sampleFileNameNoExtension (path : String) : String :=
  removeExtension (sampleFileName path)

/-- Modelled from the spec: `FileSystem::GetExtensionFromPath` is not in the
source tree; the extension is the part of the path from its last dot on. -/
def sampleExtension (path : String) : String :=
  match find_last_of path.data '.' with
  | some i => String.mk (path.data.drop i)
  | none => ""

/-- An environment over a fixed set of existing files and a fixed parser
outcome: `DATA_NOT_ASSIGNED` is `"N/A"`, the supported image extensions are
`.jpg`, `.png`, `.tga`; every other collaborator succeeds, and no game object
has descendants or a mesh filter. -/
def sampleEnv (files : List String) (scene : Option aiScene) : Env where
  DATA_NOT_ASSIGNED := "N/A"
  defaultVertex := ⟨Vector3.Zero, Vector2.Zero, Vector3.Zero, Vector3.Zero⟩
  newMaterial := ⟨"", "", CullMode.CullBack, ⟨1, 1, 1, 1⟩, 1, []⟩
  GetFileNameFromPath := sampleFileName
  GetFileNameNoExtensionFromPath := sampleFileNameNoExtension
  GetPathWithoutFileName := samplePathWithoutFileName
  GetExtensionFromPath := sampleExtension
  GetSupportedImageFileFormats := [".jpg", ".png", ".tga"]
  FileExists := fun _ path => decide (path ∈ files)
  GetFilesInDirectory := fun _ _ => []
  ReadFile := fun _ _ => scene
  GetErrorString := fun _ _ => "Unable to open file"
  GetID := fun h => toString h
  HasMesh := fun _ _ => true
  Decompose := fun _ => (⟨1, 1, 1⟩, ⟨0, 0, 0, 1⟩, ⟨0, 0, 0⟩)
  ResourceAdd := fun _ m => some m
  LoadTexture := fun _ _ => true
  GetDescendants := fun _ _ => []
  GetMeshFilter := fun _ _ => false

/-- The identity transformation. -/
def aiMatrix4x4.identity : aiMatrix4x4 := ⟨1, 0, 0, 0, 0, 1, 0, 0, 0, 0, 1, 0, 0, 0, 0, 1⟩

/-- A mesh of three vertices without normals, tangents or UVs, with one
triangle, one two-index face and one four-index face. -/
def sampleMesh : aiMesh :=
  ⟨"mesh", 3, fun i => ⟨i.val, 0, 0⟩, none, none, none, [⟨[0, 1, 2]⟩, ⟨[0, 1]⟩, ⟨[2, 1, 0, 1]⟩], 0⟩

/-- A leaf node without meshes. -/
def sampleWheel : aiNode 1 := aiNode.mk "wheel" true aiMatrix4x4.identity [] []

/-- A node with one mesh reference and one child. -/
def sampleBody : aiNode 1 := aiNode.mk "body" true aiMatrix4x4.identity [0] [sampleWheel]

/-- A scene with one mesh and no materials: the root references the mesh
three times and has two children; the first child references the mesh once
and has a child of its own. -/
def sampleScene : aiScene :=
  ⟨1, fun _ => sampleMesh, [],
    aiNode.mk "RootNode" false aiMatrix4x4.identity [0, 0, 0]
      [sampleBody, aiNode.mk "roof" true aiMatrix4x4.identity [] []]⟩

/-- A mesh without vertices that still has a three-index face. -/
def danglingMesh : aiMesh :=
  ⟨"dangling", 0, Fin.elim0, none, none, none, [⟨[0, 1, 2]⟩], 0⟩

/-- An importer that has been given a context and has loaded nothing yet. -/
def sampleImporter : ModelImporter :=
  ⟨true, false, "", none, ""⟩

/-- An engine in which no game object exists and nothing has happened. -/
def emptyWorld : World := ⟨0, []⟩

/-! ## A model of the scene graph behind the oracles -/

/-- Modelled from the spec: `Transform::GetDescendants` is not in the source
tree; "produces the full subtree via depth-first traversal", pre-order, of the
nodes "reachable by following children transitively". The tree is the list of
(child, parent) links in the order the children were appended; `fuel` bounds
the depth. -/
def descendantsOf : Nat → List (Nat × Nat) → Nat → List Nat
  | 0, _, _ => []
  | fuel + 1, links, h =>
    ((links.filter (fun link => decide (link.2 = h))).map Prod.fst).flatMap
      (fun child => child :: descendantsOf fuel links child)

/-- Modelled from the spec: `Transform::IsDescendantOf` is declared in
`Transform.h` only; `node` is a descendant of `ancestor` when the traversal of
the subtree of `ancestor` reaches it. -/
def isDescendantOf (links : List (Nat × Nat)) (node ancestor : Nat) : Bool :=
  (descendantsOf (links.length + 1) links ancestor).contains node

/-- Modelled from the spec: `Transform::GetParent` is declared in
`Transform.h` only; the parent link of `node`, if it has one. -/
def parentIn (links : List (Nat × Nat)) (node : Nat) : Option Nat :=
  (links.find? (fun link => decide (link.1 = node))).map Prod.snd

/-- Modelled from the spec: `Transform::GetChildren` is declared in
`Transform.h` only; the child sequence of `node`, in the order appended. -/
def childrenIn (links : List (Nat × Nat)) (node : Nat) : List Nat :=
  (links.filter (fun link => decide (link.2 = node))).map Prod.fst

/-- Modelled from the spec: `Transform::SetParent` is declared in
`Transform.h` only; it "detaches from current parent's child list (if any),
appends to new parent's child list" and "fails silently/no-ops if `node` is a
descendant of self (cycle prevention)". -/
def setParent (links : List (Nat × Nat)) (self : Nat) (newParent : weakGameObj) :
    List (Nat × Nat) :=
  match newParent with
  | none => links.filter (fun link => decide (link.1 ≠ self))
  | some p =>
    if isDescendantOf links p self then links
    else links.filter (fun link => decide (link.1 ≠ self)) ++ [(self, p)]

/-- The (child, parent) links after one more event: a `SetParent` call acts
as `setParent`, any other event leaves the links alone. -/
def applySetParent (links : List (Nat × Nat)) : Event → List (Nat × Nat)
  | Event.SetParent child parent => setParent links child parent
  | _ => links

/-- The (child, parent) links after a list of events. -/
def parentLinks (hist : List Event) : List (Nat × Nat) :=
  hist.foldl applySetParent []

/-- Modelled from the spec: `GetComponent<MeshFilter>` is not in the source
tree; a game object has a mesh filter once `AddComponent<MeshFilter>` has been
called on it. -/
def hasMeshFilter (hist : List Event) (h : Nat) : Bool :=
  hist.any (fun e => decide (e = Event.AddMeshFilter h))

/-- The sample environment with the scene graph modelled from the events:
descendants follow the `SetParent` calls made so far, mesh filters follow the
`AddComponent<MeshFilter>` calls, and the model's directory lists
`dirFiles`. -/
def engineEnv (files dirFiles : List String) (scene : Option aiScene) : Env :=
  { sampleEnv files scene with
    GetFilesInDirectory := fun _ _ => dirFiles
    GetDescendants := fun hist h =>
      (descendantsOf ((parentLinks hist).length + 1) (parentLinks hist) h).map some
    GetMeshFilter := hasMeshFilter }

/-- A scene with one mesh and no materials whose root node references the
mesh once and has no children. -/
def rootMeshScene : aiScene :=
  ⟨1, fun _ => sampleMesh, [], aiNode.mk "RootNode" false aiMatrix4x4.identity [0] []⟩

/-! ## Mesh pool (`Directus3D/Pools/MeshPool.h`) -/

/-- Modelled from the spec: `MeshData` (`Core/MeshData.h`) is not in the source
tree; a pooled mesh has an "owning root-entity identifier", vertex positions
and a cached bounding size. -/
structure MeshData where
  rootGameObjectID : String
  vertices : List Vector3
  boundingSize : Rat
deriving DecidableEq

/-- Scaling of a position by a factor. -/
def Vector3.scale (factor : Rat) (v : Vector3) : Vector3 :=
  ⟨factor * v.x, factor * v.y, factor * v.z⟩

/-- Modelled from the spec: `MeshPool::GetModelMeshesByModelName` is declared
in `MeshPool.h` only; "secondary lookup is a linear or indexed scan grouping
all meshes whose owning model matches". -/
def GetModelMeshesByModelName (pool : List MeshData) (modelName : String) : List MeshData :=
  pool.filter (fun mesh => decide (mesh.rootGameObjectID = modelName))

/-- Modelled from the spec: `MeshPool::GetLargestBoundingBox` is declared in
`MeshPool.h` only; the mesh of largest bounding size, and "when multiple
meshes have equal maximal extent, the first encountered in iteration order
wins". -/
def GetLargestBoundingBox : List MeshData → Option MeshData
  | [] => none
  | mesh :: rest =>
    some (rest.foldl
      (fun largest candidate =>
        if largest.boundingSize < candidate.boundingSize then candidate else largest) mesh)

/-- Modelled from the spec: `MeshPool::GetNormalizedModelScaleByRootGameObjectID`
is declared in `MeshPool.h` only; "a normalization target divided by that
largest extent". A model without meshes is left at scale 1. -/
def GetNormalizedModelScaleByRootGameObjectID (target : Rat) (pool : List MeshData)
    (rootGameObjectID : String) : Rat :=
  match GetLargestBoundingBox (GetModelMeshesByModelName pool rootGameObjectID) with
  | some largest => target / largest.boundingSize
  | none => 1

/-- Modelled from the spec: `MeshPool::SetMeshScale` is declared in
`MeshPool.h` only; every vertex is scaled by the factor and "scale mutation of
a mesh invalidates and recomputes its cached bounding extents". -/
def SetMeshScale (meshData : MeshData) (scale : Rat) : MeshData :=
  { meshData with
    vertices := meshData.vertices.map (Vector3.scale scale)
    boundingSize := scale * meshData.boundingSize }

/-- Modelled from the spec: `MeshPool::SetModelScale` is declared in
`MeshPool.h` only; it "applies that same factor to every mesh" of the model. -/
def SetModelScale (pool : List MeshData) (rootGameObjectID : String) (scale : Rat) :
    List MeshData :=
  pool.map (fun mesh =>
    if mesh.rootGameObjectID = rootGameObjectID then SetMeshScale mesh scale else mesh)

/-- Modelled from the spec: `MeshPool::NormalizeModelScale` is declared in
`MeshPool.h` only; it "computes the largest bounding-box extent among all
meshes under `rootEntity`'s subtree, derives a single uniform scale factor (a
normalization target divided by that largest extent), and applies that same
factor to every mesh in the subtree". -/
def NormalizeModelScale (target : Rat) (pool : List MeshData) (rootGameObjectID : String) :
    List MeshData :=
  SetModelScale pool rootGameObjectID
    (GetNormalizedModelScaleByRootGameObjectID target pool rootGameObjectID)

/-- Three meshes of one model with bounding sizes 2, 5 and 10, and a mesh of
another model. -/
def samplePool : List MeshData :=
  [⟨"car", [⟨2, 0, 0⟩], 2⟩, ⟨"car", [⟨0, 5, 0⟩], 5⟩, ⟨"tree", [⟨0, 0, 40⟩], 40⟩,
   ⟨"car", [⟨0, 0, 10⟩], 10⟩]

/-! ## Editor widget (`Editor/QDirectus3DWidget.cpp`) -/

/-- Qt `QSize`, as far as the widget reads it. -/
structure QSize where
  width : Int
  height : Int
deriving DecidableEq

/-- Qt `QResizeEvent`, as far as the widget reads it: the new size. -/
structure QResizeEvent where
  size : QSize
deriving DecidableEq

/-- Source function `QDirectus3DWidget::Resize`: the width and height it
passes to `Socket::SetViewport`. -/
def QDirectus3DWidget.Resize (width height : Int) : Int × Int :=
  (width, height)

/-- Source function `QDirectus3DWidget::resizeEvent`: the width and height
that reach `Socket::SetViewport`. -/
def QDirectus3DWidget.resizeEvent (evt : QResizeEvent) : Int × Int :=
  let width := evt.size.width
  let height := evt.size.width
  QDirectus3DWidget.Resize width height

/-! ## Reading the event list -/

/-- The mesh data of a `MeshFilter::CreateAndSet` call: game object, mesh
name, root identifier, vertices and indices. -/
def Event.createdMesh? : Event → Option (Nat × String × String × List VertexPosTexNorTan × List Nat)
  | Event.CreateAndSet h name rootID vertices indices => some (h, name, rootID, vertices, indices)
  | _ => none

/-- The handle of a `Scene::CreateGameObject` call. -/
def Event.created? : Event → Option Nat
  | Event.CreateGameObject h => some h
  | _ => none

/-- Subject and argument of a `Transform::SetParent` call. -/
def Event.parentCall? : Event → Option (Nat × weakGameObj)
  | Event.SetParent h parent => some (h, parent)
  | _ => none

/-- Events of resource handling: logging, file copies, textures, materials
and the mesh directory. None of them creates, names, attaches or moves a
game object, or hands over mesh data. -/
def Event.isResourceWork : Event → Bool
  | Event.Log _ _ => true
  | Event.CopyFileFromTo _ _ => true
  | Event.LoadTexture _ => true
  | Event.SetTextureType _ _ => true
  | Event.AddMaterial _ => true
  | Event.AddMeshRenderer _ => true
  | Event.SetMaterial _ _ => true
  | Event.SaveMaterial _ _ => true
  | Event.SetDirectory _ _ => true
  | _ => false

/-- The world `w'` is reached from `w` by emitting events that all satisfy
`P`, without creating a game object. -/
def EmitsOnly (P : Event → Prop) (w w' : World) : Prop :=
  w'.nextHandle = w.nextHandle ∧ ∃ evs, w'.trace = w.trace ++ evs ∧ ∀ e ∈ evs, P e

/-- The events of `w'` that were emitted after `w`. -/
def World.since (w' w : World) : List Event := w'.trace.drop w.trace.length

/-- Concatenation, in face order, of the index lists of the faces that have at
least three indices. -/
def triangleIndices (faces : List aiFace) : List Nat :=
  ((faces.filter (fun face => decide (3 ≤ face.mIndices.length))).map aiFace.mIndices).flatten

/-- The `SetParent` calls among some events, in order: subject and new
parent. -/
def parentCalls (evs : List Event) : List (Nat × weakGameObj) :=
  evs.filterMap Event.parentCall?

/-- The arguments of the `SetParent` calls made on the transform of game
object `h`, in order. -/
def parentsSetOn (h : Nat) (evs : List Event) : List weakGameObj :=
  (parentCalls evs).filterMap (fun call => if call.1 = h then some call.2 else none)

/-- The mesh data `ProcessMesh` hands over when it processes mesh reference
`m` of the scene for game object `h`. -/
def meshCall (env : Env) (imp : ModelImporter) (scene : aiScene) (h : Nat)
    (m : Fin scene.mNumMeshes) : Nat × String × String × List VertexPosTexNorTan × List Nat :=
  (h, (scene.mMeshes m).mName, rootGameObjID env imp, meshVertices env (scene.mMeshes m),
    meshIndices (scene.mMeshes m))

mutual
/-- All pairs (parent handle, child handle) of a handle tree. -/
def GoTree.edges : GoTree → List (Nat × Nat)
  | GoTree.mk h children => GoTree.edgesFrom h children
/-- All pairs (parent handle, child handle) below a node with handle `h` and
the given child trees. -/
def GoTree.edgesFrom (h : Nat) : List GoTree → List (Nat × Nat)
  | [] => []
  | child :: rest => (h, child.handle) :: (child.edges ++ GoTree.edgesFrom h rest)
end

mutual
/-- The handle tree has the shape of the external tree: node for node, the
same number of children. -/
def Mirrors {n : Nat} : aiNode n → GoTree → Prop
  | aiNode.mk _ _ _ _ mChildren, GoTree.mk _ children => MirrorsList mChildren children
/-- Child lists of equal length whose members mirror each other in order. -/
def MirrorsList {n : Nat} : List (aiNode n) → List GoTree → Prop
  | [], [] => True
  | assimpChild :: rest, child :: children => Mirrors assimpChild child ∧ MirrorsList rest children
  | [], _ :: _ => False
  | _ :: _, [] => False
end

/-- Children of an external node (`aiNode::mChildren`). -/
def aiNode.mChildren {n : Nat} : aiNode n → List (aiNode n)
  | aiNode.mk _ _ _ _ children => children

/-- The external node reached from `node` by following child indices. -/
def aiNode.descend {n : Nat} : aiNode n → List Nat → Option (aiNode n)
  | node, [] => some node
  | node, i :: path =>
    match node.mChildren[i]? with
    | some child => child.descend path
    | none => none

/-- The handle subtree reached from `tree` by following child indices. -/
def GoTree.descend : GoTree → List Nat → Option GoTree
  | tree, [] => some tree
  | tree, i :: path =>
    match tree.children[i]? with
    | some child => child.descend path
    | none => none

/-- What a call of `ProcessNode` on `node`, with parent argument `parent` and
game object `h`, has done when it takes the world from `w` to `w'` and
reports the handle tree `tree`: the tree is rooted at `h` and has the shape
of `node`; every `SetParent` call made is on `h` or on a game object created
during the call; the only such call on `h` attaches it to `parent`; and for
every parent-child pair of the tree the child was created during the call and
the only `SetParent` call on it attaches it to the parent. -/
def NodeBuilt {n : Nat} (node : aiNode n) (parent : weakGameObj) (h : Nat) (w w' : World)
    (tree : GoTree) : Prop :=
  w.nextHandle ≤ w'.nextHandle ∧ tree.handle = h ∧ Mirrors node tree ∧
    ∃ evs, w'.trace = w.trace ++ evs ∧
      (∀ call ∈ parentCalls evs,
        call.1 = h ∨ (w.nextHandle ≤ call.1 ∧ call.1 < w'.nextHandle)) ∧
      parentsSetOn h evs = [parent] ∧
      ∀ p c, (p, c) ∈ tree.edges →
        w.nextHandle ≤ c ∧ c < w'.nextHandle ∧ parentsSetOn c evs = [some p]

/-- What the child loop of `ProcessNode`, run for the game object `h`, has
done when it takes the world from `w` to `w'` and reports the handle trees
`trees` of the children. -/
def ChildrenBuilt {n : Nat} (children : List (aiNode n)) (h : Nat) (w w' : World)
    (trees : List GoTree) : Prop :=
  w.nextHandle ≤ w'.nextHandle ∧ MirrorsList children trees ∧
    ∃ evs, w'.trace = w.trace ++ evs ∧
      (∀ call ∈ parentCalls evs, w.nextHandle ≤ call.1 ∧ call.1 < w'.nextHandle) ∧
      ∀ p c, (p, c) ∈ GoTree.edgesFrom h trees →
        w.nextHandle ≤ c ∧ c < w'.nextHandle ∧ parentsSetOn c evs = [some p]

/-- The handle of a `NormalizeModelScale` call. -/
def Event.normalized? : Event → Option Nat
  | Event.NormalizeModelScale h => some h
  | _ => none

/-- Game object and name of a `SetName` call. -/
def Event.named? : Event → Option (Nat × String)
  | Event.SetName h name => some (h, name)
  | _ => none

/-- Source and destination of a `CopyFileFromTo` call. -/
def Event.copied? : Event → Option (String × String)
  | Event.CopyFileFromTo source destination => some (source, destination)
  | _ => none

/-- The names given to game object `h` by `SetName` calls, in order; the last
one is the name the game object ends up with. -/
def namesSetOn (h : Nat) (evs : List Event) : List String :=
  (evs.filterMap Event.named?).filterMap (fun call => if call.1 = h then some call.2 else none)

/-- The world `w'` is reached from `w` by emitting events that all satisfy
`P`. -/
def Emits (P : Event → Prop) (w w' : World) : Prop :=
  ∃ evs, w'.trace = w.trace ++ evs ∧ ∀ e ∈ evs, P e

/-- Events that processing a node may produce: everything except directory
creation and scale normalization. -/
def Event.isNodeWork : Event → Bool
  | Event.CreateDirectory _ => false
  | Event.NormalizeModelScale _ => false
  | _ => true

/-- Whether the parent pointer of an external node is set (`aiNode::mParent`). -/
def aiNode.hasParent {n : Nat} : aiNode n → Bool
  | aiNode.mk _ hasParent _ _ _ => hasParent

/-- Mesh references of an external node (`aiNode::mMeshes`). -/
def aiNode.mMeshes {n : Nat} : aiNode n → List (Fin n)
  | aiNode.mk _ _ _ mMeshes _ => mMeshes

/-- Name of an external node (`aiNode::mName`). -/
def aiNode.mName {n : Nat} : aiNode n → String
  | aiNode.mk mName _ _ _ _ => mName

mutual
/-- The node and every node below it have their parent pointer set. -/
def aiNode.allHaveParents {n : Nat} : aiNode n → Bool
  | aiNode.mk _ hasParent _ _ mChildren => hasParent && aiNode.allHaveParentsList mChildren
/-- Every node of the list, and every node below one, has its parent pointer
set. -/
def aiNode.allHaveParentsList {n : Nat} : List (aiNode n) → Bool
  | [] => true
  | child :: rest => child.allHaveParents && aiNode.allHaveParentsList rest
end

/-- The vertex the importer is to produce for external vertex `i`: the external
position, and for normal, tangent and UV the external value when the channel
is present and zero when it is missing. -/
def expectedVertex (mesh : aiMesh) (i : Fin mesh.mNumVertices) : VertexPosTexNorTan :=
  { position := ToVector3 (mesh.mVertices i)
    uv := match mesh.mTextureCoords0 with
      | some uvs => ⟨(uvs i).x, (uvs i).y⟩
      | none => Vector2.Zero
    normal := match mesh.mNormals with
      | some mNormals => ToVector3 (mNormals i)
      | none => Vector3.Zero
    tangent := match mesh.mTangents with
      | some mTangents => ToVector3 (mTangents i)
      | none => Vector3.Zero }

/-- The first entry of a descendant list whose game object is alive and has a
mesh filter, judged on the events `hist`. -/
def firstMeshBearing (env : Env) (hist : List Event) : List weakGameObj → Option Nat
  | [] => none
  | some h :: rest => if env.GetMeshFilter hist h then some h else firstMeshBearing env hist rest
  | none :: rest => firstMeshBearing env hist rest

/-- Modelled from the spec: "axis-aligned bounding extents (min, max, center,
size)" of a mesh describe its vertices only if every vertex position lies
between `m_min` and `m_max` in each coordinate. -/
def Mesh.extentsEnclose (mesh : Mesh) : Prop :=
  ∀ v ∈ mesh.m_vertices,
    mesh.m_min.x ≤ v.position.x ∧ v.position.x ≤ mesh.m_max.x ∧
    mesh.m_min.y ≤ v.position.y ∧ v.position.y ≤ mesh.m_max.y ∧
    mesh.m_min.z ≤ v.position.z ∧ v.position.z ≤ mesh.m_max.z

/-- What `ProcessNode` may emit when every importer state it runs under
satisfies `S`: no directory creation and no scale normalization, and every
mesh handed over carries the root identifier computed from such an importer
state. -/
def NodeEvent (env : Env) (S : ModelImporter → Prop) (e : Event) : Prop :=
  e.isNodeWork = true ∧
    ∀ call, e.createdMesh? = some call → ∃ imp, S imp ∧ call.2.2.1 = rootGameObjID env imp

/-- The first six events of the file system part of `Load`: the five
directories and the copy of the model file. -/
def modelSetupEvents (env : Env) (imp : ModelImporter) : List Event :=
  [Event.CreateDirectory "Standard Assets/Models/",
   Event.CreateDirectory (modelDirectory env imp),
   Event.CreateDirectory (modelDirectory env imp ++ "/Meshes/"),
   Event.CreateDirectory (modelDirectory env imp ++ "/Materials/"),
   Event.CreateDirectory (modelDirectory env imp ++ "/Textures/"),
   Event.CopyFileFromTo imp.m_filePath
     (modelDirectory env imp ++ "/" ++ env.GetFileNameFromPath imp.m_modelName)]

/-- The copies `Load` makes for the files of the model's directory: one per
file with extension `.mtl`. -/
def materialCopyEvents (env : Env) (imp : ModelImporter) (files : List String) : List Event :=
  (files.filter (fun file => decide (env.GetExtensionFromPath file = ".mtl"))).map
    (fun file => Event.CopyFileFromTo imp.m_filePath
      (modelDirectory env imp ++ "/" ++ env.GetFileNameFromPath file))

/-- The events of the scale normalization block of `Load`, run with importer
`imp` on the events `hist`. -/
def normalizationEvents (env : Env) (imp : ModelImporter) (hist : List Event) : List Event :=
  match imp.m_rootGameObject with
  | none => []
  | some root =>
    (firstMeshBearing env hist (env.GetDescendants hist root)).toList.map
      Event.NormalizeModelScale

/-- The candidate paths `TryPathWithMultipleExtensions` tests for `fullpath`,
in order. -/
def extensionCandidates (env : Env) (fullpath : String) : List String :=
  env.GetSupportedImageFileFormats.map (fun ext => removeExtension fullpath ++ ext)

mutual
/-- Number of nodes of an external tree. -/
def aiNode.nodeCount {n : Nat} : aiNode n → Nat
  | aiNode.mk _ _ _ _ mChildren => 1 + aiNode.nodeCountList mChildren
/-- Number of nodes of a list of external trees. -/
def aiNode.nodeCountList {n : Nat} : List (aiNode n) → Nat
  | [] => 0
  | child :: rest => child.nodeCount + aiNode.nodeCountList rest
end

mutual
/-- Total number of mesh references over the nodes of an external tree. -/
def aiNode.meshRefCount {n : Nat} : aiNode n → Nat
  | aiNode.mk _ _ _ mMeshes mChildren => mMeshes.length + aiNode.meshRefCountList mChildren
/-- Total number of mesh references over the nodes of a list of external
trees. -/
def aiNode.meshRefCountList {n : Nat} : List (aiNode n) → Nat
  | [] => 0
  | child :: rest => child.meshRefCount + aiNode.meshRefCountList rest
end

/-- What a node contributes to the split count: its number of mesh references
when that is more than one, else nothing. -/
def splitOf (meshRefs : Nat) : Nat := if meshRefs > 1 then meshRefs else 0

mutual
/-- Sum of the mesh-reference counts over the nodes of an external tree that
have more than one mesh reference. -/
def aiNode.splitCount {n : Nat} : aiNode n → Nat
  | aiNode.mk _ _ _ mMeshes mChildren => splitOf mMeshes.length + aiNode.splitCountList mChildren
/-- Sum of the mesh-reference counts over the nodes of a list of external
trees that have more than one mesh reference. -/
def aiNode.splitCountList {n : Nat} : List (aiNode n) → Nat
  | [] => 0
  | child :: rest => child.splitCount + aiNode.splitCountList rest
end

/-- The game objects that received a mesh among some events, one entry per
`MeshFilter::CreateAndSet` call, in order. -/
def meshHandles (evs : List Event) : List Nat :=
  (evs.filterMap Event.createdMesh?).map (fun call => call.1)

/-- From `w` to `w'` exactly `created` game objects were created and exactly
`meshes` meshes were handed over, each to a different game object with a
handle from `lo` on. -/
def Counted (lo created meshes : Nat) (w w' : World) : Prop :=
  w'.nextHandle = w.nextHandle + created ∧
    ∃ evs, w'.trace = w.trace ++ evs ∧
      (evs.filterMap Event.created?).length = created ∧
      (evs.filterMap Event.createdMesh?).length = meshes ∧
      (∀ x ∈ meshHandles evs, lo ≤ x ∧ x < w'.nextHandle) ∧
      (meshHandles evs).Nodup

/-- Whether an event is a naming or attach operation (`SetName`, `SetParent`)
on game object `h`. -/
def Event.isOpOn (h : Nat) : Event → Bool
  | Event.SetName g _ => decide (g = h)
  | Event.SetParent g _ => decide (g = h)
  | _ => false

/-- Whether an event is the attach operation (`SetParent`) of game object
`h`. -/
def Event.isAttachOf (h : Nat) : Event → Bool
  | Event.SetParent g _ => decide (g = h)
  | _ => false

/-- Every event of `evs` that satisfies `P` comes before every event of `evs`
that satisfies `Q`. -/
def Precedes (P Q : Event → Bool) (evs : List Event) : Prop :=
  ∀ (i j : Nat) (e e' : Event), evs[i]? = some e → P e = true → evs[j]? = some e' →
    Q e' = true → i < j

mutual
/-- The handles of a handle tree in pre-order: a node before its children,
the children in order. -/
def GoTree.preorder : GoTree → List Nat
  | GoTree.mk h children => h :: GoTree.preorderList children
/-- The handles of a list of handle trees, tree after tree, each in
pre-order. -/
def GoTree.preorderList : List GoTree → List Nat
  | [] => []
  | child :: rest => child.preorder ++ GoTree.preorderList rest
end

/-- What `ProcessNode`, called for a game object `h`, has done in naming and
attaching when it takes the world from `w` to `w'` and reports the handle tree
`tree`: every naming or attach operation is on `h` or on a game object
created during the call; every handle of the tree other than `h` was created
during the call; and whenever a handle comes before another in the pre-order
of the tree, all operations on the first precede the attach of the second. -/
def NodeOrdered (h : Nat) (w w' : World) (tree : GoTree) : Prop :=
  w.nextHandle ≤ w'.nextHandle ∧ tree.handle = h ∧
    ∃ evs, w'.trace = w.trace ++ evs ∧
      (∀ e ∈ evs, ∀ g, e.isOpOn g = true →
        g = h ∨ (w.nextHandle ≤ g ∧ g < w'.nextHandle)) ∧
      (∀ g ∈ GoTree.preorderList tree.children, w.nextHandle ≤ g ∧ g < w'.nextHandle) ∧
      tree.preorder.Pairwise (fun a b => Precedes (Event.isOpOn a) (Event.isAttachOf b) evs)

/-- What the child loop of `ProcessNode` has done in naming and attaching
when it takes the world from `w` to `w'` and reports the handle trees `trees`
of the children: as `NodeOrdered`, with every game object concerned created
during the loop. -/
def ChildrenOrdered (w w' : World) (trees : List GoTree) : Prop :=
  w.nextHandle ≤ w'.nextHandle ∧
    ∃ evs, w'.trace = w.trace ++ evs ∧
      (∀ e ∈ evs, ∀ g, e.isOpOn g = true → w.nextHandle ≤ g ∧ g < w'.nextHandle) ∧
      (∀ g ∈ GoTree.preorderList trees, w.nextHandle ≤ g ∧ g < w'.nextHandle) ∧
      (GoTree.preorderList trees).Pairwise
        (fun a b => Precedes (Event.isOpOn a) (Event.isAttachOf b) evs)

/-- The game objects that a `SetParent` call among some events attaches
directly under game object `h`, in the order of the calls. -/
def attachedUnder (h : Nat) (evs : List Event) : List Nat :=
  (parentCalls evs).filterMap (fun call => if call.2 = some h then some call.1 else none)

/-- Name, vertices and indices that `ProcessMesh` hands over for an external
mesh. -/
def meshData (env : Env) (mesh : aiMesh) : String × List VertexPosTexNorTan × List Nat :=
  (mesh.mName, meshVertices env mesh, meshIndices mesh)

/-- The meshes handed to game object `h` among some events, one entry per
`MeshFilter::CreateAndSet` call on `h`, in order: name, vertices, indices. -/
def meshesOn (h : Nat) (evs : List Event) :
    List (String × List VertexPosTexNorTan × List Nat) :=
  (evs.filterMap Event.createdMesh?).filterMap
    (fun call => if call.1 = h then some (call.2.1, call.2.2.2.1, call.2.2.2.2) else none)

/-- What the events `evs` say about an external node `p` with game object
tree `gp`: the game objects attached directly under the game object of `p`
are the `p.mMeshes.length` objects `b`, `b + 1`, ... followed by the game
objects of the children of `p`; the former are created among the events; the
one with number `i` receives exactly one mesh, the `i`-th referenced by `p`;
and the game object of `p` receives none. -/
def SplitAt (env : Env) (scene : aiScene) (p : aiNode scene.mNumMeshes) (gp : GoTree) (b : Nat)
    (evs : List Event) : Prop :=
  attachedUnder gp.handle evs =
      List.range' b p.mMeshes.length ++ gp.children.map GoTree.handle ∧
    (∀ x ∈ List.range' b p.mMeshes.length, Event.CreateGameObject x ∈ evs) ∧
    (∀ i m, p.mMeshes[i]? = some m →
      meshesOn (b + i) evs = [meshData env (scene.mMeshes m)]) ∧
    meshesOn gp.handle evs = []

/-- What `ProcessNode`, called for a game object `h` with parent `parent`,
has done about mesh splitting when it takes the world from `w` to `w'` and
reports the handle tree `tree`: the first `SetParent` call attaches `h` to
`parent` and every other one attaches under `h` or under a game object
created during the call; every mesh goes to `h` or to a game object created
during the call; and `SplitAt` holds for every node of the external tree that
has more than one mesh reference, with game objects from the call. -/
def NodeSplit (env : Env) (scene : aiScene) (node : aiNode scene.mNumMeshes)
    (parent : weakGameObj) (h : Nat) (w w' : World) (tree : GoTree) : Prop :=
  w.nextHandle ≤ w'.nextHandle ∧ tree.handle = h ∧
    ∃ evs, w'.trace = w.trace ++ evs ∧
      (∃ rest, parentCalls evs = (h, parent) :: rest ∧
        ∀ call ∈ rest, ∃ x, call.2 = some x ∧
          (x = h ∨ (w.nextHandle ≤ x ∧ x < w'.nextHandle))) ∧
      (∀ x ∈ meshHandles evs, x = h ∨ (w.nextHandle ≤ x ∧ x < w'.nextHandle)) ∧
      ∀ (path : List Nat) (p : aiNode scene.mNumMeshes) (gp : GoTree),
        node.descend path = some p → tree.descend path = some gp → p.mMeshes.length > 1 →
        (gp.handle = h ∨ (w.nextHandle ≤ gp.handle ∧ gp.handle < w'.nextHandle)) ∧
        ∃ b, w.nextHandle ≤ b ∧ b + p.mMeshes.length ≤ w'.nextHandle ∧
          SplitAt env scene p gp b evs

/-- What the child loop of `ProcessNode`, run for the game object `h`, has
done about mesh splitting when it takes the world from `w` to `w'` and
reports the handle trees `trees` of the children: the game objects it
attaches directly under `h` are those of the children, in order; every other
`SetParent` call attaches under a game object created during the loop; every
mesh goes to a game object created during the loop; and `SplitAt` holds for
every node below that has more than one mesh reference. -/
def ChildrenSplit (env : Env) (scene : aiScene) (children : List (aiNode scene.mNumMeshes))
    (h : Nat) (w w' : World) (trees : List GoTree) : Prop :=
  w.nextHandle ≤ w'.nextHandle ∧
    ∃ evs, w'.trace = w.trace ++ evs ∧
      (∀ call ∈ parentCalls evs, ∃ x, call.2 = some x ∧
        (x = h ∨ (w.nextHandle ≤ x ∧ x < w'.nextHandle))) ∧
      attachedUnder h evs = trees.map GoTree.handle ∧
      (∀ x ∈ meshHandles evs, w.nextHandle ≤ x ∧ x < w'.nextHandle) ∧
      ∀ (i : Nat) (c : aiNode scene.mNumMeshes) (t : GoTree) (path : List Nat)
        (p : aiNode scene.mNumMeshes) (gp : GoTree),
        children[i]? = some c → trees[i]? = some t → c.descend path = some p →
        t.descend path = some gp → p.mMeshes.length > 1 →
        (w.nextHandle ≤ gp.handle ∧ gp.handle < w'.nextHandle) ∧
        ∃ b, w.nextHandle ≤ b ∧ b + p.mMeshes.length ≤ w'.nextHandle ∧
          SplitAt env scene p gp b evs

/-! ## Basic facts about traces -/

theorem EmitsOnly.refl (P : Event → Prop) (w : World) : EmitsOnly P w w :=
  ⟨rfl, [], by simp, by simp⟩

theorem EmitsOnly.emit {P : Event → Prop} {w w' : World} (h : EmitsOnly P w w') {e : Event}
    (he : P e) : EmitsOnly P w (w'.emit e) := by
  obtain ⟨hn, evs, ht, hp⟩ := h
  refine ⟨by simp [World.emit, hn], evs ++ [e], by simp [World.emit, ht], ?_⟩
  intro x hx
  rcases List.mem_append.mp hx with hx | hx
  · exact hp x hx
  · simp at hx; subst hx; exact he

theorem EmitsOnly.trans {P : Event → Prop} {w₁ w₂ w₃ : World} (h₁ : EmitsOnly P w₁ w₂)
    (h₂ : EmitsOnly P w₂ w₃) : EmitsOnly P w₁ w₃ := by
  obtain ⟨hn₁, e₁, ht₁, hp₁⟩ := h₁
  obtain ⟨hn₂, e₂, ht₂, hp₂⟩ := h₂
  refine ⟨hn₂.trans hn₁, e₁ ++ e₂, by simp [ht₂, ht₁], ?_⟩
  intro x hx
  rcases List.mem_append.mp hx with hx | hx
  · exact hp₁ x hx
  · exact hp₂ x hx

theorem World.since_append (w w' : World) (evs : List Event) (h : w'.trace = w.trace ++ evs) :
    w'.since w = evs := by
  simp [World.since, h]

/-! ## Resource handling emits only resource events -/

theorem AddTextureToMaterial_emitsOnly (env : Env) (imp : ModelImporter) (w : World)
    (material : Material) (slot : TextureType) (texturePath : String) :
    EmitsOnly (fun e => e.isResourceWork = true) w
      (AddTextureToMaterial env imp w material slot texturePath).2 := by
  unfold AddTextureToMaterial
  simp only []
  split
  · exact EmitsOnly.emit (EmitsOnly.refl _ w) rfl
  · split
    · dsimp only
      refine EmitsOnly.emit (EmitsOnly.emit (EmitsOnly.emit (EmitsOnly.refl _ w) ?_) ?_) ?_ <;> rfl
    · dsimp only
      refine EmitsOnly.emit (EmitsOnly.emit (EmitsOnly.refl _ w) ?_) ?_ <;> rfl

theorem addTextureOfType_emitsOnly (env : Env) (imp : ModelImporter) (material : aiMaterial)
    (kind : aiTextureType) (slot : TextureType) (st : Material × World) :
    EmitsOnly (fun e => e.isResourceWork = true) st.2
      (addTextureOfType env imp material kind slot st).2 := by
  unfold addTextureOfType
  split
  · split
    · exact AddTextureToMaterial_emitsOnly env imp st.2 st.1 slot _
    · exact EmitsOnly.refl _ _
  · exact EmitsOnly.refl _ _

theorem GenerateMaterialFromAiMaterial_emitsOnly (env : Env) (imp : ModelImporter) (w : World)
    (material : aiMaterial) :
    EmitsOnly (fun e => e.isResourceWork = true) w
      (GenerateMaterialFromAiMaterial env imp w material).2 := by
  unfold GenerateMaterialFromAiMaterial
  simp only []
  refine EmitsOnly.trans ?_ (addTextureOfType_emitsOnly _ _ _ _ _ _)
  refine EmitsOnly.trans ?_ (addTextureOfType_emitsOnly _ _ _ _ _ _)
  refine EmitsOnly.trans ?_ (addTextureOfType_emitsOnly _ _ _ _ _ _)
  refine EmitsOnly.trans ?_ (addTextureOfType_emitsOnly _ _ _ _ _ _)
  refine EmitsOnly.trans ?_ (addTextureOfType_emitsOnly _ _ _ _ _ _)
  refine EmitsOnly.trans ?_ (addTextureOfType_emitsOnly _ _ _ _ _ _)
  refine EmitsOnly.trans ?_ (addTextureOfType_emitsOnly _ _ _ _ _ _)
  refine EmitsOnly.trans ?_ (addTextureOfType_emitsOnly _ _ _ _ _ _)
  simp only []
  split
  · exact (EmitsOnly.refl _ w).emit rfl
  · exact EmitsOnly.refl _ w

theorem processMeshMaterial_emitsOnly (env : Env) (imp : ModelImporter) (scene : aiScene)
    (w : World) (mesh : aiMesh) (h : Nat) :
    EmitsOnly (fun e => e.isResourceWork = true) w
      (processMeshMaterial env imp scene w mesh h) := by
  have hg := fun m => GenerateMaterialFromAiMaterial_emitsOnly env imp w m
  unfold processMeshMaterial
  split
  · split
    · simp only []
      split
      · refine EmitsOnly.emit (EmitsOnly.emit (EmitsOnly.emit (EmitsOnly.emit (hg _) ?_) ?_) ?_) ?_
          <;> rfl
      · refine EmitsOnly.emit (EmitsOnly.emit (EmitsOnly.emit (hg _) ?_) ?_) ?_ <;> rfl
    · exact EmitsOnly.refl _ w
  · exact EmitsOnly.refl _ w

/-! ## `ProcessMesh` -/

theorem foldl_push_back (l init : List Nat) :
    l.foldl (fun acc index => acc ++ [index]) init = init ++ l := by
  induction l generalizing init with
  | nil => simp
  | cons x xs ih => simp [ih]

theorem processFace_eq (indices : List Nat) (face : aiFace) :
    processFace indices face =
      indices ++ (if 3 ≤ face.mIndices.length then face.mIndices else []) := by
  unfold processFace aiFace.mNumIndices
  by_cases h : face.mIndices.length < 3
  · have h' : ¬ 3 ≤ face.mIndices.length := by omega
    simp [h, h']
  · have h' : 3 ≤ face.mIndices.length := by omega
    simp [h, h', foldl_push_back]

theorem foldl_processFace (faces : List aiFace) (init : List Nat) :
    faces.foldl processFace init = init ++ triangleIndices faces := by
  induction faces generalizing init with
  | nil => simp [triangleIndices]
  | cons f fs ih =>
    rw [List.foldl_cons, ih, processFace_eq]
    by_cases h : 3 ≤ f.mIndices.length
    · simp [triangleIndices, h, List.filter_cons]
    · simp [triangleIndices, h, List.filter_cons]

theorem meshIndices_eq (mesh : aiMesh) : meshIndices mesh = triangleIndices mesh.mFaces := by
  simp [meshIndices, foldl_processFace]

theorem ProcessMesh_trace (env : Env) (imp : ModelImporter) (scene : aiScene) (w : World)
    (mesh : aiMesh) (h : Nat) :
    (ProcessMesh env imp scene w mesh (some h)).nextHandle = w.nextHandle ∧
    ∃ evs, (ProcessMesh env imp scene w mesh (some h)).trace =
        w.trace ++ (Event.AddMeshFilter h ::
          Event.CreateAndSet h mesh.mName (rootGameObjID env imp) (meshVertices env mesh)
            (meshIndices mesh) :: evs) ∧
      ∀ e ∈ evs, e.isResourceWork = true := by
  unfold ProcessMesh
  simp only []
  split
  · obtain ⟨hn, evs, ht, hp⟩ := processMeshMaterial_emitsOnly env imp scene
      (((w.emit (Event.AddMeshFilter h)).emit (Event.CreateAndSet h mesh.mName
        (rootGameObjID env imp) (meshVertices env mesh) (meshIndices mesh))).emit
        (Event.SetDirectory h (modelDirectory env imp ++ "/Meshes/"))) mesh h
    refine ⟨by simpa [World.emit] using hn,
      Event.SetDirectory h (modelDirectory env imp ++ "/Meshes/") :: evs, ?_, ?_⟩
    · rw [ht]; simp [World.emit]
    · intro e he
      rcases List.mem_cons.mp he with he | he
      · subst he; rfl
      · exact hp e he
  · obtain ⟨hn, evs, ht, hp⟩ := processMeshMaterial_emitsOnly env imp scene
      ((w.emit (Event.AddMeshFilter h)).emit (Event.CreateAndSet h mesh.mName
        (rootGameObjID env imp) (meshVertices env mesh) (meshIndices mesh))) mesh h
    refine ⟨by simpa [World.emit] using hn, evs, ?_, hp⟩
    rw [ht]; simp [World.emit]

theorem filterMap_createdMesh_resource (evs : List Event)
    (h : ∀ e ∈ evs, e.isResourceWork = true) : evs.filterMap Event.createdMesh? = [] := by
  rw [List.filterMap_eq_nil_iff]
  intro e he
  have := h e he
  cases e <;> simp_all [Event.isResourceWork, Event.createdMesh?]

/-- C1: the only mesh `ProcessMesh` hands to the mesh filter of a live game
object carries, as its index list, the concatenation in face order of the index
lists of the faces that have at least three indices; faces with fewer
indices contribute nothing. -/
theorem ProcessMesh_indices_are_triangle_faces (env : Env) (imp : ModelImporter)
    (scene : aiScene) (w : World) (mesh : aiMesh) (h : Nat) :
    ((ProcessMesh env imp scene w mesh (some h)).since w).filterMap Event.createdMesh? =
      [(h, mesh.mName, rootGameObjID env imp, meshVertices env mesh,
        ((mesh.mFaces.filter (fun face => decide (3 ≤ face.mIndices.length))).map
          aiFace.mIndices).flatten)] := by
  obtain ⟨_, evs, ht, hp⟩ := ProcessMesh_trace env imp scene w mesh h
  rw [World.since_append _ _ _ ht]
  simp [Event.createdMesh?, filterMap_createdMesh_resource evs hp, meshIndices_eq,
    triangleIndices]

/-! ## `FindTexture` -/

/-- C3, evaluation at the failing input: the model is `My.Models/model.obj`
and the reference is `wood`. The joined path `My.Models/wood` does not exist,
the same path under the supported extension `.png` does, yet the paths
tested in its place are `My.jpg`, `My.png`, `My.tga`, and `FindTexture`
returns `DATA_NOT_ASSIGNED`. -/
theorem FindTexture_misses_extension_below_dotted_directory :
    (sampleEnv ["My.Models/wood.png"] none).GetPathWithoutFileName "My.Models/model.obj"
        ++ "wood" = "My.Models/wood" ∧
      (sampleEnv ["My.Models/wood.png"] none).FileExists [] "My.Models/wood" = false ∧
      ".png" ∈ (sampleEnv ["My.Models/wood.png"] none).GetSupportedImageFileFormats ∧
      (sampleEnv ["My.Models/wood.png"] none).FileExists [] ("My.Models/wood" ++ ".png")
        = true ∧
      extensionCandidates (sampleEnv ["My.Models/wood.png"] none) "My.Models/wood" =
        ["My.jpg", "My.png", "My.tga"] ∧
      FindTexture (sampleEnv ["My.Models/wood.png"] none)
        { sampleImporter with m_filePath := "My.Models/model.obj" } [] "wood" =
          (sampleEnv ["My.Models/wood.png"] none).DATA_NOT_ASSIGNED := by
  decide

/-- C4, evaluation at the failing input: the model is
`Assets/Models/X/model.obj`, the reference `Textures\foo.tga` does not exist
relative to the model's directory, `foo.png` exists in the model's directory
(and nowhere else), and `FindTexture` returns `DATA_NOT_ASSIGNED`. -/
theorem FindTexture_misses_png_in_model_directory :
    (sampleEnv ["Assets/Models/X/foo.png"] none).FileExists []
        ((sampleEnv ["Assets/Models/X/foo.png"] none).GetPathWithoutFileName
          "Assets/Models/X/model.obj" ++ "Textures\\foo.tga") = false ∧
      (sampleEnv ["Assets/Models/X/foo.png"] none).FileExists []
        ((sampleEnv ["Assets/Models/X/foo.png"] none).GetPathWithoutFileName
          "Assets/Models/X/model.obj" ++ "foo.png") = true ∧
      FindTexture (sampleEnv ["Assets/Models/X/foo.png"] none)
        { sampleImporter with m_filePath := "Assets/Models/X/model.obj" } []
        "Textures\\foo.tga" = (sampleEnv ["Assets/Models/X/foo.png"] none).DATA_NOT_ASSIGNED := by
  decide

/-! ## `Load` and `GetModelRoot` -/

theorem Load_of_no_scene (env : Env) (imp : ModelImporter) (w : World) (filePath : String)
    (hc : imp.m_context = true) (hs : env.ReadFile w.trace filePath = none) :
    Load env imp w filePath =
      (false, beginLoad env imp filePath,
        w.emit (Event.Log LogLevel.Error
          ("Failed to load \"" ++ env.GetFileNameNoExtensionFromPath filePath ++ "\". "
            ++ env.GetErrorString w.trace filePath))) := by
  have hp : (beginLoad env imp filePath).m_filePath = filePath := rfl
  unfold Load
  rw [if_neg (by simp [hc])]
  simp only [hp]
  rw [hs]

theorem Load_of_scene (env : Env) (imp : ModelImporter) (w : World) (filePath : String)
    (scene : aiScene) (hc : imp.m_context = true)
    (hs : env.ReadFile w.trace filePath = some scene) :
    Load env imp w filePath = loadScene env (beginLoad env imp filePath) w scene := by
  have hp : (beginLoad env imp filePath).m_filePath = filePath := rfl
  unfold Load
  rw [if_neg (by simp [hc])]
  simp only [hp]
  rw [hs]

/-- C5: when the importer has a context and the parser yields no scene,
`Load` returns false and `GetModelRoot` afterwards returns the empty handle,
whatever root an earlier load had left in the importer. -/
theorem Load_without_scene_fails_and_leaves_no_root (env : Env) (imp : ModelImporter)
    (w : World) (filePath : String) (hc : imp.m_context = true)
    (hs : env.ReadFile w.trace filePath = none) :
    (Load env imp w filePath).1 = false ∧
      GetModelRoot (Load env imp w filePath).2.1 = none := by
  rw [Load_of_no_scene env imp w filePath hc hs]
  simp [GetModelRoot, beginLoad]

/-- Witness for C5: an importer that still holds the root of an earlier,
successful load is pointed at a path the parser cannot read. -/
theorem Load_without_scene_fails_and_leaves_no_root_witness :
    (Load (sampleEnv [] none) ⟨true, false, "old.obj", some 7, "old.obj"⟩ emptyWorld
        "missing.obj").1 = false ∧
      GetModelRoot (Load (sampleEnv [] none) ⟨true, false, "old.obj", some 7, "old.obj"⟩
        emptyWorld "missing.obj").2.1 = none :=
  Load_without_scene_fails_and_leaves_no_root (sampleEnv [] none)
    ⟨true, false, "old.obj", some 7, "old.obj"⟩ emptyWorld "missing.obj" rfl rfl

/-- C6: `Load` returns false if and only if the importer has no context or
the parser returns no scene; whatever the file system, the resource manager
and the scene contents answer during the build, the result is true. -/
theorem Load_false_iff_no_context_or_no_scene (env : Env) (imp : ModelImporter) (w : World)
    (filePath : String) :
    (Load env imp w filePath).1 = false ↔
      (imp.m_context = false ∨ env.ReadFile w.trace filePath = none) := by
  have hp : (beginLoad env imp filePath).m_filePath = filePath := rfl
  unfold Load
  cases hc : imp.m_context with
  | false => simp
  | true =>
    simp only [Bool.not_true, Bool.false_eq_true, if_false, hp, false_or]
    cases hs : env.ReadFile w.trace filePath with
    | none => simp
    | some scene => simp [loadScene]

/-- C8, evaluation at the failing input: an importer with a context is
pointed at a path the parser cannot read; `Load` returns false and the
is-loading flag, set on entry, is still set. -/
theorem Load_parse_failure_leaves_loading_flag :
    (Load (sampleEnv [] none) sampleImporter emptyWorld "missing.obj").1 = false ∧
      (Load (sampleEnv [] none) sampleImporter emptyWorld "missing.obj").2.1.m_isLoading
        = true := by
  decide

/-! ## `AddTextureToMaterial` -/

/-- C9: when `FindTexture` returns `DATA_NOT_ASSIGNED` for the reference,
`AddTextureToMaterial` returns the material unchanged and its only effect is
one warning log line: no file is copied and no texture is loaded. -/
theorem AddTextureToMaterial_not_found_leaves_material (env : Env) (imp : ModelImporter)
    (w : World) (material : Material) (slot : TextureType) (texturePath : String)
    (h : FindTexture env imp w.trace texturePath = env.DATA_NOT_ASSIGNED) :
    AddTextureToMaterial env imp w material slot texturePath =
      (material,
        w.emit (Event.Log LogLevel.Warning ("Failed to find \"" ++ texturePath ++ "\"."))) := by
  unfold AddTextureToMaterial
  simp [h]

/-- Witness for C9: no file exists at all, so the search for `wood.jpg`
fails. -/
theorem AddTextureToMaterial_not_found_leaves_material_witness :
    AddTextureToMaterial (sampleEnv [] none) sampleImporter emptyWorld
        (sampleEnv [] none).newMaterial TextureType.Albedo_Texture "wood.jpg" =
      ((sampleEnv [] none).newMaterial,
        emptyWorld.emit (Event.Log LogLevel.Warning ("Failed to find \"" ++ "wood.jpg" ++ "\"."))) :=
  AddTextureToMaterial_not_found_leaves_material (sampleEnv [] none) sampleImporter emptyWorld
    (sampleEnv [] none).newMaterial TextureType.Albedo_Texture "wood.jpg" (by decide)

/-! ## The mesh loop of `ProcessNode` -/

theorem meshGameObject_many (mName : String) (mNumMeshes newNode i : Nat) (w : World)
    (h : mNumMeshes > 1) :
    meshGameObject mName mNumMeshes newNode i w =
      (w.nextHandle, mName ++ ("_" ++ toString (i + 1)),
        ⟨w.nextHandle + 1, w.trace ++ [Event.CreateGameObject w.nextHandle,
          Event.SetParent w.nextHandle (some newNode)]⟩) := by
  simp [meshGameObject, h, CreateGameObject, World.emit]

theorem meshGameObject_single (mName : String) (mNumMeshes newNode i : Nat) (w : World)
    (h : ¬ mNumMeshes > 1) :
    meshGameObject mName mNumMeshes newNode i w = (newNode, mName, w) := by
  simp [meshGameObject, h]

theorem filterMap_created_resource (evs : List Event)
    (h : ∀ e ∈ evs, e.isResourceWork = true) : evs.filterMap Event.created? = [] := by
  rw [List.filterMap_eq_nil_iff]
  intro e he
  have := h e he
  cases e <;> simp_all [Event.isResourceWork, Event.created?]

theorem parentCalls_resource (evs : List Event)
    (h : ∀ e ∈ evs, e.isResourceWork = true) : parentCalls evs = [] := by
  unfold parentCalls
  rw [List.filterMap_eq_nil_iff]
  intro e he
  have := h e he
  cases e <;> simp_all [Event.isResourceWork, Event.parentCall?]

theorem parentCalls_append (a b : List Event) :
    parentCalls (a ++ b) = parentCalls a ++ parentCalls b := by
  simp [parentCalls]

/-- One pass of the mesh loop of a node with several meshes, spelled out. -/
theorem processNodeMeshes_many_step (env : Env) (imp : ModelImporter) (scene : aiScene)
    (mName : String) (mNumMeshes newNode i : Nat) (m : Fin scene.mNumMeshes) (w : World)
    (h : mNumMeshes > 1) :
    ∃ evs, (∀ e ∈ evs, e.isResourceWork = true) ∧
      (ProcessMesh env imp scene
        ((meshGameObject mName mNumMeshes newNode i w).2.2.emit
          (Event.SetName (meshGameObject mName mNumMeshes newNode i w).1
            (meshGameObject mName mNumMeshes newNode i w).2.1))
        (scene.mMeshes m) (some (meshGameObject mName mNumMeshes newNode i w).1)) =
      ⟨w.nextHandle + 1, w.trace ++ (Event.CreateGameObject w.nextHandle ::
        Event.SetParent w.nextHandle (some newNode) ::
        Event.SetName w.nextHandle (mName ++ ("_" ++ toString (i + 1))) ::
        Event.AddMeshFilter w.nextHandle ::
        Event.CreateAndSet w.nextHandle (scene.mMeshes m).mName (rootGameObjID env imp)
          (meshVertices env (scene.mMeshes m)) (meshIndices (scene.mMeshes m)) :: evs)⟩ := by
  rw [meshGameObject_many _ _ _ _ _ h]
  obtain ⟨hn, evs, ht, hp⟩ := ProcessMesh_trace env imp scene
    ((⟨w.nextHandle + 1, w.trace ++ [Event.CreateGameObject w.nextHandle,
      Event.SetParent w.nextHandle (some newNode)]⟩ : World).emit
        (Event.SetName w.nextHandle (mName ++ ("_" ++ toString (i + 1)))))
    (scene.mMeshes m) w.nextHandle
  refine ⟨evs, hp, ?_⟩
  dsimp only at hn ht ⊢
  generalize ProcessMesh env imp scene _ _ _ = w' at hn ht ⊢
  cases w' with
  | mk nh tr =>
    simp only [World.emit] at hn ht
    simp only [World.mk.injEq]
    exact ⟨hn, by rw [ht]; simp⟩

theorem processNodeMeshes_many (env : Env) (imp : ModelImporter) (scene : aiScene)
    (mName : String) (mNumMeshes newNode : Nat) (h : mNumMeshes > 1)
    (rest : List (Fin scene.mNumMeshes)) :
    ∀ (i : Nat) (w : World),
      (processNodeMeshes env imp scene mName mNumMeshes newNode i rest w).nextHandle =
          w.nextHandle + rest.length ∧
      ∃ evs, (processNodeMeshes env imp scene mName mNumMeshes newNode i rest w).trace =
          w.trace ++ evs ∧
        evs.filterMap Event.created? = (rest.enumFrom w.nextHandle).map Prod.fst ∧
        parentCalls evs =
          (rest.enumFrom w.nextHandle).map (fun p => (p.1, some newNode)) ∧
        evs.filterMap Event.createdMesh? =
          (rest.enumFrom w.nextHandle).map (fun p => meshCall env imp scene p.1 p.2) := by
  induction rest with
  | nil =>
    intro i w
    exact ⟨by simp [processNodeMeshes], [], by simp [processNodeMeshes], by simp,
      by simp [parentCalls], by simp⟩
  | cons m rest ih =>
    intro i w
    obtain ⟨evs₁, hp, hstep⟩ := processNodeMeshes_many_step env imp scene mName mNumMeshes
      newNode i m w h
    have hunf : processNodeMeshes env imp scene mName mNumMeshes newNode i (m :: rest) w =
        processNodeMeshes env imp scene mName mNumMeshes newNode (i + 1) rest
          (ProcessMesh env imp scene
            ((meshGameObject mName mNumMeshes newNode i w).2.2.emit
              (Event.SetName (meshGameObject mName mNumMeshes newNode i w).1
                (meshGameObject mName mNumMeshes newNode i w).2.1))
            (scene.mMeshes m) (some (meshGameObject mName mNumMeshes newNode i w).1)) := rfl
    rw [hunf, hstep]
    obtain ⟨hn, evs₂, ht, hc, hpc, hm⟩ := ih (i + 1) ⟨w.nextHandle + 1, w.trace ++
      (Event.CreateGameObject w.nextHandle :: Event.SetParent w.nextHandle (some newNode) ::
        Event.SetName w.nextHandle (mName ++ ("_" ++ toString (i + 1))) ::
        Event.AddMeshFilter w.nextHandle ::
        Event.CreateAndSet w.nextHandle (scene.mMeshes m).mName (rootGameObjID env imp)
          (meshVertices env (scene.mMeshes m)) (meshIndices (scene.mMeshes m)) :: evs₁)⟩
    refine ⟨by rw [hn]; simp; omega, _, by rw [ht]; simp only [List.append_assoc]; rfl, ?_, ?_, ?_⟩
    · simp only [List.cons_append, List.filterMap_cons, Event.created?, List.filterMap_append,
        filterMap_created_resource evs₁ hp, hc, List.enumFrom_cons, List.map_cons, List.nil_append]
    · simp only [parentCalls] at hpc ⊢
      simp only [List.cons_append, List.filterMap_cons, Event.parentCall?, List.filterMap_append,
        hpc, List.enumFrom_cons, List.map_cons]
      have := parentCalls_resource evs₁ hp
      simp only [parentCalls] at this
      simp [this]
    · simp only [List.cons_append, List.filterMap_cons, Event.createdMesh?, List.filterMap_append,
        filterMap_createdMesh_resource evs₁ hp, hm, List.enumFrom_cons, List.map_cons,
        List.nil_append, meshCall]

theorem bounds_of_mem_enumFrom {α : Type} (l : List α) :
    ∀ (base : Nat) (p : Nat × α), p ∈ l.enumFrom base →
      base ≤ p.1 ∧ p.1 < base + l.length := by
  induction l with
  | nil => intro base p hp; simp at hp
  | cons x xs ih =>
    intro base p hp
    rw [List.enumFrom_cons] at hp
    rcases List.mem_cons.mp hp with hp | hp
    · subst hp
      simp
    · have := ih (base + 1) p hp
      simp only [List.length_cons]
      omega

/-! ## `ProcessNode` builds a tree that mirrors the external tree -/

theorem parentsSetOn_append (x : Nat) (a b : List Event) :
    parentsSetOn x (a ++ b) = parentsSetOn x a ++ parentsSetOn x b := by
  simp [parentsSetOn, parentCalls_append]

theorem parentsSetOn_eq_nil (x : Nat) (evs : List Event)
    (h : ∀ call ∈ parentCalls evs, call.1 ≠ x) : parentsSetOn x evs = [] := by
  unfold parentsSetOn
  rw [List.filterMap_eq_nil_iff]
  intro call hc
  simp [h call hc]

theorem processNodeMeshes_single (env : Env) (imp : ModelImporter) (scene : aiScene)
    (mName : String) (mNumMeshes newNode : Nat) (h : ¬ mNumMeshes > 1)
    (rest : List (Fin scene.mNumMeshes)) :
    ∀ (i : Nat) (w : World),
      (processNodeMeshes env imp scene mName mNumMeshes newNode i rest w).nextHandle =
          w.nextHandle ∧
      ∃ evs, (processNodeMeshes env imp scene mName mNumMeshes newNode i rest w).trace =
          w.trace ++ evs ∧ parentCalls evs = [] := by
  induction rest with
  | nil =>
    intro i w
    exact ⟨by simp [processNodeMeshes], [], by simp [processNodeMeshes], by simp [parentCalls]⟩
  | cons m rest ih =>
    intro i w
    have hunf : processNodeMeshes env imp scene mName mNumMeshes newNode i (m :: rest) w =
        processNodeMeshes env imp scene mName mNumMeshes newNode (i + 1) rest
          (ProcessMesh env imp scene
            ((meshGameObject mName mNumMeshes newNode i w).2.2.emit
              (Event.SetName (meshGameObject mName mNumMeshes newNode i w).1
                (meshGameObject mName mNumMeshes newNode i w).2.1))
            (scene.mMeshes m) (some (meshGameObject mName mNumMeshes newNode i w).1)) := rfl
    rw [hunf, meshGameObject_single _ _ _ _ _ h]
    dsimp only
    obtain ⟨hn₁, evs₁, ht₁, hp₁⟩ := ProcessMesh_trace env imp scene
      (w.emit (Event.SetName newNode mName)) (scene.mMeshes m) newNode
    obtain ⟨hn₂, evs₂, ht₂, hp₂⟩ := ih (i + 1)
      (ProcessMesh env imp scene (w.emit (Event.SetName newNode mName)) (scene.mMeshes m)
        (some newNode))
    refine ⟨by rw [hn₂, hn₁]; rfl,
      Event.SetName newNode mName :: Event.AddMeshFilter newNode ::
        Event.CreateAndSet newNode (scene.mMeshes m).mName (rootGameObjID env imp)
          (meshVertices env (scene.mMeshes m)) (meshIndices (scene.mMeshes m)) :: (evs₁ ++ evs₂),
      ?_, ?_⟩
    · rw [ht₂, ht₁]
      simp [World.emit]
    · have h₁ := parentCalls_resource evs₁ hp₁
      simp only [parentCalls] at h₁ hp₂ ⊢
      simp [Event.parentCall?, h₁, hp₂]

/-- Every `SetParent` call of the mesh loop is on a game object the loop
created. -/
theorem processNodeMeshes_frame (env : Env) (imp : ModelImporter) (scene : aiScene)
    (mName : String) (mNumMeshes newNode i : Nat) (rest : List (Fin scene.mNumMeshes))
    (w : World) :
    w.nextHandle ≤ (processNodeMeshes env imp scene mName mNumMeshes newNode i rest w).nextHandle ∧
      ∃ evs, (processNodeMeshes env imp scene mName mNumMeshes newNode i rest w).trace =
          w.trace ++ evs ∧
        ∀ call ∈ parentCalls evs, w.nextHandle ≤ call.1 ∧
          call.1 < (processNodeMeshes env imp scene mName mNumMeshes newNode i rest w).nextHandle := by
  by_cases h : mNumMeshes > 1
  · obtain ⟨hn, evs, ht, _, hpc, _⟩ :=
      processNodeMeshes_many env imp scene mName mNumMeshes newNode h rest i w
    refine ⟨by omega, evs, ht, ?_⟩
    intro call hc
    rw [hpc] at hc
    obtain ⟨p, hp, rfl⟩ := List.mem_map.mp hc
    have := bounds_of_mem_enumFrom rest w.nextHandle p hp
    simp only
    omega
  · obtain ⟨hn, evs, ht, hpc⟩ :=
      processNodeMeshes_single env imp scene mName mNumMeshes newNode h rest i w
    refine ⟨by omega, evs, ht, ?_⟩
    intro call hc
    rw [hpc] at hc
    simp at hc

theorem processNodeHead_some (env : Env) (mName : String) (hasParent : Bool)
    (mTransformation : aiMatrix4x4) (parentNode : weakGameObj) (h : Nat) (imp : ModelImporter)
    (w : World) :
    (processNodeHead env mName hasParent mTransformation parentNode (some h) imp w).1 = h ∧
      (processNodeHead env mName hasParent mTransformation parentNode (some h) imp
        w).2.2.nextHandle = w.nextHandle ∧
      ∃ evs, (processNodeHead env mName hasParent mTransformation parentNode (some h) imp
          w).2.2.trace = w.trace ++ evs ∧ parentCalls evs = [(h, parentNode)] := by
  refine ⟨rfl, ?_, ?_⟩
  · cases hasParent <;> simp [processNodeHead, SetGameObjectTransform, World.emit]
  · cases hasParent <;> cases parentNode <;>
      simp [processNodeHead, SetGameObjectTransform, World.emit, parentCalls,
        Event.parentCall?, weakGameObj.expired]

theorem processNodeHead_none (env : Env) (mName : String) (hasParent : Bool)
    (mTransformation : aiMatrix4x4) (parentNode : weakGameObj) (imp : ModelImporter)
    (w : World) :
    processNodeHead env mName hasParent mTransformation parentNode none imp w =
      processNodeHead env mName hasParent mTransformation parentNode (some w.nextHandle) imp
        (CreateGameObject w).2 := by
  simp [processNodeHead, CreateGameObject]

theorem ProcessNode_eq (env : Env) (scene : aiScene) (mName : String) (hasParent : Bool)
    (mTransformation : aiMatrix4x4) (mMeshes : List (Fin scene.mNumMeshes))
    (mChildren : List (aiNode scene.mNumMeshes)) (parentNode newNode : weakGameObj)
    (imp : ModelImporter) (w : World) :
    ProcessNode env scene (aiNode.mk mName hasParent mTransformation mMeshes mChildren)
        parentNode newNode imp w =
      ((ProcessChildren env scene
          (processNodeHead env mName hasParent mTransformation parentNode newNode imp w).1
          mChildren
          (processNodeHead env mName hasParent mTransformation parentNode newNode imp w).2.1
          (processNodeMeshes env
            (processNodeHead env mName hasParent mTransformation parentNode newNode imp w).2.1
            scene mName mMeshes.length
            (processNodeHead env mName hasParent mTransformation parentNode newNode imp w).1 0
            mMeshes
            (processNodeHead env mName hasParent mTransformation parentNode newNode imp
              w).2.2)).1,
        (ProcessChildren env scene
          (processNodeHead env mName hasParent mTransformation parentNode newNode imp w).1
          mChildren
          (processNodeHead env mName hasParent mTransformation parentNode newNode imp w).2.1
          (processNodeMeshes env
            (processNodeHead env mName hasParent mTransformation parentNode newNode imp w).2.1
            scene mName mMeshes.length
            (processNodeHead env mName hasParent mTransformation parentNode newNode imp w).1 0
            mMeshes
            (processNodeHead env mName hasParent mTransformation parentNode newNode imp
              w).2.2)).2.1,
        GoTree.mk
          (processNodeHead env mName hasParent mTransformation parentNode newNode imp w).1
          (ProcessChildren env scene
            (processNodeHead env mName hasParent mTransformation parentNode newNode imp w).1
            mChildren
            (processNodeHead env mName hasParent mTransformation parentNode newNode imp w).2.1
            (processNodeMeshes env
              (processNodeHead env mName hasParent mTransformation parentNode newNode imp w).2.1
              scene mName mMeshes.length
              (processNodeHead env mName hasParent mTransformation parentNode newNode imp w).1 0
              mMeshes
              (processNodeHead env mName hasParent mTransformation parentNode newNode imp
                w).2.2)).2.2) := by
  rw [ProcessNode]

theorem ProcessChildren_cons (env : Env) (scene : aiScene) (newNode : Nat)
    (assimpChild : aiNode scene.mNumMeshes) (rest : List (aiNode scene.mNumMeshes))
    (imp : ModelImporter) (w : World) :
    ProcessChildren env scene newNode (assimpChild :: rest) imp w =
      ((ProcessChildren env scene newNode rest
          (ProcessNode env scene assimpChild (some newNode) (some w.nextHandle) imp
            (CreateGameObject w).2).1
          (ProcessNode env scene assimpChild (some newNode) (some w.nextHandle) imp
            (CreateGameObject w).2).2.1).1,
        (ProcessChildren env scene newNode rest
          (ProcessNode env scene assimpChild (some newNode) (some w.nextHandle) imp
            (CreateGameObject w).2).1
          (ProcessNode env scene assimpChild (some newNode) (some w.nextHandle) imp
            (CreateGameObject w).2).2.1).2.1,
        (ProcessNode env scene assimpChild (some newNode) (some w.nextHandle) imp
            (CreateGameObject w).2).2.2 ::
          (ProcessChildren env scene newNode rest
            (ProcessNode env scene assimpChild (some newNode) (some w.nextHandle) imp
              (CreateGameObject w).2).1
            (ProcessNode env scene assimpChild (some newNode) (some w.nextHandle) imp
              (CreateGameObject w).2).2.1).2.2) := by
  rw [ProcessChildren]
  rfl

theorem ProcessChildren_nil (env : Env) (scene : aiScene) (newNode : Nat)
    (imp : ModelImporter) (w : World) :
    ProcessChildren env scene newNode [] imp w = (imp, w, []) := by
  rw [ProcessChildren]

theorem parentsSetOn_of_calls (x : Nat) (evs : List Event) (p : weakGameObj)
    (h : parentCalls evs = [(x, p)]) : parentsSetOn x evs = [p] := by
  simp [parentsSetOn, h]

mutual
theorem ProcessNode_built (env : Env) (scene : aiScene) :
    ∀ (node : aiNode scene.mNumMeshes) (parent : weakGameObj) (h : Nat) (imp : ModelImporter)
      (w : World), h < w.nextHandle →
      NodeBuilt node parent h w (ProcessNode env scene node parent (some h) imp w).2.1
        (ProcessNode env scene node parent (some h) imp w).2.2
  | aiNode.mk mName hasParent mTransformation mMeshes mChildren, parent, h, imp, w, hlt => by
    rw [ProcessNode_eq]
    obtain ⟨hh1, hhn, evsH, hhT, hhP⟩ :=
      processNodeHead_some env mName hasParent mTransformation parent h imp w
    obtain ⟨hmn, evsM, hmT, hmP⟩ := processNodeMeshes_frame env
      (processNodeHead env mName hasParent mTransformation parent (some h) imp w).2.1
      scene mName mMeshes.length
      (processNodeHead env mName hasParent mTransformation parent (some h) imp w).1 0 mMeshes
      (processNodeHead env mName hasParent mTransformation parent (some h) imp w).2.2
    have hc := ProcessChildren_built env scene mChildren
      (processNodeHead env mName hasParent mTransformation parent (some h) imp w).1
      (processNodeHead env mName hasParent mTransformation parent (some h) imp w).2.1
      (processNodeMeshes env
        (processNodeHead env mName hasParent mTransformation parent (some h) imp w).2.1
        scene mName mMeshes.length
        (processNodeHead env mName hasParent mTransformation parent (some h) imp w).1 0 mMeshes
        (processNodeHead env mName hasParent mTransformation parent (some h) imp w).2.2)
      (by omega)
    rw [hh1] at hc hmn hmT hmP ⊢
    generalize (processNodeHead env mName hasParent mTransformation parent (some h) imp w).2.1
      = imp₁ at hc hmn hmT hmP ⊢
    generalize (processNodeHead env mName hasParent mTransformation parent (some h) imp w).2.2
      = w₁ at hc hmn hmT hmP hhn hhT ⊢
    generalize processNodeMeshes env imp₁ scene mName mMeshes.length h 0 mMeshes w₁ = w₂
      at hc hmn hmT hmP ⊢
    generalize ProcessChildren env scene h mChildren imp₁ w₂ = r at hc ⊢
    obtain ⟨hcn, hcM, evsC, hcT, hcP, hcE⟩ := hc
    refine ⟨by dsimp only; omega, rfl, by simpa [Mirrors] using hcM, evsH ++ (evsM ++ evsC),
      by dsimp only; rw [hcT, hmT, hhT]; simp, ?_, ?_, ?_⟩
    · intro call hcall
      simp only [parentCalls_append, List.mem_append] at hcall
      rcases hcall with hcall | hcall | hcall
      · rw [hhP] at hcall
        simp at hcall
        left; rw [hcall]
      · have := hmP call hcall
        right; dsimp only; omega
      · have := hcP call hcall
        right; dsimp only; omega
    · rw [parentsSetOn_append, parentsSetOn_append, parentsSetOn_of_calls h evsH parent hhP,
        parentsSetOn_eq_nil h evsM, parentsSetOn_eq_nil h evsC]
      · rfl
      · intro call hcall
        have := hcP call hcall
        omega
      · intro call hcall
        have := hmP call hcall
        omega
    · intro p c hpc
      have hpc' : (p, c) ∈ GoTree.edgesFrom h r.2.2 := by simpa [GoTree.edges] using hpc
      obtain ⟨h1, h2, h3⟩ := hcE p c hpc'
      refine ⟨by omega, h2, ?_⟩
      rw [parentsSetOn_append, parentsSetOn_append, h3, parentsSetOn_eq_nil c evsH,
        parentsSetOn_eq_nil c evsM]
      · rfl
      · intro call hcall
        have := hmP call hcall
        omega
      · intro call hcall
        rw [hhP] at hcall
        simp at hcall
        rw [hcall]
        dsimp only
        omega
theorem ProcessChildren_built (env : Env) (scene : aiScene) :
    ∀ (children : List (aiNode scene.mNumMeshes)) (h : Nat) (imp : ModelImporter) (w : World),
      h < w.nextHandle →
      ChildrenBuilt children h w (ProcessChildren env scene h children imp w).2.1
        (ProcessChildren env scene h children imp w).2.2
  | [], h, imp, w, hlt => by
    rw [ProcessChildren_nil]
    exact ⟨Nat.le_refl _, by simp [MirrorsList], [], by simp, by simp [parentCalls],
      by simp [GoTree.edgesFrom]⟩
  | assimpChild :: rest, h, imp, w, hlt => by
    rw [ProcessChildren_cons]
    have h₁ := ProcessNode_built env scene assimpChild (some h) w.nextHandle imp
      (CreateGameObject w).2 (by simp [CreateGameObject])
    have h₂ := ProcessChildren_built env scene rest h
      (ProcessNode env scene assimpChild (some h) (some w.nextHandle) imp
        (CreateGameObject w).2).1
      (ProcessNode env scene assimpChild (some h) (some w.nextHandle) imp
        (CreateGameObject w).2).2.1
      (by
        have := h₁.1
        simp only [CreateGameObject] at this ⊢
        omega)
    generalize ProcessNode env scene assimpChild (some h) (some w.nextHandle) imp
      (CreateGameObject w).2 = r₁ at h₁ h₂ ⊢
    generalize ProcessChildren env scene h rest r₁.1 r₁.2.1 = r₂ at h₂ ⊢
    obtain ⟨n₁, hd₁, m₁, evs₁, t₁, c₁, s₁, e₁⟩ := h₁
    obtain ⟨n₂, m₂, evs₂, t₂, c₂, e₂⟩ := h₂
    simp only [CreateGameObject] at n₁ t₁ c₁ e₁
    refine ⟨by dsimp only; omega, by simp [MirrorsList, m₁, m₂],
      Event.CreateGameObject w.nextHandle :: (evs₁ ++ evs₂),
      by dsimp only; rw [t₂, t₁]; simp, ?_, ?_⟩
    · intro call hcall
      have hcall' : call ∈ parentCalls evs₁ ∨ call ∈ parentCalls evs₂ := by
        simpa [parentCalls, Event.parentCall?] using hcall
      rcases hcall' with hcall' | hcall'
      · have := c₁ call hcall'
        dsimp only
        omega
      · have := c₂ call hcall'
        dsimp only
        omega
    · intro p c hpc
      have hsplit : ∀ x, parentsSetOn x (Event.CreateGameObject w.nextHandle :: (evs₁ ++ evs₂))
          = parentsSetOn x evs₁ ++ parentsSetOn x evs₂ := by
        intro x
        simp [parentsSetOn, parentCalls, Event.parentCall?]
      rw [hsplit]
      simp only [GoTree.edgesFrom, List.mem_cons, List.mem_append, Prod.mk.injEq] at hpc
      rcases hpc with ⟨rfl, rfl⟩ | hpc | hpc
      · rw [hd₁, s₁, parentsSetOn_eq_nil _ evs₂]
        · exact ⟨Nat.le_refl _, by dsimp only; omega, rfl⟩
        · intro call hcall
          have := c₂ call hcall
          omega
      · obtain ⟨a, b, c'⟩ := e₁ p c hpc
        rw [c', parentsSetOn_eq_nil _ evs₂]
        · exact ⟨by omega, by dsimp only; omega, rfl⟩
        · intro call hcall
          have := c₂ call hcall
          omega
      · obtain ⟨a, b, c'⟩ := e₂ p c hpc
        rw [c', parentsSetOn_eq_nil _ evs₁]
        · exact ⟨by omega, by dsimp only; omega, rfl⟩
        · intro call hcall
          have := c₁ call hcall
          omega
end

theorem ProcessNode_none_eq (env : Env) (scene : aiScene) (node : aiNode scene.mNumMeshes)
    (parent : weakGameObj) (imp : ModelImporter) (w : World) :
    ProcessNode env scene node parent none imp w =
      ProcessNode env scene node parent (some w.nextHandle) imp (CreateGameObject w).2 := by
  cases node with
  | mk mName hasParent mTransformation mMeshes mChildren =>
    rw [ProcessNode_eq, ProcessNode_eq, processNodeHead_none]

/-- After `ProcessNode` has processed an external tree from its root, the
handle tree has the shape of the external tree, the only `SetParent` call on
the root's game object passes no parent, and the only `SetParent` call on the
child of any parent-child pair of the handle tree passes the parent. -/
theorem ProcessNode_edges_attached (env : Env) (scene : aiScene)
    (root : aiNode scene.mNumMeshes) (imp : ModelImporter) (w : World) :
    Mirrors root (ProcessNode env scene root none none imp w).2.2 ∧
      parentsSetOn (ProcessNode env scene root none none imp w).2.2.handle
        ((ProcessNode env scene root none none imp w).2.1.since w) = [none] ∧
      ∀ p c, (p, c) ∈ (ProcessNode env scene root none none imp w).2.2.edges →
        parentsSetOn c ((ProcessNode env scene root none none imp w).2.1.since w) = [some p] := by
  rw [ProcessNode_none_eq]
  obtain ⟨_, hd, hm, evs, ht, _, hs, he⟩ := ProcessNode_built env scene root none w.nextHandle
    imp (CreateGameObject w).2 (by simp [CreateGameObject])
  have hsince : (ProcessNode env scene root none (some w.nextHandle) imp
      (CreateGameObject w).2).2.1.since w = Event.CreateGameObject w.nextHandle :: evs := by
    apply World.since_append
    rw [ht]
    simp [CreateGameObject]
  have hskip : ∀ x, parentsSetOn x (Event.CreateGameObject w.nextHandle :: evs) =
      parentsSetOn x evs := by
    intro x
    simp [parentsSetOn, parentCalls, Event.parentCall?]
  rw [hsince]
  refine ⟨hm, by rw [hskip, hd, hs], ?_⟩
  intro p c hpc
  rw [hskip]
  exact (he p c hpc).2.2

theorem MirrorsList_get {n : Nat} (cs : List (aiNode n)) :
    ∀ (ts : List GoTree) (i : Nat) (c : aiNode n), MirrorsList cs ts → cs[i]? = some c →
      ∃ t, ts[i]? = some t ∧ Mirrors c t := by
  induction cs with
  | nil => intro ts i c _ hc; simp at hc
  | cons x xs ih =>
    intro ts i c hm hc
    cases ts with
    | nil => simp [MirrorsList] at hm
    | cons t ts =>
      simp only [MirrorsList] at hm
      cases i with
      | zero =>
        simp at hc
        subst hc
        exact ⟨t, by simp, hm.1⟩
      | succ j =>
        simp at hc
        obtain ⟨t', ht', hmt'⟩ := ih ts j c hm.2 hc
        exact ⟨t', by simpa using ht', hmt'⟩

theorem edgesFrom_get (h : Nat) (ts : List GoTree) :
    ∀ (i : Nat) (t : GoTree), ts[i]? = some t →
      (h, t.handle) ∈ GoTree.edgesFrom h ts ∧ ∀ e ∈ t.edges, e ∈ GoTree.edgesFrom h ts := by
  induction ts with
  | nil => intro i t ht; simp at ht
  | cons x xs ih =>
    intro i t ht
    cases i with
    | zero =>
      simp at ht
      subst ht
      refine ⟨by simp [GoTree.edgesFrom], ?_⟩
      intro e he
      simp [GoTree.edgesFrom, he]
    | succ j =>
      simp at ht
      obtain ⟨h1, h2⟩ := ih j t ht
      refine ⟨by simp [GoTree.edgesFrom, h1], ?_⟩
      intro e he
      simp [GoTree.edgesFrom, h2 e he]

theorem descend_mirrors {n : Nat} (path : List Nat) :
    ∀ (node : aiNode n) (tree : GoTree) (p : aiNode n), Mirrors node tree →
      node.descend path = some p →
      ∃ gp, tree.descend path = some gp ∧ Mirrors p gp ∧ ∀ e ∈ gp.edges, e ∈ tree.edges := by
  induction path with
  | nil =>
    intro node tree p hm hd
    simp only [aiNode.descend, Option.some.injEq] at hd
    subst hd
    exact ⟨tree, rfl, hm, fun e he => he⟩
  | cons i path ih =>
    intro node tree p hm hd
    cases node with
    | mk mName hasParent mTransformation mMeshes mChildren =>
      cases tree with
      | mk h children =>
        simp only [Mirrors] at hm
        simp only [aiNode.descend, aiNode.mChildren] at hd
        cases hc : mChildren[i]? with
        | none => rw [hc] at hd; simp at hd
        | some child =>
          rw [hc] at hd
          obtain ⟨t, ht, hmt⟩ := MirrorsList_get mChildren children i child hm hc
          obtain ⟨gp, hgp, hmp, hep⟩ := ih child t p hmt hd
          refine ⟨gp, by simp [GoTree.descend, GoTree.children, ht, hgp], hmp, ?_⟩
          intro e he
          simp only [GoTree.edges]
          exact (edgesFrom_get h children i t ht).2 e (hep e he)

theorem child_edge {n : Nat} (p : aiNode n) (gp : GoTree) (i : Nat) (c : aiNode n)
    (hm : Mirrors p gp) (hc : p.mChildren[i]? = some c) :
    ∃ gc, gp.children[i]? = some gc ∧ (gp.handle, gc.handle) ∈ gp.edges := by
  cases p with
  | mk mName hasParent mTransformation mMeshes mChildren =>
    cases gp with
    | mk h children =>
      simp only [Mirrors] at hm
      simp only [aiNode.mChildren] at hc
      obtain ⟨t, ht, _⟩ := MirrorsList_get mChildren children i c hm hc
      exact ⟨t, by simpa [GoTree.children] using ht,
        by simpa [GoTree.edges, GoTree.handle] using (edgesFrom_get h children i t ht).1⟩

/-- C10: after `ProcessNode` has processed an external tree from its root
(no parent, no game object given), the only `SetParent` call on the game
object of the root passes no parent; and for every external node `p` (reached
from the root along `path`) and its `i`-th child `c`, the game objects of `p`
and `c` sit at the same positions of the handle tree, and the only `SetParent`
call on the game object of `c` passes the game object of `p`. -/
theorem ProcessNode_tree_mirrors_external_tree (env : Env) (scene : aiScene)
    (root : aiNode scene.mNumMeshes) (imp : ModelImporter) (w : World) :
    parentsSetOn (ProcessNode env scene root none none imp w).2.2.handle
        ((ProcessNode env scene root none none imp w).2.1.since w) = [none] ∧
      ∀ (path : List Nat) (i : Nat) (p c : aiNode scene.mNumMeshes),
        root.descend path = some p → p.mChildren[i]? = some c →
        ∃ gp gc, (ProcessNode env scene root none none imp w).2.2.descend path = some gp ∧
          gp.children[i]? = some gc ∧
          parentsSetOn gc.handle ((ProcessNode env scene root none none imp w).2.1.since w) =
            [some gp.handle] := by
  obtain ⟨hm, hr, he⟩ := ProcessNode_edges_attached env scene root imp w
  refine ⟨hr, ?_⟩
  intro path i p c hp hc
  obtain ⟨gp, hgp, hmp, hep⟩ := descend_mirrors path root _ p hm hp
  obtain ⟨gc, hgc, hedge⟩ := child_edge p gp i c hmp hc
  exact ⟨gp, gc, hgp, hgc, he _ _ (hep _ hedge)⟩

/-- Witness for C10: in the sample scene the node `body` is the first child
of the root and `wheel` is the first child of `body`. -/
theorem ProcessNode_tree_mirrors_external_tree_witness :
    sampleScene.mRootNode.descend [0] = some sampleBody ∧
      sampleBody.mChildren[0]? = some sampleWheel ∧
      ∃ gp gc, (ProcessNode (sampleEnv [] none) sampleScene sampleScene.mRootNode none none
          sampleImporter emptyWorld).2.2.descend [0] = some gp ∧
        gp.children[0]? = some gc ∧
        parentsSetOn gc.handle ((ProcessNode (sampleEnv [] none) sampleScene
          sampleScene.mRootNode none none sampleImporter emptyWorld).2.1.since emptyWorld) =
            [some gp.handle] :=
  ⟨rfl, rfl,
    (ProcessNode_tree_mirrors_external_tree (sampleEnv [] none) sampleScene
      sampleScene.mRootNode sampleImporter emptyWorld).2 [0] 0 sampleBody sampleWheel rfl rfl⟩

/-! ## Vertices of `ProcessMesh` -/

theorem processVertex_snd (mesh : aiMesh) (v : VertexPosTexNorTan)
    (acc : List VertexPosTexNorTan) (i : Fin mesh.mNumVertices) :
    ∃ x, (processVertex mesh (v, acc) i).2 = acc ++ [x] := by
  unfold processVertex
  exact ⟨_, rfl⟩

theorem foldl_processVertex_length (mesh : aiMesh) (l : List (Fin mesh.mNumVertices)) :
    ∀ (st : VertexPosTexNorTan × List VertexPosTexNorTan),
      (l.foldl (processVertex mesh) st).2.length = st.2.length + l.length := by
  induction l with
  | nil => intro st; simp
  | cons i rest ih =>
    intro st
    obtain ⟨x, hx⟩ := processVertex_snd mesh st.1 st.2 i
    rw [List.foldl_cons, ih, hx]
    simp
    omega

theorem meshVertices_length (env : Env) (mesh : aiMesh) :
    (meshVertices env mesh).length = mesh.mNumVertices := by
  simp [meshVertices, foldl_processVertex_length]

theorem processVertex_zero (mesh : aiMesh) (v : VertexPosTexNorTan)
    (acc : List VertexPosTexNorTan) (i : Fin mesh.mNumVertices)
    (hn : v.normal = Vector3.Zero) (ht : v.tangent = Vector3.Zero) (hu : v.uv = Vector2.Zero) :
    (processVertex mesh (v, acc) i).2 = acc ++ [expectedVertex mesh i] ∧
      (processVertex mesh (v, acc) i).1.normal = Vector3.Zero ∧
      (processVertex mesh (v, acc) i).1.tangent = Vector3.Zero ∧
      (processVertex mesh (v, acc) i).1.uv = Vector2.Zero := by
  obtain ⟨position, uv, normal, tangent⟩ := v
  simp only at hn ht hu
  subst hn ht hu
  unfold processVertex expectedVertex
  refine ⟨?_, rfl, rfl, rfl⟩
  cases mesh.mNormals <;> cases mesh.mTangents <;> cases mesh.mTextureCoords0 <;>
    simp [ToVector2]

theorem foldl_processVertex_zero (mesh : aiMesh) (l : List (Fin mesh.mNumVertices)) :
    ∀ (st : VertexPosTexNorTan × List VertexPosTexNorTan),
      st.1.normal = Vector3.Zero → st.1.tangent = Vector3.Zero → st.1.uv = Vector2.Zero →
      (l.foldl (processVertex mesh) st).2 = st.2 ++ l.map (expectedVertex mesh) := by
  induction l with
  | nil => intro st _ _ _; simp
  | cons i rest ih =>
    intro st hn ht hu
    obtain ⟨h1, h2, h3, h4⟩ := processVertex_zero mesh st.1 st.2 i hn ht hu
    rw [List.foldl_cons, ih _ h2 h3 h4, h1]
    simp

theorem meshVertices_eq (env : Env) (mesh : aiMesh)
    (hn : env.defaultVertex.normal = Vector3.Zero)
    (ht : env.defaultVertex.tangent = Vector3.Zero)
    (hu : env.defaultVertex.uv = Vector2.Zero) :
    meshVertices env mesh = List.ofFn (expectedVertex mesh) := by
  unfold meshVertices
  rw [foldl_processVertex_zero mesh _ _ hn ht hu, List.ofFn_eq_map]
  simp

/-- C17: when a default-constructed vertex has zero normal, tangent and UV,
the only mesh `ProcessMesh` hands to the mesh filter of a live game object
carries exactly one vertex per external vertex, in order: the external
position, and for normal, tangent and UV the external value when the channel
is present and zero when it is missing, the first vertex included. -/
theorem ProcessMesh_vertices_follow_external_vertices (env : Env) (imp : ModelImporter)
    (scene : aiScene) (w : World) (mesh : aiMesh) (h : Nat)
    (hn : env.defaultVertex.normal = Vector3.Zero)
    (ht : env.defaultVertex.tangent = Vector3.Zero)
    (hu : env.defaultVertex.uv = Vector2.Zero) :
    ((ProcessMesh env imp scene w mesh (some h)).since w).filterMap Event.createdMesh? =
      [(h, mesh.mName, rootGameObjID env imp, List.ofFn (expectedVertex mesh),
        meshIndices mesh)] := by
  obtain ⟨_, evs, htr, hp⟩ := ProcessMesh_trace env imp scene w mesh h
  rw [World.since_append _ _ _ htr]
  simp [Event.createdMesh?, filterMap_createdMesh_resource evs hp, meshVertices_eq env mesh hn ht hu]

/-- Witness for C17: the sample mesh, which has no normals, tangents or UVs,
in the sample environment, whose default vertex is all zero. -/
theorem ProcessMesh_vertices_follow_external_vertices_witness :
    ((ProcessMesh (sampleEnv [] none) sampleImporter sampleScene emptyWorld sampleMesh
        (some 0)).since emptyWorld).filterMap Event.createdMesh? =
      [(0, sampleMesh.mName, rootGameObjID (sampleEnv [] none) sampleImporter,
        List.ofFn (expectedVertex sampleMesh), meshIndices sampleMesh)] :=
  ProcessMesh_vertices_follow_external_vertices (sampleEnv [] none) sampleImporter sampleScene
    emptyWorld sampleMesh 0 rfl rfl rfl

/-! ## `Mesh::SetVertices` and `Mesh::SetIndices` -/

/-- C18: after `Mesh::SetIndices` the index list is the given one, the index
count is its length as a 32-bit unsigned value, the triangle count is the
index count divided by 3 with integer division, and the vertex list and the
vertex count are unchanged. -/
theorem Mesh_SetIndices_counts (mesh : Mesh) (indices : List Nat) :
    (mesh.SetIndices indices).m_indices = indices ∧
      (mesh.SetIndices indices).GetIndexCount = indices.length % 2 ^ 32 ∧
      (mesh.SetIndices indices).GetTriangleCount = (mesh.SetIndices indices).GetIndexCount / 3 ∧
      (mesh.SetIndices indices).GetTriangleCount < 2 ^ 32 ∧
      (mesh.SetIndices indices).m_vertices = mesh.m_vertices ∧
      (mesh.SetIndices indices).GetVertexCount = mesh.GetVertexCount := by
  refine ⟨rfl, rfl, rfl, ?_, rfl, rfl⟩
  simp only [Mesh.SetIndices, Mesh.GetTriangleCount, toUInt32]
  omega

/-- C19, counterexample: a mesh whose extents are all zero is given one vertex
at (5, 5, 5); afterwards its extents are still zero and do not enclose the
vertex. -/
theorem Mesh_SetVertices_leaves_stale_extents :
    ¬ (Mesh.empty.SetVertices
        [⟨⟨5, 5, 5⟩, Vector2.Zero, Vector3.Zero, Vector3.Zero⟩]).extentsEnclose := by
  intro h
  have := h ⟨⟨5, 5, 5⟩, Vector2.Zero, Vector3.Zero, Vector3.Zero⟩ (by simp [Mesh.SetVertices])
  simp only [Mesh.SetVertices, Mesh.empty, Vector3.Zero] at this
  norm_num at this

/-- C19, as amended: `Mesh::SetVertices` stores the new vertex list and its
length as the vertex count, and leaves min, max, center and bounding-box size
as they were. -/
theorem Mesh_SetVertices_keeps_extents (mesh : Mesh) (vertices : List VertexPosTexNorTan) :
    (mesh.SetVertices vertices).m_vertices = vertices ∧
      (mesh.SetVertices vertices).GetVertexCount = vertices.length % 2 ^ 32 ∧
      (mesh.SetVertices vertices).GetMin = mesh.GetMin ∧
      (mesh.SetVertices vertices).GetMax = mesh.GetMax ∧
      (mesh.SetVertices vertices).GetCenter = mesh.GetCenter ∧
      (mesh.SetVertices vertices).GetBoundingBox = mesh.GetBoundingBox :=
  ⟨rfl, rfl, rfl, rfl, rfl, rfl⟩

theorem mem_triangleIndices (faces : List aiFace) (i : Nat) (hi : i ∈ triangleIndices faces) :
    ∃ face ∈ faces, i ∈ face.mIndices := by
  simp only [triangleIndices, List.mem_flatten, List.mem_map, List.mem_filter] at hi
  obtain ⟨l, ⟨face, ⟨hf, _⟩, rfl⟩, hil⟩ := hi
  exact ⟨face, hf, hil⟩

/-- C20, counterexample: for an external mesh without vertices that has a
three-index face, the mesh built from the lists `ProcessMesh` passes on holds
indices that are not smaller than its vertex count. -/
theorem Mesh_holds_dangling_indices :
    ¬ ∀ i ∈ ((Mesh.empty.SetVertices (meshVertices (sampleEnv [] none) danglingMesh)).SetIndices
        (meshIndices danglingMesh)).m_indices,
      i < ((Mesh.empty.SetVertices (meshVertices (sampleEnv [] none) danglingMesh)).SetIndices
        (meshIndices danglingMesh)).GetVertexCount := by
  decide

/-- C20, as amended: `SetVertices` and `SetIndices` store what they are given
unchecked; for an external mesh with fewer than 2^32 vertices all of whose face
indices are smaller than its vertex count, every index of the mesh built from
the lists `ProcessMesh` passes on is smaller than that mesh's vertex count. -/
theorem Mesh_indices_valid_for_valid_faces (env : Env) (base : Mesh) (mesh : aiMesh)
    (hvalid : ∀ face ∈ mesh.mFaces, ∀ i ∈ face.mIndices, i < mesh.mNumVertices)
    (hsize : mesh.mNumVertices < 2 ^ 32) :
    ((base.SetVertices (meshVertices env mesh)).SetIndices (meshIndices mesh)).m_vertices =
        meshVertices env mesh ∧
      ((base.SetVertices (meshVertices env mesh)).SetIndices (meshIndices mesh)).m_indices =
        meshIndices mesh ∧
      ∀ i ∈ ((base.SetVertices (meshVertices env mesh)).SetIndices (meshIndices mesh)).m_indices,
        i < ((base.SetVertices (meshVertices env mesh)).SetIndices
          (meshIndices mesh)).GetVertexCount := by
  refine ⟨rfl, rfl, ?_⟩
  intro i hi
  have hi' : i ∈ triangleIndices mesh.mFaces := by
    rw [← meshIndices_eq]; exact hi
  obtain ⟨face, hf, hif⟩ := mem_triangleIndices mesh.mFaces i hi'
  have hlt := hvalid face hf i hif
  have hcount : ((base.SetVertices (meshVertices env mesh)).SetIndices
      (meshIndices mesh)).GetVertexCount = mesh.mNumVertices := by
    simp only [Mesh.SetIndices, Mesh.SetVertices, Mesh.GetVertexCount, toUInt32,
      meshVertices_length]
    exact Nat.mod_eq_of_lt hsize
  rw [hcount]
  exact hlt

/-- Witness for C20 as amended: the sample mesh has three vertices and face
indices 0, 1 and 2. -/
theorem Mesh_indices_valid_for_valid_faces_witness :
    ((Mesh.empty.SetVertices (meshVertices (sampleEnv [] none) sampleMesh)).SetIndices
        (meshIndices sampleMesh)).m_vertices = meshVertices (sampleEnv [] none) sampleMesh ∧
      ((Mesh.empty.SetVertices (meshVertices (sampleEnv [] none) sampleMesh)).SetIndices
        (meshIndices sampleMesh)).m_indices = meshIndices sampleMesh ∧
      ∀ i ∈ ((Mesh.empty.SetVertices (meshVertices (sampleEnv [] none) sampleMesh)).SetIndices
          (meshIndices sampleMesh)).m_indices,
        i < ((Mesh.empty.SetVertices (meshVertices (sampleEnv [] none) sampleMesh)).SetIndices
          (meshIndices sampleMesh)).GetVertexCount :=
  Mesh_indices_valid_for_valid_faces (sampleEnv [] none) Mesh.empty sampleMesh (by decide)
    (by decide)

/-! ## Events of `ProcessNode` and of `Load` -/

theorem Emits_refl (P : Event → Prop) (w : World) : Emits P w w :=
  ⟨[], by simp, by simp⟩

theorem Emits_emit {P : Event → Prop} {w w' : World} (h : Emits P w w') {e : Event}
    (he : P e) : Emits P w (w'.emit e) := by
  obtain ⟨evs, ht, hp⟩ := h
  refine ⟨evs ++ [e], by simp [World.emit, ht], ?_⟩
  intro x hx
  rcases List.mem_append.mp hx with hx | hx
  · exact hp x hx
  · simp at hx; subst hx; exact he

theorem Emits_trans {P : Event → Prop} {w₁ w₂ w₃ : World} (h₁ : Emits P w₁ w₂)
    (h₂ : Emits P w₂ w₃) : Emits P w₁ w₃ := by
  obtain ⟨e₁, ht₁, hp₁⟩ := h₁
  obtain ⟨e₂, ht₂, hp₂⟩ := h₂
  refine ⟨e₁ ++ e₂, by simp [ht₂, ht₁], ?_⟩
  intro x hx
  rcases List.mem_append.mp hx with hx | hx
  · exact hp₁ x hx
  · exact hp₂ x hx

theorem Emits_of_trace {P : Event → Prop} {w w' : World} (evs : List Event)
    (ht : w'.trace = w.trace ++ evs) (hp : ∀ e ∈ evs, P e) : Emits P w w' :=
  ⟨evs, ht, hp⟩

theorem NodeEvent_of_resource (env : Env) (S : ModelImporter → Prop) (e : Event)
    (h : e.isResourceWork = true) : NodeEvent env S e := by
  cases e <;> simp_all [Event.isResourceWork, NodeEvent, Event.isNodeWork, Event.createdMesh?]

theorem ProcessMesh_emits (env : Env) (S : ModelImporter → Prop) (imp : ModelImporter)
    (scene : aiScene) (w : World) (mesh : aiMesh) (h : Nat) (hS : S imp) :
    Emits (NodeEvent env S) w (ProcessMesh env imp scene w mesh (some h)) := by
  obtain ⟨_, evs, ht, hp⟩ := ProcessMesh_trace env imp scene w mesh h
  refine Emits_of_trace _ ht ?_
  intro e he
  rcases List.mem_cons.mp he with he | he
  · subst he
    exact ⟨rfl, by simp [Event.createdMesh?]⟩
  · rcases List.mem_cons.mp he with he | he
    · subst he
      refine ⟨rfl, ?_⟩
      intro call hcall
      simp only [Event.createdMesh?, Option.some.injEq] at hcall
      subst hcall
      exact ⟨imp, hS, rfl⟩
    · exact NodeEvent_of_resource env S e (hp e he)

theorem meshGameObject_emits (env : Env) (S : ModelImporter → Prop) (mName : String)
    (mNumMeshes newNode i : Nat) (w : World) :
    Emits (NodeEvent env S) w (meshGameObject mName mNumMeshes newNode i w).2.2 := by
  by_cases h : mNumMeshes > 1
  · rw [meshGameObject_many _ _ _ _ _ h]
    refine Emits_of_trace _ rfl ?_
    intro e he
    simp only [List.mem_cons, List.mem_singleton, List.not_mem_nil, or_false] at he
    rcases he with rfl | rfl <;> exact ⟨rfl, by simp [Event.createdMesh?]⟩
  · rw [meshGameObject_single _ _ _ _ _ h]
    exact Emits_refl _ _

theorem processNodeMeshes_emits (env : Env) (S : ModelImporter → Prop) (imp : ModelImporter)
    (scene : aiScene) (mName : String) (mNumMeshes newNode : Nat) (hS : S imp)
    (rest : List (Fin scene.mNumMeshes)) :
    ∀ (i : Nat) (w : World),
      Emits (NodeEvent env S) w
        (processNodeMeshes env imp scene mName mNumMeshes newNode i rest w) := by
  induction rest with
  | nil => intro i w; exact Emits_refl _ _
  | cons m rest ih =>
    intro i w
    have hunf : processNodeMeshes env imp scene mName mNumMeshes newNode i (m :: rest) w =
        processNodeMeshes env imp scene mName mNumMeshes newNode (i + 1) rest
          (ProcessMesh env imp scene
            ((meshGameObject mName mNumMeshes newNode i w).2.2.emit
              (Event.SetName (meshGameObject mName mNumMeshes newNode i w).1
                (meshGameObject mName mNumMeshes newNode i w).2.1))
            (scene.mMeshes m) (some (meshGameObject mName mNumMeshes newNode i w).1)) := rfl
    rw [hunf]
    refine Emits_trans ?_ (ih _ _)
    refine Emits_trans ?_ (ProcessMesh_emits env S imp scene _ _ _ hS)
    exact Emits_emit (meshGameObject_emits env S mName mNumMeshes newNode i w)
      ⟨rfl, by simp [Event.createdMesh?]⟩

theorem processNodeHead_emits (env : Env) (S : ModelImporter → Prop) (mName : String)
    (hasParent : Bool) (mTransformation : aiMatrix4x4) (parentNode newNode : weakGameObj)
    (imp : ModelImporter) (w : World) :
    Emits (NodeEvent env S) w
      (processNodeHead env mName hasParent mTransformation parentNode newNode imp w).2.2 := by
  have key : ∀ (h : Nat) (w₀ : World), Emits (NodeEvent env S) w w₀ →
      Emits (NodeEvent env S) w
        (processNodeHead env mName hasParent mTransformation parentNode (some h) imp w₀).2.2 := by
    intro h w₀ h₀
    cases hasParent <;>
      · simp only [processNodeHead, SetGameObjectTransform]
        refine Emits_emit (Emits_emit (Emits_emit (Emits_emit (Emits_emit h₀ ?_) ?_) ?_) ?_) ?_ <;>
          exact ⟨rfl, by simp [Event.createdMesh?]⟩
  cases newNode with
  | none =>
    rw [processNodeHead_none]
    refine key _ _ (Emits_of_trace [Event.CreateGameObject w.nextHandle] rfl ?_)
    intro e he
    simp only [List.mem_singleton] at he
    subst he
    exact ⟨rfl, by simp [Event.createdMesh?]⟩
  | some h => exact key h w (Emits_refl _ _)

theorem processNodeHead_importer (env : Env) (mName : String) (hasParent : Bool)
    (mTransformation : aiMatrix4x4) (parentNode newNode : weakGameObj) (imp : ModelImporter)
    (w : World) :
    (processNodeHead env mName hasParent mTransformation parentNode newNode imp w).2.1 =
      if hasParent then imp
      else
        { imp with
          m_rootGameObject :=
            some (processNodeHead env mName hasParent mTransformation parentNode newNode imp
              w).1 } := by
  cases hasParent <;> cases newNode <;> simp [processNodeHead]

mutual
theorem ProcessNode_emits (env : Env) (scene : aiScene) (S : ModelImporter → Prop) :
    ∀ (node : aiNode scene.mNumMeshes) (parent newNode : weakGameObj) (imp : ModelImporter)
      (w : World),
      (node.allHaveParents = true ∨
        ∀ imp x, S imp → S { imp with m_rootGameObject := some x }) →
      S imp →
      S (ProcessNode env scene node parent newNode imp w).1 ∧
        Emits (NodeEvent env S) w (ProcessNode env scene node parent newNode imp w).2.1
  | aiNode.mk mName hasParent mTransformation mMeshes mChildren, parent, newNode, imp, w,
      hcl, hS => by
    rw [ProcessNode_eq]
    have hS₁ : S (processNodeHead env mName hasParent mTransformation parent newNode imp
        w).2.1 := by
      rw [processNodeHead_importer]
      cases hasParent with
      | true => simpa using hS
      | false =>
        rcases hcl with hcl | hcl
        · simp [aiNode.allHaveParents] at hcl
        · simpa using hcl imp _ hS
    have hcl₁ : aiNode.allHaveParentsList mChildren = true ∨
        ∀ imp x, S imp → S { imp with m_rootGameObject := some x } := by
      rcases hcl with hcl | hcl
      · left
        simp only [aiNode.allHaveParents, Bool.and_eq_true] at hcl
        exact hcl.2
      · right; exact hcl
    have hc := ProcessChildren_emits env scene S mChildren
      (processNodeHead env mName hasParent mTransformation parent newNode imp w).1
      (processNodeHead env mName hasParent mTransformation parent newNode imp w).2.1
      (processNodeMeshes env
        (processNodeHead env mName hasParent mTransformation parent newNode imp w).2.1
        scene mName mMeshes.length
        (processNodeHead env mName hasParent mTransformation parent newNode imp w).1 0 mMeshes
        (processNodeHead env mName hasParent mTransformation parent newNode imp w).2.2)
      hcl₁ hS₁
    refine ⟨hc.1, ?_⟩
    exact Emits_trans (Emits_trans (processNodeHead_emits env S _ _ _ _ _ _ _)
      (processNodeMeshes_emits env S _ scene mName _ _ hS₁ mMeshes 0 _)) hc.2
theorem ProcessChildren_emits (env : Env) (scene : aiScene) (S : ModelImporter → Prop) :
    ∀ (children : List (aiNode scene.mNumMeshes)) (h : Nat) (imp : ModelImporter) (w : World),
      (aiNode.allHaveParentsList children = true ∨
        ∀ imp x, S imp → S { imp with m_rootGameObject := some x }) →
      S imp →
      S (ProcessChildren env scene h children imp w).1 ∧
        Emits (NodeEvent env S) w (ProcessChildren env scene h children imp w).2.1
  | [], h, imp, w, _, hS => by
    rw [ProcessChildren_nil]
    exact ⟨hS, Emits_refl _ _⟩
  | assimpChild :: rest, h, imp, w, hcl, hS => by
    rw [ProcessChildren_cons]
    have hcl₁ : assimpChild.allHaveParents = true ∨
        ∀ imp x, S imp → S { imp with m_rootGameObject := some x } := by
      rcases hcl with hcl | hcl
      · left
        simp only [aiNode.allHaveParentsList, Bool.and_eq_true] at hcl
        exact hcl.1
      · right; exact hcl
    have hcl₂ : aiNode.allHaveParentsList rest = true ∨
        ∀ imp x, S imp → S { imp with m_rootGameObject := some x } := by
      rcases hcl with hcl | hcl
      · left
        simp only [aiNode.allHaveParentsList, Bool.and_eq_true] at hcl
        exact hcl.2
      · right; exact hcl
    have h₁ := ProcessNode_emits env scene S assimpChild (some h) (some w.nextHandle) imp
      (CreateGameObject w).2 hcl₁ hS
    have h₂ := ProcessChildren_emits env scene S rest h
      (ProcessNode env scene assimpChild (some h) (some w.nextHandle) imp
        (CreateGameObject w).2).1
      (ProcessNode env scene assimpChild (some h) (some w.nextHandle) imp
        (CreateGameObject w).2).2.1 hcl₂ h₁.1
    refine ⟨h₂.1, ?_⟩
    refine Emits_trans (Emits_trans ?_ h₁.2) h₂.2
    refine Emits_of_trace [Event.CreateGameObject w.nextHandle] rfl ?_
    intro e he
    simp only [List.mem_singleton] at he
    subst he
    exact ⟨rfl, by simp [Event.createdMesh?]⟩
end


theorem copyMaterialFiles_trace (env : Env) (imp : ModelImporter) (files : List String) :
    ∀ (w : World), (copyMaterialFiles env imp files w).nextHandle = w.nextHandle ∧
      (copyMaterialFiles env imp files w).trace =
        w.trace ++ materialCopyEvents env imp files := by
  induction files with
  | nil => intro w; simp [copyMaterialFiles, materialCopyEvents]
  | cons file rest ih =>
    intro w
    by_cases h : env.GetExtensionFromPath file = ".mtl"
    · simp only [copyMaterialFiles, h, if_true]
      obtain ⟨h1, h2⟩ := ih (w.emit (Event.CopyFileFromTo imp.m_filePath
        (modelDirectory env imp ++ "/" ++ env.GetFileNameFromPath file)))
      refine ⟨by rw [h1]; rfl, ?_⟩
      rw [h2]
      simp [materialCopyEvents, World.emit, h]
    · simp only [copyMaterialFiles, h, if_false]
      obtain ⟨h1, h2⟩ := ih w
      refine ⟨h1, ?_⟩
      rw [h2]
      simp [materialCopyEvents, h]

theorem prepareModelFiles_trace (env : Env) (imp : ModelImporter) (w : World) :
    (prepareModelFiles env imp w).nextHandle = w.nextHandle ∧
      (prepareModelFiles env imp w).trace =
        w.trace ++ (modelSetupEvents env imp ++
          materialCopyEvents env imp
            (env.GetFilesInDirectory (w.trace ++ modelSetupEvents env imp)
              (env.GetPathWithoutFileName imp.m_filePath))) := by
  unfold prepareModelFiles
  simp only []
  obtain ⟨h1, h2⟩ := copyMaterialFiles_trace env imp
    (env.GetFilesInDirectory
      ((((((w.emit (Event.CreateDirectory "Standard Assets/Models/")).emit
        (Event.CreateDirectory (modelDirectory env imp))).emit
        (Event.CreateDirectory (modelDirectory env imp ++ "/Meshes/"))).emit
        (Event.CreateDirectory (modelDirectory env imp ++ "/Materials/"))).emit
        (Event.CreateDirectory (modelDirectory env imp ++ "/Textures/"))).emit
        (Event.CopyFileFromTo imp.m_filePath
          (modelDirectory env imp ++ "/" ++ env.GetFileNameFromPath imp.m_modelName))).trace
      (env.GetPathWithoutFileName imp.m_filePath))
    ((((((w.emit (Event.CreateDirectory "Standard Assets/Models/")).emit
        (Event.CreateDirectory (modelDirectory env imp))).emit
        (Event.CreateDirectory (modelDirectory env imp ++ "/Meshes/"))).emit
        (Event.CreateDirectory (modelDirectory env imp ++ "/Materials/"))).emit
        (Event.CreateDirectory (modelDirectory env imp ++ "/Textures/"))).emit
        (Event.CopyFileFromTo imp.m_filePath
          (modelDirectory env imp ++ "/" ++ env.GetFileNameFromPath imp.m_modelName)))
  refine ⟨by rw [h1]; rfl, ?_⟩
  rw [h2]
  simp [World.emit, modelSetupEvents]

theorem normalizeFirst_trace (env : Env) (descendants : List weakGameObj) (w : World) :
    (normalizeFirst env descendants w).trace =
      w.trace ++ (firstMeshBearing env w.trace descendants).toList.map
        Event.NormalizeModelScale := by
  induction descendants with
  | nil => simp [normalizeFirst, firstMeshBearing]
  | cons d rest ih =>
    cases d with
    | none => simpa [normalizeFirst, firstMeshBearing] using ih
    | some h =>
      by_cases hm : env.GetMeshFilter w.trace h = true
      · simp [normalizeFirst, firstMeshBearing, hm, World.emit]
      · simpa [normalizeFirst, firstMeshBearing, hm] using ih

theorem normalizeScale_trace (env : Env) (imp : ModelImporter) (w : World) :
    (normalizeScale env imp w).trace = w.trace ++ normalizationEvents env imp w.trace := by
  unfold normalizeScale normalizationEvents
  cases imp.m_rootGameObject with
  | none => simp
  | some root => simpa using normalizeFirst_trace env _ w

/-- The events of a `Load` that has a context and a scene, in order: the
directory and model file events, the material file copies, the events of
processing the node tree, and the events of the normalization block. -/
theorem Load_since (env : Env) (imp : ModelImporter) (w : World) (filePath : String)
    (scene : aiScene) (hc : imp.m_context = true)
    (hs : env.ReadFile w.trace filePath = some scene) :
    (Load env imp w filePath).2.2.since w =
      modelSetupEvents env (beginLoad env imp filePath) ++
        (materialCopyEvents env (beginLoad env imp filePath)
            (env.GetFilesInDirectory (w.trace ++ modelSetupEvents env (beginLoad env imp filePath))
              (env.GetPathWithoutFileName filePath)) ++
          ((ProcessNode env scene scene.mRootNode none none (beginLoad env imp filePath)
              (prepareModelFiles env (beginLoad env imp filePath) w)).2.1.since
              (prepareModelFiles env (beginLoad env imp filePath) w) ++
            normalizationEvents env
              (ProcessNode env scene scene.mRootNode none none (beginLoad env imp filePath)
                (prepareModelFiles env (beginLoad env imp filePath) w)).1
              (ProcessNode env scene scene.mRootNode none none (beginLoad env imp filePath)
                (prepareModelFiles env (beginLoad env imp filePath) w)).2.1.trace)) := by
  rw [Load_of_scene env imp w filePath scene hc hs]
  obtain ⟨_, hp⟩ := prepareModelFiles_trace env (beginLoad env imp filePath) w
  obtain ⟨_, evs, hn, _⟩ := ProcessNode_emits env scene (fun _ => True) scene.mRootNode none
    none (beginLoad env imp filePath) (prepareModelFiles env (beginLoad env imp filePath) w)
    (Or.inr (fun _ _ _ => trivial)) trivial
  apply World.since_append
  simp only [loadScene]
  rw [normalizeScale_trace, World.since_append _ _ _ hn, hn, hp]
  have hfp : (beginLoad env imp filePath).m_filePath = filePath := rfl
  simp only [hfp, List.append_assoc]


theorem filterMap_normalized_nodeEvents (env : Env) (S : ModelImporter → Prop)
    (evs : List Event) (h : ∀ e ∈ evs, NodeEvent env S e) :
    evs.filterMap Event.normalized? = [] := by
  rw [List.filterMap_eq_nil_iff]
  intro e he
  have := (h e he).1
  cases e <;> simp_all [Event.isNodeWork, Event.normalized?]

theorem filterMap_normalized_setup (env : Env) (imp : ModelImporter) (files : List String) :
    (modelSetupEvents env imp ++ materialCopyEvents env imp files).filterMap
      Event.normalized? = [] := by
  rw [List.filterMap_eq_nil_iff]
  intro e he
  rcases List.mem_append.mp he with he | he
  · simp only [modelSetupEvents, List.mem_cons, List.mem_singleton, List.not_mem_nil,
      or_false] at he
    rcases he with rfl | rfl | rfl | rfl | rfl | rfl <;> rfl
  · simp only [materialCopyEvents, List.mem_map] at he
    obtain ⟨file, _, rfl⟩ := he
    rfl

theorem filterMap_normalized_normalization (env : Env) (imp : ModelImporter)
    (hist : List Event) :
    (normalizationEvents env imp hist).filterMap Event.normalized? =
      match imp.m_rootGameObject with
      | none => []
      | some root => (firstMeshBearing env hist (env.GetDescendants hist root)).toList := by
  unfold normalizationEvents
  cases imp.m_rootGameObject with
  | none => rfl
  | some root =>
    show ((firstMeshBearing env hist (env.GetDescendants hist root)).toList.map
      Event.NormalizeModelScale).filterMap Event.normalized? =
        (firstMeshBearing env hist (env.GetDescendants hist root)).toList
    cases firstMeshBearing env hist (env.GetDescendants hist root) <;> rfl

theorem Load_normalized (env : Env) (imp : ModelImporter) (w : World) (filePath : String)
    (scene : aiScene) (hc : imp.m_context = true)
    (hs : env.ReadFile w.trace filePath = some scene) :
    ((Load env imp w filePath).2.2.since w).filterMap Event.normalized? =
      match (ProcessNode env scene scene.mRootNode none none (beginLoad env imp filePath)
        (prepareModelFiles env (beginLoad env imp filePath) w)).1.m_rootGameObject with
      | none => []
      | some root =>
        (firstMeshBearing env
          (ProcessNode env scene scene.mRootNode none none (beginLoad env imp filePath)
            (prepareModelFiles env (beginLoad env imp filePath) w)).2.1.trace
          (env.GetDescendants
            (ProcessNode env scene scene.mRootNode none none (beginLoad env imp filePath)
              (prepareModelFiles env (beginLoad env imp filePath) w)).2.1.trace root)).toList := by
  rw [Load_since env imp w filePath scene hc hs]
  obtain ⟨_, evs, hn, hp⟩ := ProcessNode_emits env scene (fun _ => True) scene.mRootNode none
    none (beginLoad env imp filePath) (prepareModelFiles env (beginLoad env imp filePath) w)
    (Or.inr (fun _ _ _ => trivial)) trivial
  rw [World.since_append _ _ _ hn, ← List.append_assoc, List.filterMap_append,
    filterMap_normalized_setup, List.filterMap_append,
    filterMap_normalized_nodeEvents env _ evs hp, filterMap_normalized_normalization]
  rfl

/-- C12: during one `Load`, `NormalizeModelScale` is invoked at most once; in
a load that has a context and a scene it is invoked exactly on the first
entry, in the order `GetDescendants` of the root's transform returns them
after the tree has been built, whose game object is alive and has a mesh
filter, and not at all when there is no such entry or no root. -/
theorem Load_normalizes_first_mesh_bearing_descendant (env : Env) (imp : ModelImporter)
    (w : World) (filePath : String) :
    (((Load env imp w filePath).2.2.since w).filterMap Event.normalized?).length ≤ 1 ∧
      ∀ scene, imp.m_context = true → env.ReadFile w.trace filePath = some scene →
        ((Load env imp w filePath).2.2.since w).filterMap Event.normalized? =
          match (ProcessNode env scene scene.mRootNode none none (beginLoad env imp filePath)
            (prepareModelFiles env (beginLoad env imp filePath) w)).1.m_rootGameObject with
          | none => []
          | some root =>
            (firstMeshBearing env
              (ProcessNode env scene scene.mRootNode none none (beginLoad env imp filePath)
                (prepareModelFiles env (beginLoad env imp filePath) w)).2.1.trace
              (env.GetDescendants
                (ProcessNode env scene scene.mRootNode none none (beginLoad env imp filePath)
                  (prepareModelFiles env (beginLoad env imp filePath) w)).2.1.trace
                root)).toList := by
  refine ⟨?_, fun scene hc hs => Load_normalized env imp w filePath scene hc hs⟩
  cases hc : imp.m_context with
  | false =>
    have : Load env imp w filePath = (false, imp, w.emit (Event.Log LogLevel.Error
        "Aborting loading. ModelImporter requires an initialized Context")) := by
      simp [Load, hc]
    rw [this]
    simp [World.since, World.emit, Event.normalized?]
  | true =>
    cases hs : env.ReadFile w.trace filePath with
    | none =>
      rw [Load_of_no_scene env imp w filePath hc hs]
      simp [World.since, World.emit, Event.normalized?]
    | some scene =>
      rw [Load_normalized env imp w filePath scene hc hs]
      split
      · simp
      · cases firstMeshBearing env _ _ <;> simp

/-- Witness for C12: the sample scene is loaded into an engine whose scene
graph follows the events; the first descendant of the root with a mesh filter
is the game object of the root's first mesh. -/
theorem Load_normalizes_first_mesh_bearing_descendant_witness :
    ((Load (engineEnv [] [] (some sampleScene)) sampleImporter emptyWorld "a/b.obj").2.2.since
        emptyWorld).filterMap Event.normalized? =
      match (ProcessNode (engineEnv [] [] (some sampleScene)) sampleScene sampleScene.mRootNode
        none none (beginLoad (engineEnv [] [] (some sampleScene)) sampleImporter "a/b.obj")
        (prepareModelFiles (engineEnv [] [] (some sampleScene))
          (beginLoad (engineEnv [] [] (some sampleScene)) sampleImporter "a/b.obj")
          emptyWorld)).1.m_rootGameObject with
      | none => []
      | some root =>
        (firstMeshBearing (engineEnv [] [] (some sampleScene))
          (ProcessNode (engineEnv [] [] (some sampleScene)) sampleScene sampleScene.mRootNode
            none none (beginLoad (engineEnv [] [] (some sampleScene)) sampleImporter "a/b.obj")
            (prepareModelFiles (engineEnv [] [] (some sampleScene))
              (beginLoad (engineEnv [] [] (some sampleScene)) sampleImporter "a/b.obj")
              emptyWorld)).2.1.trace
          ((engineEnv [] [] (some sampleScene)).GetDescendants
            (ProcessNode (engineEnv [] [] (some sampleScene)) sampleScene sampleScene.mRootNode
              none none (beginLoad (engineEnv [] [] (some sampleScene)) sampleImporter "a/b.obj")
              (prepareModelFiles (engineEnv [] [] (some sampleScene))
                (beginLoad (engineEnv [] [] (some sampleScene)) sampleImporter "a/b.obj")
                emptyWorld)).2.1.trace root)).toList :=
  (Load_normalizes_first_mesh_bearing_descendant (engineEnv [] [] (some sampleScene))
    sampleImporter emptyWorld "a/b.obj").2 sampleScene rfl rfl

/-- C13, evaluation at the failing input: the scene's root node carries the
only mesh and has no children. `Load` succeeds and hands one mesh to a mesh
filter, and `NormalizeModelScale` is never called. -/
theorem Load_skips_normalization_for_root_mesh :
    (Load (engineEnv [] [] (some rootMeshScene)) sampleImporter emptyWorld "a/b.obj").1 = true ∧
      (((Load (engineEnv [] [] (some rootMeshScene)) sampleImporter emptyWorld
        "a/b.obj").2.2.since emptyWorld).filterMap Event.createdMesh?).length = 1 ∧
      ((Load (engineEnv [] [] (some rootMeshScene)) sampleImporter emptyWorld
        "a/b.obj").2.2.since emptyWorld).filterMap Event.normalized? = [] := by
  decide

/-- C11, evaluation at the failing input: the scene's root node, named
`RootNode`, references exactly one mesh and the file is `a/b.obj`. The root's
game object is first named with the file-stem `b` and then renamed
`RootNode` by the mesh loop. -/
theorem Load_renames_single_mesh_root :
    GetModelRoot (Load (engineEnv [] [] (some rootMeshScene)) sampleImporter emptyWorld
        "a/b.obj").2.1 = some 0 ∧
      (engineEnv [] [] (some rootMeshScene)).GetFileNameNoExtensionFromPath "a/b.obj" = "b" ∧
      namesSetOn 0 ((Load (engineEnv [] [] (some rootMeshScene)) sampleImporter emptyWorld
        "a/b.obj").2.2.since emptyWorld) = ["b", "RootNode"] := by
  decide

/-- C15, evaluation at the failing input: the model `a/b.obj` has the file
`a/b.mtl` next to it. The copy made for `b.mtl` has the model file `a/b.obj`
as its source. -/
theorem Load_copies_model_file_as_material_file :
    ((Load (engineEnv [] ["a/b.mtl"] (some rootMeshScene)) sampleImporter emptyWorld
        "a/b.obj").2.2.since emptyWorld).filterMap Event.copied? =
      [("a/b.obj", "Standard Assets/Models/b/b.obj"),
       ("a/b.obj", "Standard Assets/Models/b/b.mtl")] := by
  decide

/-- C16: a `Load` that has a context and a scene emits first of all, in this
order, the creation of `Standard Assets/Models/`, of the model's directory
below it, of the subdirectories `Meshes/`, `Materials/` and `Textures/`, and
the copy of the model file into the model's directory; stem and file name are
computed from the file path alone. The material file copies, the events of
processing the nodes and the normalization follow. -/
theorem Load_sets_up_model_directory_first (env : Env) (imp : ModelImporter) (w : World)
    (filePath : String) (scene : aiScene) (hc : imp.m_context = true)
    (hs : env.ReadFile w.trace filePath = some scene) :
    ∃ copies normalization, (Load env imp w filePath).2.2.since w =
      [Event.CreateDirectory "Standard Assets/Models/",
       Event.CreateDirectory ("Standard Assets/Models/" ++
         env.GetFileNameNoExtensionFromPath (env.GetFileNameFromPath filePath)),
       Event.CreateDirectory ("Standard Assets/Models/" ++
         env.GetFileNameNoExtensionFromPath (env.GetFileNameFromPath filePath) ++ "/Meshes/"),
       Event.CreateDirectory ("Standard Assets/Models/" ++
         env.GetFileNameNoExtensionFromPath (env.GetFileNameFromPath filePath) ++ "/Materials/"),
       Event.CreateDirectory ("Standard Assets/Models/" ++
         env.GetFileNameNoExtensionFromPath (env.GetFileNameFromPath filePath) ++ "/Textures/"),
       Event.CopyFileFromTo filePath ("Standard Assets/Models/" ++
         env.GetFileNameNoExtensionFromPath (env.GetFileNameFromPath filePath) ++ "/" ++
         env.GetFileNameFromPath (env.GetFileNameFromPath filePath))] ++
      (copies ++
        ((ProcessNode env scene scene.mRootNode none none (beginLoad env imp filePath)
            (prepareModelFiles env (beginLoad env imp filePath) w)).2.1.since
            (prepareModelFiles env (beginLoad env imp filePath) w) ++ normalization)) := by
  refine ⟨materialCopyEvents env (beginLoad env imp filePath)
      (env.GetFilesInDirectory (w.trace ++ modelSetupEvents env (beginLoad env imp filePath))
        (env.GetPathWithoutFileName filePath)),
    normalizationEvents env
      (ProcessNode env scene scene.mRootNode none none (beginLoad env imp filePath)
        (prepareModelFiles env (beginLoad env imp filePath) w)).1
      (ProcessNode env scene scene.mRootNode none none (beginLoad env imp filePath)
        (prepareModelFiles env (beginLoad env imp filePath) w)).2.1.trace, ?_⟩
  rw [Load_since env imp w filePath scene hc hs]
  rfl

/-- Witness for C16: the sample scene is loaded from `a/b.obj`. -/
theorem Load_sets_up_model_directory_first_witness :
    ∃ copies normalization,
      (Load (sampleEnv [] (some sampleScene)) sampleImporter emptyWorld "a/b.obj").2.2.since
          emptyWorld =
        [Event.CreateDirectory "Standard Assets/Models/",
         Event.CreateDirectory ("Standard Assets/Models/" ++
           (sampleEnv [] (some sampleScene)).GetFileNameNoExtensionFromPath
             ((sampleEnv [] (some sampleScene)).GetFileNameFromPath "a/b.obj")),
         Event.CreateDirectory ("Standard Assets/Models/" ++
           (sampleEnv [] (some sampleScene)).GetFileNameNoExtensionFromPath
             ((sampleEnv [] (some sampleScene)).GetFileNameFromPath "a/b.obj") ++ "/Meshes/"),
         Event.CreateDirectory ("Standard Assets/Models/" ++
           (sampleEnv [] (some sampleScene)).GetFileNameNoExtensionFromPath
             ((sampleEnv [] (some sampleScene)).GetFileNameFromPath "a/b.obj") ++ "/Materials/"),
         Event.CreateDirectory ("Standard Assets/Models/" ++
           (sampleEnv [] (some sampleScene)).GetFileNameNoExtensionFromPath
             ((sampleEnv [] (some sampleScene)).GetFileNameFromPath "a/b.obj") ++ "/Textures/"),
         Event.CopyFileFromTo "a/b.obj" ("Standard Assets/Models/" ++
           (sampleEnv [] (some sampleScene)).GetFileNameNoExtensionFromPath
             ((sampleEnv [] (some sampleScene)).GetFileNameFromPath "a/b.obj") ++ "/" ++
           (sampleEnv [] (some sampleScene)).GetFileNameFromPath
             ((sampleEnv [] (some sampleScene)).GetFileNameFromPath "a/b.obj"))] ++
        (copies ++
          ((ProcessNode (sampleEnv [] (some sampleScene)) sampleScene sampleScene.mRootNode none
              none (beginLoad (sampleEnv [] (some sampleScene)) sampleImporter "a/b.obj")
              (prepareModelFiles (sampleEnv [] (some sampleScene))
                (beginLoad (sampleEnv [] (some sampleScene)) sampleImporter "a/b.obj")
                emptyWorld)).2.1.since
              (prepareModelFiles (sampleEnv [] (some sampleScene))
                (beginLoad (sampleEnv [] (some sampleScene)) sampleImporter "a/b.obj")
                emptyWorld) ++ normalization)) :=
  Load_sets_up_model_directory_first (sampleEnv [] (some sampleScene)) sampleImporter emptyWorld
    "a/b.obj" sampleScene rfl rfl


theorem processNodeHead_handle_none (env : Env) (mName : String) (hasParent : Bool)
    (mTransformation : aiMatrix4x4) (parentNode : weakGameObj) (imp : ModelImporter)
    (w : World) :
    (processNodeHead env mName hasParent mTransformation parentNode none imp w).1 =
      w.nextHandle := by
  rw [processNodeHead_none]
  rfl

/-- Processing a root node without parent pointer, below which every node has
one: the root's game object is the first one created, the importer ends up
with it as its root, and every mesh handed over carries its ID. -/
theorem ProcessNode_root_emits (env : Env) (scene : aiScene)
    (root : aiNode scene.mNumMeshes) (imp : ModelImporter) (w : World)
    (hroot : root.hasParent = false)
    (hkids : aiNode.allHaveParentsList root.mChildren = true) :
    (ProcessNode env scene root none none imp w).2.2.handle = w.nextHandle ∧
      (ProcessNode env scene root none none imp w).1 =
        { imp with m_rootGameObject := some w.nextHandle } ∧
      Emits (NodeEvent env (fun i => i = { imp with m_rootGameObject := some w.nextHandle })) w
        (ProcessNode env scene root none none imp w).2.1 := by
  cases root with
  | mk mName hasParent mTransformation mMeshes mChildren =>
    simp only [aiNode.hasParent] at hroot
    simp only [aiNode.mChildren] at hkids
    subst hroot
    rw [ProcessNode_eq]
    have himp : (processNodeHead env mName false mTransformation none none imp w).2.1 =
        { imp with m_rootGameObject := some w.nextHandle } := by
      rw [processNodeHead_importer, processNodeHead_handle_none]
      simp
    have hc := ProcessChildren_emits env scene
      (fun i => i = { imp with m_rootGameObject := some w.nextHandle }) mChildren
      (processNodeHead env mName false mTransformation none none imp w).1
      (processNodeHead env mName false mTransformation none none imp w).2.1
      (processNodeMeshes env
        (processNodeHead env mName false mTransformation none none imp w).2.1
        scene mName mMeshes.length
        (processNodeHead env mName false mTransformation none none imp w).1 0 mMeshes
        (processNodeHead env mName false mTransformation none none imp w).2.2)
      (Or.inl hkids) himp
    refine ⟨?_, hc.1, ?_⟩
    · simp only [GoTree.handle]
      exact processNodeHead_handle_none env mName false mTransformation none imp w
    · have hhead := processNodeHead_emits env
        (fun i => i = { imp with m_rootGameObject := some w.nextHandle }) mName false
        mTransformation none none imp w
      have hmesh := processNodeMeshes_emits env
        (fun i => i = { imp with m_rootGameObject := some w.nextHandle })
        (processNodeHead env mName false mTransformation none none imp w).2.1 scene mName
        mMeshes.length (processNodeHead env mName false mTransformation none none imp w).1 himp
        mMeshes 0 (processNodeHead env mName false mTransformation none none imp w).2.2
      exact Emits_trans (Emits_trans hhead hmesh) hc.2

theorem createdMesh_setup (env : Env) (imp : ModelImporter) (files : List String) :
    (modelSetupEvents env imp ++ materialCopyEvents env imp files).filterMap
      Event.createdMesh? = [] := by
  rw [List.filterMap_eq_nil_iff]
  intro e he
  rcases List.mem_append.mp he with he | he
  · simp only [modelSetupEvents, List.mem_cons, List.mem_singleton, List.not_mem_nil,
      or_false] at he
    rcases he with rfl | rfl | rfl | rfl | rfl | rfl <;> rfl
  · simp only [materialCopyEvents, List.mem_map] at he
    obtain ⟨file, _, rfl⟩ := he
    rfl

theorem createdMesh_normalization (env : Env) (imp : ModelImporter) (hist : List Event) :
    (normalizationEvents env imp hist).filterMap Event.createdMesh? = [] := by
  unfold normalizationEvents
  cases imp.m_rootGameObject with
  | none => rfl
  | some root =>
    show ((firstMeshBearing env hist (env.GetDescendants hist root)).toList.map
      Event.NormalizeModelScale).filterMap Event.createdMesh? = []
    cases firstMeshBearing env hist (env.GetDescendants hist root) <;> rfl

/-- The meshes handed over during a `Load` that has a context and a scene
are those handed over while the node tree is processed. -/
theorem Load_createdMesh (env : Env) (imp : ModelImporter) (w : World) (filePath : String)
    (scene : aiScene) (hc : imp.m_context = true)
    (hs : env.ReadFile w.trace filePath = some scene) :
    ((Load env imp w filePath).2.2.since w).filterMap Event.createdMesh? =
      ((ProcessNode env scene scene.mRootNode none none (beginLoad env imp filePath)
        (prepareModelFiles env (beginLoad env imp filePath) w)).2.1.since
        (prepareModelFiles env (beginLoad env imp filePath) w)).filterMap Event.createdMesh? := by
  rw [Load_since env imp w filePath scene hc hs, ← List.append_assoc, List.filterMap_append,
    createdMesh_setup, List.filterMap_append, createdMesh_normalization]
  simp

/-- C14: in a `Load` that has a context and a scene whose root node has no
parent pointer while every node below it has one, `GetModelRoot` afterwards
returns the game object created for the root node, and every mesh created
during the load is registered with the ID of that game object; when no game
object ID is spelled `DATA_NOT_ASSIGNED`, no mesh is registered with
`DATA_NOT_ASSIGNED`. -/
theorem Load_registers_meshes_with_root_id (env : Env) (imp : ModelImporter) (w : World)
    (filePath : String) (scene : aiScene) (hc : imp.m_context = true)
    (hs : env.ReadFile w.trace filePath = some scene)
    (hroot : scene.mRootNode.hasParent = false)
    (hkids : aiNode.allHaveParentsList scene.mRootNode.mChildren = true) :
    GetModelRoot (Load env imp w filePath).2.1 =
        some (ProcessNode env scene scene.mRootNode none none (beginLoad env imp filePath)
          (prepareModelFiles env (beginLoad env imp filePath) w)).2.2.handle ∧
      (∀ call ∈ ((Load env imp w filePath).2.2.since w).filterMap Event.createdMesh?,
        call.2.2.1 = env.GetID
          (ProcessNode env scene scene.mRootNode none none (beginLoad env imp filePath)
            (prepareModelFiles env (beginLoad env imp filePath) w)).2.2.handle) ∧
      ((∀ h, env.GetID h ≠ env.DATA_NOT_ASSIGNED) →
        ∀ call ∈ ((Load env imp w filePath).2.2.since w).filterMap Event.createdMesh?,
          call.2.2.1 ≠ env.DATA_NOT_ASSIGNED) := by
  obtain ⟨hh, hi, evs, ht, hp⟩ := ProcessNode_root_emits env scene scene.mRootNode
    (beginLoad env imp filePath) (prepareModelFiles env (beginLoad env imp filePath) w)
    hroot hkids
  have hcalls : ∀ call ∈ ((Load env imp w filePath).2.2.since w).filterMap Event.createdMesh?,
      call.2.2.1 = env.GetID
        (ProcessNode env scene scene.mRootNode none none (beginLoad env imp filePath)
          (prepareModelFiles env (beginLoad env imp filePath) w)).2.2.handle := by
    intro call hcall
    rw [Load_createdMesh env imp w filePath scene hc hs, World.since_append _ _ _ ht] at hcall
    obtain ⟨e, he, hec⟩ := List.mem_filterMap.mp hcall
    obtain ⟨i, hi', hid⟩ := (hp e he).2 call hec
    rw [hid, hi', hh]
    rfl
  refine ⟨?_, hcalls, ?_⟩
  · rw [Load_of_scene env imp w filePath scene hc hs]
    simp only [loadScene, GetModelRoot]
    rw [hi, hh]
    simp
  · intro hid call hcall
    rw [hcalls call hcall]
    exact hid _

/-- Witness for C14: the sample scene, whose root has no parent pointer and
whose other nodes all have one. -/
theorem Load_registers_meshes_with_root_id_witness :
    GetModelRoot (Load (sampleEnv [] (some sampleScene)) sampleImporter emptyWorld
        "a/b.obj").2.1 =
        some (ProcessNode (sampleEnv [] (some sampleScene)) sampleScene sampleScene.mRootNode
          none none (beginLoad (sampleEnv [] (some sampleScene)) sampleImporter "a/b.obj")
          (prepareModelFiles (sampleEnv [] (some sampleScene))
            (beginLoad (sampleEnv [] (some sampleScene)) sampleImporter "a/b.obj")
            emptyWorld)).2.2.handle ∧
      (∀ call ∈ ((Load (sampleEnv [] (some sampleScene)) sampleImporter emptyWorld
          "a/b.obj").2.2.since emptyWorld).filterMap Event.createdMesh?,
        call.2.2.1 = (sampleEnv [] (some sampleScene)).GetID
          (ProcessNode (sampleEnv [] (some sampleScene)) sampleScene sampleScene.mRootNode
            none none (beginLoad (sampleEnv [] (some sampleScene)) sampleImporter "a/b.obj")
            (prepareModelFiles (sampleEnv [] (some sampleScene))
              (beginLoad (sampleEnv [] (some sampleScene)) sampleImporter "a/b.obj")
              emptyWorld)).2.2.handle) ∧
      ((∀ h, (sampleEnv [] (some sampleScene)).GetID h ≠
          (sampleEnv [] (some sampleScene)).DATA_NOT_ASSIGNED) →
        ∀ call ∈ ((Load (sampleEnv [] (some sampleScene)) sampleImporter emptyWorld
            "a/b.obj").2.2.since emptyWorld).filterMap Event.createdMesh?,
          call.2.2.1 ≠ (sampleEnv [] (some sampleScene)).DATA_NOT_ASSIGNED) :=
  Load_registers_meshes_with_root_id (sampleEnv [] (some sampleScene)) sampleImporter emptyWorld
    "a/b.obj" sampleScene rfl rfl rfl rfl

/-! ## `QDirectus3DWidget::resizeEvent` -/

/-- C28, failing input: for a resize event to 800 by 600 the widget passes
width 800 and height 800 to `SetViewport`; the height of the event is never
read. -/
theorem resizeEvent_passes_width_as_height :
    QDirectus3DWidget.resizeEvent ⟨⟨800, 600⟩⟩ = (800, 800) ∧
      (QDirectus3DWidget.resizeEvent ⟨⟨800, 600⟩⟩).2 ≠ (QResizeEvent.mk ⟨800, 600⟩).size.height := by
  decide

/-! ## Albedo colour of generated materials -/

theorem AddTextureToMaterial_colorAlbedo (env : Env) (imp : ModelImporter) (w : World)
    (material : Material) (textureType : TextureType) (texturePath : String) :
    (AddTextureToMaterial env imp w material textureType texturePath).1.colorAlbedo =
      material.colorAlbedo := by
  unfold AddTextureToMaterial
  dsimp only
  split
  · rfl
  · split
    · rfl
    · rfl

theorem addTextureOfType_colorAlbedo (env : Env) (imp : ModelImporter) (material : aiMaterial)
    (kind : aiTextureType) (slot : TextureType) (st : Material × World) :
    (addTextureOfType env imp material kind slot st).1.colorAlbedo = st.1.colorAlbedo := by
  unfold addTextureOfType
  split
  · split
    · exact AddTextureToMaterial_colorAlbedo env imp st.2 st.1 slot _
    · rfl
  · rfl

/-- C27: the albedo colour of the material that `GenerateMaterialFromAiMaterial`
produces is the external diffuse colour (opaque white when none is defined),
with opaque black replaced by opaque white whatever textures the material has;
so it is never opaque black. -/
theorem GenerateMaterialFromAiMaterial_albedo_not_opaque_black (env : Env)
    (imp : ModelImporter) (w : World) (material : aiMaterial) :
    (GenerateMaterialFromAiMaterial env imp w material).1.colorAlbedo =
        (if ToVector4 (material.colorDiffuse.getD ⟨1, 1, 1, 1⟩) = ⟨0, 0, 0, 1⟩ then ⟨1, 1, 1, 1⟩
          else ToVector4 (material.colorDiffuse.getD ⟨1, 1, 1, 1⟩)) ∧
      (GenerateMaterialFromAiMaterial env imp w material).1.colorAlbedo ≠ ⟨0, 0, 0, 1⟩ := by
  have key : (GenerateMaterialFromAiMaterial env imp w material).1.colorAlbedo =
      (if ToVector4 (material.colorDiffuse.getD ⟨1, 1, 1, 1⟩) = ⟨0, 0, 0, 1⟩ then ⟨1, 1, 1, 1⟩
        else ToVector4 (material.colorDiffuse.getD ⟨1, 1, 1, 1⟩)) := by
    unfold GenerateMaterialFromAiMaterial
    dsimp only
    simp only [addTextureOfType_colorAlbedo]
    split <;> rfl
  refine ⟨key, ?_⟩
  rw [key]
  split
  · decide
  · assumption

/-! ## A failed `Load` changes nothing -/

theorem Load_false_trace (env : Env) (imp : ModelImporter) (w : World) (filePath : String)
    (h : (Load env imp w filePath).1 = false) :
    (Load env imp w filePath).2.2.nextHandle = w.nextHandle ∧
      ∃ message, (Load env imp w filePath).2.2.trace =
        w.trace ++ [Event.Log LogLevel.Error message] := by
  have hp : (beginLoad env imp filePath).m_filePath = filePath := rfl
  revert h
  unfold Load
  cases hc : imp.m_context with
  | false =>
    intro _
    exact ⟨rfl, _, rfl⟩
  | true =>
    simp only [Bool.not_true, Bool.false_eq_true, if_false, hp]
    cases hs : env.ReadFile w.trace filePath with
    | none =>
      intro _
      exact ⟨rfl, _, rfl⟩
    | some scene =>
      intro h
      simp [loadScene] at h

/-- C25: when `Load` returns false, the only thing it has done to the world is
to log one error: no game object was created (the handle counter is where it
was) and the events since the call are that one log line, so there is no
directory creation and no file copy among them. -/
theorem Load_false_creates_and_copies_nothing (env : Env) (imp : ModelImporter) (w : World)
    (filePath : String) (h : (Load env imp w filePath).1 = false) :
    (Load env imp w filePath).2.2.nextHandle = w.nextHandle ∧
      (∃ message, (Load env imp w filePath).2.2.since w =
        [Event.Log LogLevel.Error message]) ∧
      ∀ e ∈ (Load env imp w filePath).2.2.since w,
        (∀ handle, e ≠ Event.CreateGameObject handle) ∧
        (∀ directory, e ≠ Event.CreateDirectory directory) ∧
        (∀ source destination, e ≠ Event.CopyFileFromTo source destination) := by
  obtain ⟨hn, message, ht⟩ := Load_false_trace env imp w filePath h
  have hs : (Load env imp w filePath).2.2.since w = [Event.Log LogLevel.Error message] := by
    unfold World.since
    rw [ht]
    simp
  refine ⟨hn, ⟨message, hs⟩, ?_⟩
  intro e he
  rw [hs] at he
  simp only [List.mem_singleton] at he
  subst he
  refine ⟨?_, ?_, ?_⟩ <;> intros <;> simp

/-- Witness for C25: the parser cannot read the file. -/
theorem Load_false_creates_and_copies_nothing_witness :
    (Load (sampleEnv [] none) sampleImporter emptyWorld "missing.obj").1 = false ∧
      (Load (sampleEnv [] none) sampleImporter emptyWorld "missing.obj").2.2.nextHandle =
        emptyWorld.nextHandle ∧
      (Load (sampleEnv [] none) sampleImporter emptyWorld "missing.obj").2.2.since emptyWorld =
        [Event.Log LogLevel.Error "Failed to load \"missing\". Unable to open file"] :=
  ⟨by decide,
    (Load_false_creates_and_copies_nothing (sampleEnv [] none) sampleImporter emptyWorld
      "missing.obj" (by decide)).1,
    by decide⟩

/-! ## Candidates of `TryPathWithMultipleExtensions` -/

theorem tryExtensions_mem (fileExists : String → Bool) (fileName fullpath : String)
    (exts : List String) :
    tryExtensions fileExists fileName fullpath exts = fullpath ∨
      tryExtensions fileExists fileName fullpath exts ∈ exts.map (fun ext => fileName ++ ext) := by
  induction exts with
  | nil => exact Or.inl rfl
  | cons ext rest ih =>
    unfold tryExtensions
    split
    · exact Or.inr (by simp)
    · rcases ih with h | h
      · exact Or.inl h
      · exact Or.inr (List.mem_cons_of_mem _ h)

theorem TryPathWithMultipleExtensions_mem_candidates (env : Env) (hist : List Event)
    (fullpath : String) :
    TryPathWithMultipleExtensions env hist fullpath = fullpath ∨
      TryPathWithMultipleExtensions env hist fullpath ∈ extensionCandidates env fullpath :=
  tryExtensions_mem (env.FileExists hist) (removeExtension fullpath) fullpath
    env.GetSupportedImageFileFormats

/-- C24, failing input: for the path `My.Models/wood`, whose file name has no
extension and whose directory name has a dot, the candidates tested are
`My.jpg`, `My.png`, `My.tga`, and with `My.jpg` on disk that is the path
returned: another directory and another base name than those of the input. -/
theorem TryPathWithMultipleExtensions_cuts_at_directory_dot :
    extensionCandidates (sampleEnv ["My.jpg"] none) "My.Models/wood" =
        ["My.jpg", "My.png", "My.tga"] ∧
      TryPathWithMultipleExtensions (sampleEnv ["My.jpg"] none) [] "My.Models/wood" = "My.jpg" ∧
      samplePathWithoutFileName "My.Models/wood" = "My.Models/" ∧
      samplePathWithoutFileName "My.jpg" = "" ∧
      sampleFileName "My.Models/wood" = "wood" := by
  decide

/-! ## `MeshPool::NormalizeModelScale` -/

theorem foldl_largest_spec (rest : List MeshData) (first : MeshData) :
    (rest.foldl
        (fun largest candidate =>
          if largest.boundingSize < candidate.boundingSize then candidate else largest) first)
      ∈ first :: rest ∧
    ∀ mesh ∈ first :: rest, mesh.boundingSize ≤
      (rest.foldl
        (fun largest candidate =>
          if largest.boundingSize < candidate.boundingSize then candidate else largest)
        first).boundingSize := by
  induction rest generalizing first with
  | nil => simp
  | cons x rest ih =>
    simp only [List.foldl_cons]
    by_cases hlt : first.boundingSize < x.boundingSize
    · rw [if_pos hlt]
      obtain ⟨hmem, hmax⟩ := ih x
      refine ⟨List.mem_cons_of_mem _ hmem, ?_⟩
      intro mesh hm
      rcases List.mem_cons.1 hm with h | h
      · subst h
        exact le_trans (le_of_lt hlt) (hmax x (List.mem_cons_self _ _))
      · exact hmax mesh h
    · rw [if_neg hlt]
      obtain ⟨hmem, hmax⟩ := ih first
      refine ⟨?_, ?_⟩
      · rcases List.mem_cons.1 hmem with h | h
        · rw [h]; exact List.mem_cons_self _ _
        · exact List.mem_cons_of_mem _ (List.mem_cons_of_mem _ h)
      · intro mesh hm
        rcases List.mem_cons.1 hm with h | h
        · subst h
          exact hmax mesh (List.mem_cons_self _ _)
        · rcases List.mem_cons.1 h with h | h
          · subst h
            exact le_trans (not_lt.1 hlt) (hmax first (List.mem_cons_self _ _))
          · exact hmax mesh (List.mem_cons_of_mem _ h)

theorem GetLargestBoundingBox_spec (meshes : List MeshData) (largest : MeshData)
    (h : GetLargestBoundingBox meshes = some largest) :
    largest ∈ meshes ∧ ∀ mesh ∈ meshes, mesh.boundingSize ≤ largest.boundingSize := by
  cases meshes with
  | nil => simp [GetLargestBoundingBox] at h
  | cons first rest =>
    simp only [GetLargestBoundingBox, Option.some.injEq] at h
    subst h
    exact foldl_largest_spec rest first

/-- C22: when the model of the root has a mesh of largest bounding size,
`NormalizeModelScale` scales every mesh of that model by one factor, the
target divided by that largest size, and leaves the meshes of other models
alone; the largest size is the size of a mesh of the model and no mesh of the
model is larger. -/
theorem NormalizeModelScale_uses_one_factor (target : Rat) (pool : List MeshData)
    (rootGameObjectID : String) (largest : MeshData)
    (h : GetLargestBoundingBox (GetModelMeshesByModelName pool rootGameObjectID) =
      some largest) :
    NormalizeModelScale target pool rootGameObjectID =
        pool.map (fun mesh =>
          if mesh.rootGameObjectID = rootGameObjectID then
            SetMeshScale mesh (target / largest.boundingSize)
          else mesh) ∧
      largest ∈ GetModelMeshesByModelName pool rootGameObjectID ∧
      ∀ mesh ∈ GetModelMeshesByModelName pool rootGameObjectID,
        mesh.boundingSize ≤ largest.boundingSize := by
  refine ⟨?_, GetLargestBoundingBox_spec _ _ h⟩
  unfold NormalizeModelScale GetNormalizedModelScaleByRootGameObjectID SetModelScale
  rw [h]

/-- Witness for C22: meshes of bounding sizes 2, 5 and 10 in one model,
normalized to the target 20, are all scaled by 20/10; the mesh of the other
model keeps its size. -/
theorem NormalizeModelScale_uses_one_factor_witness :
    GetLargestBoundingBox (GetModelMeshesByModelName samplePool "car") =
        some ⟨"car", [⟨0, 0, 10⟩], 10⟩ ∧
      NormalizeModelScale 20 samplePool "car" =
        samplePool.map (fun mesh =>
          if mesh.rootGameObjectID = "car" then
            SetMeshScale mesh (20 / (MeshData.mk "car" [⟨0, 0, 10⟩] 10).boundingSize)
          else mesh) :=
  ⟨by decide,
    (NormalizeModelScale_uses_one_factor 20 samplePool "car" ⟨"car", [⟨0, 0, 10⟩], 10⟩
      (by decide)).1⟩

/-! ## `Transform::SetParent` and cycles -/

/-- C21: setting the parent of a node to one of the node's own descendants
leaves the links as they were, so every node has the parent and the child
sequence it had before. -/
theorem setParent_to_descendant_changes_nothing (links : List (Nat × Nat))
    (self newParent : Nat) (h : isDescendantOf links newParent self = true) :
    setParent links self (some newParent) = links ∧
      ∀ node,
        parentIn (setParent links self (some newParent)) node = parentIn links node ∧
        childrenIn (setParent links self (some newParent)) node = childrenIn links node := by
  have key : setParent links self (some newParent) = links := by
    unfold setParent
    simp only [h, if_true]
  refine ⟨key, ?_⟩
  intro node
  rw [key]
  exact ⟨rfl, rfl⟩

/-- Witness for C21: in the chain 0, 1, 2 (1 is a child of 0, 2 a child of 1)
node 2 is a descendant of node 0, and making 2 the parent of 0 changes
nothing. -/
theorem setParent_to_descendant_changes_nothing_witness :
    isDescendantOf [(1, 0), (2, 1)] 2 0 = true ∧
      setParent [(1, 0), (2, 1)] 0 (some 2) = [(1, 0), (2, 1)] :=
  ⟨by decide, (setParent_to_descendant_changes_nothing [(1, 0), (2, 1)] 0 2 (by decide)).1⟩

/-! ## Counting game objects and meshes -/

theorem meshHandles_append (a b : List Event) :
    meshHandles (a ++ b) = meshHandles a ++ meshHandles b := by
  simp [meshHandles]

theorem Counted_congr {lo c m c' m' : Nat} {w w' : World} (hc : c = c') (hm : m = m')
    (h : Counted lo c m w w') : Counted lo c' m' w w' := by
  subst hc
  subst hm
  exact h

theorem Counted_prefix {lo c m : Nat} {w w₁ w₂ : World} (evs₀ : List Event)
    (hn : w₁.nextHandle = w.nextHandle) (ht : w₁.trace = w.trace ++ evs₀)
    (hc : evs₀.filterMap Event.created? = []) (hm : evs₀.filterMap Event.createdMesh? = [])
    (h : Counted lo c m w₁ w₂) : Counted lo c m w w₂ := by
  obtain ⟨hn₂, evs, ht₂, hc₂, hm₂, hr, hd⟩ := h
  refine ⟨by omega, evs₀ ++ evs, by rw [ht₂, ht, List.append_assoc], ?_, ?_, ?_, ?_⟩
  · rw [List.filterMap_append, hc, List.nil_append, hc₂]
  · rw [List.filterMap_append, hm, List.nil_append, hm₂]
  · have : meshHandles (evs₀ ++ evs) = meshHandles evs := by
      simp [meshHandles, hm]
    rw [this]
    exact hr
  · have : meshHandles (evs₀ ++ evs) = meshHandles evs := by
      simp [meshHandles, hm]
    rw [this]
    exact hd

theorem Counted_trans {lo lo₂ c₁ m₁ c₂ m₂ : Nat} {w w₁ w₂ : World}
    (h₁ : Counted lo c₁ m₁ w w₁) (h₂ : Counted lo₂ c₂ m₂ w₁ w₂) (hlo : lo ≤ lo₂)
    (hfresh : w₁.nextHandle ≤ lo₂) : Counted lo (c₁ + c₂) (m₁ + m₂) w w₂ := by
  obtain ⟨hn₁, evs₁, ht₁, hc₁, hm₁, hr₁, hd₁⟩ := h₁
  obtain ⟨hn₂, evs₂, ht₂, hc₂, hm₂, hr₂, hd₂⟩ := h₂
  refine ⟨by omega, evs₁ ++ evs₂, by rw [ht₂, ht₁, List.append_assoc], ?_, ?_, ?_, ?_⟩
  · rw [List.filterMap_append, List.length_append, hc₁, hc₂]
  · rw [List.filterMap_append, List.length_append, hm₁, hm₂]
  · intro x hx
    rw [meshHandles_append] at hx
    rcases List.mem_append.1 hx with hx | hx
    · have := hr₁ x hx
      omega
    · have := hr₂ x hx
      omega
  · rw [meshHandles_append]
    refine List.Nodup.append hd₁ hd₂ ?_
    intro x hx₁ hx₂
    have := hr₁ x hx₁
    have := hr₂ x hx₂
    omega

theorem Counted_create {c m : Nat} {w w' : World}
    (h : Counted w.nextHandle c m (CreateGameObject w).2 w') :
    Counted w.nextHandle (c + 1) m w w' := by
  obtain ⟨hn, evs, ht, hc, hm, hr, hd⟩ := h
  simp only [CreateGameObject, World.emit] at hn ht
  refine ⟨by omega, Event.CreateGameObject w.nextHandle :: evs, by rw [ht]; simp, ?_, ?_, ?_, ?_⟩
  · simp [Event.created?, hc]
  · simpa [Event.createdMesh?] using hm
  · have : meshHandles (Event.CreateGameObject w.nextHandle :: evs) = meshHandles evs := by
      simp [meshHandles, Event.createdMesh?]
    rw [this]
    exact hr
  · have : meshHandles (Event.CreateGameObject w.nextHandle :: evs) = meshHandles evs := by
      simp [meshHandles, Event.createdMesh?]
    rw [this]
    exact hd

theorem processNodeHead_counts (env : Env) (mName : String) (hasParent : Bool)
    (mTransformation : aiMatrix4x4) (parentNode : weakGameObj) (h : Nat) (imp : ModelImporter)
    (w : World) :
    ∃ evs, (processNodeHead env mName hasParent mTransformation parentNode (some h) imp
        w).2.2.trace = w.trace ++ evs ∧
      evs.filterMap Event.created? = [] ∧ evs.filterMap Event.createdMesh? = [] := by
  cases hasParent <;> cases parentNode <;>
    simp [processNodeHead, SetGameObjectTransform, World.emit, Event.created?,
      Event.createdMesh?, weakGameObj.expired]

theorem processNodeMeshes_single_meshes (env : Env) (imp : ModelImporter) (scene : aiScene)
    (mName : String) (mNumMeshes newNode : Nat) (h : ¬ mNumMeshes > 1)
    (rest : List (Fin scene.mNumMeshes)) :
    ∀ (i : Nat) (w : World),
      (processNodeMeshes env imp scene mName mNumMeshes newNode i rest w).nextHandle =
          w.nextHandle ∧
      ∃ evs, (processNodeMeshes env imp scene mName mNumMeshes newNode i rest w).trace =
          w.trace ++ evs ∧
        evs.filterMap Event.created? = [] ∧
        meshHandles evs = rest.map (fun _ => newNode) := by
  induction rest with
  | nil =>
    intro i w
    exact ⟨by simp [processNodeMeshes], [], by simp [processNodeMeshes], by simp,
      by simp [meshHandles]⟩
  | cons m rest ih =>
    intro i w
    have hunf : processNodeMeshes env imp scene mName mNumMeshes newNode i (m :: rest) w =
        processNodeMeshes env imp scene mName mNumMeshes newNode (i + 1) rest
          (ProcessMesh env imp scene
            ((meshGameObject mName mNumMeshes newNode i w).2.2.emit
              (Event.SetName (meshGameObject mName mNumMeshes newNode i w).1
                (meshGameObject mName mNumMeshes newNode i w).2.1))
            (scene.mMeshes m) (some (meshGameObject mName mNumMeshes newNode i w).1)) := rfl
    rw [hunf, meshGameObject_single _ _ _ _ _ h]
    dsimp only
    obtain ⟨hn₁, evs₁, ht₁, hp₁⟩ := ProcessMesh_trace env imp scene
      (w.emit (Event.SetName newNode mName)) (scene.mMeshes m) newNode
    obtain ⟨hn₂, evs₂, ht₂, hc₂, hm₂⟩ := ih (i + 1)
      (ProcessMesh env imp scene (w.emit (Event.SetName newNode mName)) (scene.mMeshes m)
        (some newNode))
    refine ⟨by rw [hn₂, hn₁]; rfl, _,
      by rw [ht₂, ht₁]; simp only [World.emit, List.append_assoc]; rfl, ?_, ?_⟩
    · simp only [List.cons_append, List.nil_append, List.filterMap_cons, Event.created?,
        List.filterMap_append, filterMap_created_resource evs₁ hp₁, hc₂]
    · simp only [meshHandles] at hm₂ ⊢
      simp only [List.cons_append, List.nil_append, List.filterMap_cons, Event.createdMesh?,
        List.filterMap_append, filterMap_createdMesh_resource evs₁ hp₁, List.map_cons,
        List.map_append, hm₂, List.map_nil]

theorem processNodeMeshes_counted (env : Env) (imp : ModelImporter) (scene : aiScene)
    (mName : String) (newNode : Nat) (mMeshes : List (Fin scene.mNumMeshes)) (w : World)
    (hnew : newNode < w.nextHandle) :
    Counted newNode (splitOf mMeshes.length) mMeshes.length w
      (processNodeMeshes env imp scene mName mMeshes.length newNode 0 mMeshes w) := by
  by_cases h : mMeshes.length > 1
  · obtain ⟨hn, evs, ht, hc, _, hm⟩ :=
      processNodeMeshes_many env imp scene mName mMeshes.length newNode h mMeshes 0 w
    have hh : meshHandles evs = (mMeshes.enumFrom w.nextHandle).map Prod.fst := by
      simp only [meshHandles, hm, List.map_map]
      rfl
    refine ⟨by simp [splitOf, h, hn], evs, ht, by simp [hc, splitOf, h], by simp [hm], ?_, ?_⟩
    · intro x hx
      rw [hh] at hx
      obtain ⟨p, hp, rfl⟩ := List.mem_map.mp hx
      have := bounds_of_mem_enumFrom mMeshes w.nextHandle p hp
      omega
    · rw [hh, List.enumFrom_map_fst]
      exact List.nodup_range' _ _
  · obtain ⟨hn, evs, ht, hc, hm⟩ :=
      processNodeMeshes_single_meshes env imp scene mName mMeshes.length newNode h mMeshes 0 w
    have hlen : (evs.filterMap Event.createdMesh?).length = mMeshes.length := by
      have := congrArg List.length hm
      simpa [meshHandles] using this
    refine ⟨by simp [splitOf, h, hn], evs, ht, by simp [hc, splitOf, h], hlen, ?_, ?_⟩
    · intro x hx
      rw [hm] at hx
      obtain ⟨_, _, rfl⟩ := List.mem_map.mp hx
      omega
    · rw [hm]
      match mMeshes, h with
      | [], _ => simp
      | [_], _ => simp
      | _ :: _ :: _, h => simp at h

mutual
theorem ProcessNode_counted (env : Env) (scene : aiScene) :
    ∀ (node : aiNode scene.mNumMeshes) (parent : weakGameObj) (h : Nat) (imp : ModelImporter)
      (w : World), h < w.nextHandle →
      Counted h (node.nodeCount + node.splitCount - 1) node.meshRefCount w
        (ProcessNode env scene node parent (some h) imp w).2.1
  | aiNode.mk mName hasParent mTransformation mMeshes mChildren, parent, h, imp, w, hlt => by
    rw [ProcessNode_eq]
    obtain ⟨hh1, hhn, _⟩ :=
      processNodeHead_some env mName hasParent mTransformation parent h imp w
    obtain ⟨evsH, hhT, hhC, hhM⟩ :=
      processNodeHead_counts env mName hasParent mTransformation parent h imp w
    have hm := processNodeMeshes_counted env
      (processNodeHead env mName hasParent mTransformation parent (some h) imp w).2.1
      scene mName
      (processNodeHead env mName hasParent mTransformation parent (some h) imp w).1 mMeshes
      (processNodeHead env mName hasParent mTransformation parent (some h) imp w).2.2
      (by rw [hh1, hhn]; exact hlt)
    have hc := ProcessChildren_counted env scene mChildren
      (processNodeHead env mName hasParent mTransformation parent (some h) imp w).1
      (processNodeHead env mName hasParent mTransformation parent (some h) imp w).2.1
      (processNodeMeshes env
        (processNodeHead env mName hasParent mTransformation parent (some h) imp w).2.1
        scene mName mMeshes.length
        (processNodeHead env mName hasParent mTransformation parent (some h) imp w).1 0 mMeshes
        (processNodeHead env mName hasParent mTransformation parent (some h) imp w).2.2)
    rw [hh1] at hm hc ⊢
    generalize (processNodeHead env mName hasParent mTransformation parent (some h) imp w).2.1
      = impH at hm hc ⊢
    generalize (processNodeHead env mName hasParent mTransformation parent (some h) imp w).2.2
      = wH at hhn hhT hm hc ⊢
    generalize processNodeMeshes env impH scene mName mMeshes.length h 0 mMeshes wH
      = wM at hm hc ⊢
    have hle : h ≤ wM.nextHandle := by
      have := hm.1
      omega
    have := Counted_prefix evsH hhn hhT hhC hhM (Counted_trans hm hc hle (Nat.le_refl _))
    refine Counted_congr ?_ ?_ this
    · simp only [aiNode.nodeCount, aiNode.splitCount]
      omega
    · simp only [aiNode.meshRefCount]
theorem ProcessChildren_counted (env : Env) (scene : aiScene) :
    ∀ (children : List (aiNode scene.mNumMeshes)) (h : Nat) (imp : ModelImporter) (w : World),
      Counted w.nextHandle
        (aiNode.nodeCountList children + aiNode.splitCountList children)
        (aiNode.meshRefCountList children) w (ProcessChildren env scene h children imp w).2.1
  | [], h, imp, w => by
    rw [ProcessChildren_nil]
    exact ⟨rfl, [], by simp, by simp [aiNode.nodeCountList, aiNode.splitCountList],
      by simp [aiNode.meshRefCountList], by simp [meshHandles], by simp [meshHandles]⟩
  | assimpChild :: rest, h, imp, w => by
    rw [ProcessChildren_cons]
    have h₁ := ProcessNode_counted env scene assimpChild (some h) w.nextHandle imp
      (CreateGameObject w).2 (by simp [CreateGameObject])
    have h₂ := ProcessChildren_counted env scene rest h
      (ProcessNode env scene assimpChild (some h) (some w.nextHandle) imp
        (CreateGameObject w).2).1
      (ProcessNode env scene assimpChild (some h) (some w.nextHandle) imp
        (CreateGameObject w).2).2.1
    generalize ProcessNode env scene assimpChild (some h) (some w.nextHandle) imp
      (CreateGameObject w).2 = r₁ at h₁ h₂ ⊢
    generalize ProcessChildren env scene h rest r₁.1 r₁.2.1 = r₂ at h₂ ⊢
    have h₁' := Counted_create h₁
    have hle : w.nextHandle ≤ r₁.2.1.nextHandle := by
      have := h₁'.1
      omega
    have hpos : 1 ≤ assimpChild.nodeCount := by
      cases assimpChild with
      | mk _ _ _ _ _ => simp [aiNode.nodeCount]
    refine Counted_congr ?_ ?_ (Counted_trans h₁' h₂ hle (Nat.le_refl _))
    · simp only [aiNode.nodeCountList, aiNode.splitCountList]
      omega
    · simp only [aiNode.meshRefCountList]
end

/-- C26: `ProcessNode`, started at the root of an external tree without a
game object given, is a total function of the tree; among the events it
produces there are exactly N + S game object creations and exactly M mesh
registrations, where N counts the nodes, M the mesh references and S the mesh
references of the nodes that have more than one; and no game object is the
target of two mesh registrations. -/
theorem ProcessNode_creates_and_registers_exactly (env : Env) (scene : aiScene)
    (root : aiNode scene.mNumMeshes) (parent : weakGameObj) (imp : ModelImporter) (w : World) :
    (ProcessNode env scene root parent none imp w).2.1.nextHandle =
        w.nextHandle + (root.nodeCount + root.splitCount) ∧
      (((ProcessNode env scene root parent none imp w).2.1.since w).filterMap
        Event.created?).length = root.nodeCount + root.splitCount ∧
      (((ProcessNode env scene root parent none imp w).2.1.since w).filterMap
        Event.createdMesh?).length = root.meshRefCount ∧
      (meshHandles ((ProcessNode env scene root parent none imp w).2.1.since w)).Nodup := by
  rw [ProcessNode_none_eq]
  have h := Counted_create (ProcessNode_counted env scene root parent w.nextHandle imp
    (CreateGameObject w).2 (by simp [CreateGameObject]))
  have hpos : 1 ≤ root.nodeCount := by
    cases root with
    | mk _ _ _ _ _ => simp [aiNode.nodeCount]
  obtain ⟨hn, evs, ht, hc, hm, _, hd⟩ := h
  rw [World.since_append _ _ _ ht]
  exact ⟨by omega, by omega, hm, hd⟩

/-! ## Order of the naming and attach operations -/

theorem isAttachOf_isOpOn (g : Nat) (e : Event) (h : e.isAttachOf g = true) :
    e.isOpOn g = true := by
  cases e <;> simp_all [Event.isAttachOf, Event.isOpOn]

theorem isOpOn_resource (g : Nat) (e : Event) (h : e.isResourceWork = true) :
    e.isOpOn g = false := by
  cases e <;> simp_all [Event.isResourceWork, Event.isOpOn]

theorem not_isAttachOf (g : Nat) (e : Event) (h : e.isOpOn g = false) :
    e.isAttachOf g = false := by
  cases hq : e.isAttachOf g with
  | false => rfl
  | true => rw [isAttachOf_isOpOn g e hq] at h; exact h

theorem Precedes_of_split {P Q : Event → Bool} (a b : List Event)
    (ha : ∀ e ∈ a, Q e = false) (hb : ∀ e ∈ b, P e = false) : Precedes P Q (a ++ b) := by
  intro i j e e' hi hP hj hQ
  have hia : i < a.length := by
    by_contra hcon
    rw [List.getElem?_append_right (Nat.le_of_not_lt hcon)] at hi
    have := hb e (List.getElem?_mem hi)
    rw [hP] at this
    exact Bool.noConfusion this
  have hja : a.length ≤ j := by
    by_contra hcon
    rw [List.getElem?_append_left (Nat.lt_of_not_le hcon)] at hj
    have := ha e' (List.getElem?_mem hj)
    rw [hQ] at this
    exact Bool.noConfusion this
  omega

theorem Precedes_pad {P Q : Event → Bool} (pre mid post : List Event)
    (h : Precedes P Q mid)
    (hpre : ∀ e ∈ pre, P e = false ∧ Q e = false)
    (hpost : ∀ e ∈ post, P e = false ∧ Q e = false) :
    Precedes P Q (pre ++ (mid ++ post)) := by
  have locate : ∀ (R : Event → Bool) (k : Nat) (e : Event),
      (∀ e ∈ pre, R e = false) → (∀ e ∈ post, R e = false) →
      (pre ++ (mid ++ post))[k]? = some e → R e = true →
      pre.length ≤ k ∧ mid[k - pre.length]? = some e := by
    intro R k e hRpre hRpost hk hR
    have h₁ : pre.length ≤ k := by
      by_contra hcon
      rw [List.getElem?_append_left (Nat.lt_of_not_le hcon)] at hk
      have := hRpre e (List.getElem?_mem hk)
      rw [hR] at this
      exact Bool.noConfusion this
    rw [List.getElem?_append_right h₁] at hk
    have h₂ : k - pre.length < mid.length := by
      by_contra hcon
      rw [List.getElem?_append_right (Nat.le_of_not_lt hcon)] at hk
      have := hRpost e (List.getElem?_mem hk)
      rw [hR] at this
      exact Bool.noConfusion this
    rw [List.getElem?_append_left h₂] at hk
    exact ⟨h₁, hk⟩
  intro i j e e' hi hP hj hQ
  obtain ⟨hi₁, hi₂⟩ := locate P i e (fun e he => (hpre e he).1) (fun e he => (hpost e he).1) hi hP
  obtain ⟨hj₁, hj₂⟩ := locate Q j e' (fun e he => (hpre e he).2) (fun e he => (hpost e he).2) hj hQ
  have := h _ _ e e' hi₂ hP hj₂ hQ
  omega

/-- No operation on `g` occurs among events whose operations are all on game
objects that satisfy `F`, when `g` does not. -/
theorem no_op_of_frame (F : Nat → Prop) (evs : List Event) (g : Nat)
    (hf : ∀ e ∈ evs, ∀ x, e.isOpOn x = true → F x) (hg : ¬ F g) :
    ∀ e ∈ evs, e.isOpOn g = false := by
  intro e he
  cases hq : e.isOpOn g with
  | false => rfl
  | true => exact absurd (hf e he g hq) hg

theorem Precedes_cross (A B : List Event) (a b : Nat)
    (hA : ∀ e ∈ A, e.isOpOn b = false) (hB : ∀ e ∈ B, e.isOpOn a = false) :
    Precedes (Event.isOpOn a) (Event.isAttachOf b) (A ++ B) :=
  Precedes_of_split A B (fun e he => not_isAttachOf b e (hA e he)) hB

theorem Pairwise_pad (pre mid post : List Event) (l : List Nat)
    (h : l.Pairwise (fun a b => Precedes (Event.isOpOn a) (Event.isAttachOf b) mid))
    (hpre : ∀ g ∈ l, ∀ e ∈ pre, e.isOpOn g = false)
    (hpost : ∀ g ∈ l, ∀ e ∈ post, e.isOpOn g = false) :
    l.Pairwise (fun a b => Precedes (Event.isOpOn a) (Event.isAttachOf b)
      (pre ++ (mid ++ post))) := by
  refine List.Pairwise.imp_of_mem ?_ h
  intro a b ha hb hab
  exact Precedes_pad pre mid post hab
    (fun e he => ⟨hpre a ha e he, not_isAttachOf b e (hpre b hb e he)⟩)
    (fun e he => ⟨hpost a ha e he, not_isAttachOf b e (hpost b hb e he)⟩)

theorem processNodeHead_ops (env : Env) (mName : String) (hasParent : Bool)
    (mTransformation : aiMatrix4x4) (parentNode : weakGameObj) (h : Nat) (imp : ModelImporter)
    (w : World) :
    ∃ evs, (processNodeHead env mName hasParent mTransformation parentNode (some h) imp
        w).2.2.trace = w.trace ++ evs ∧
      ∀ e ∈ evs, ∀ g, e.isOpOn g = true → g = h := by
  have key : ∃ name parentTrans position rotation scale,
      (processNodeHead env mName hasParent mTransformation parentNode (some h) imp
        w).2.2.trace = w.trace ++ [Event.SetName h name, Event.SetParent h parentTrans,
          Event.SetPositionLocal h position, Event.SetRotationLocal h rotation,
          Event.SetScaleLocal h scale] := by
    cases hasParent
    · exact ⟨env.GetFileNameNoExtensionFromPath imp.m_filePath,
        if parentNode.expired = false then parentNode else none,
        (env.Decompose (aiMatrix4x4ToMatrix mTransformation)).2.2,
        (env.Decompose (aiMatrix4x4ToMatrix mTransformation)).2.1,
        (env.Decompose (aiMatrix4x4ToMatrix mTransformation)).1,
        by simp [processNodeHead, SetGameObjectTransform, World.emit]⟩
    · exact ⟨mName, if parentNode.expired = false then parentNode else none,
        (env.Decompose (aiMatrix4x4ToMatrix mTransformation)).2.2,
        (env.Decompose (aiMatrix4x4ToMatrix mTransformation)).2.1,
        (env.Decompose (aiMatrix4x4ToMatrix mTransformation)).1,
        by simp [processNodeHead, SetGameObjectTransform, World.emit]⟩
  obtain ⟨name, parentTrans, position, rotation, scale, ht⟩ := key
  refine ⟨_, ht, ?_⟩
  intro e he g hg
  simp only [List.mem_cons, List.mem_singleton, List.not_mem_nil, or_false] at he
  rcases he with rfl | rfl | rfl | rfl | rfl <;>
    simp only [Event.isOpOn, decide_eq_true_eq] at hg
  · exact hg.symm
  · exact hg.symm
  all_goals exact absurd hg (by simp)

theorem processNodeMeshes_ops (env : Env) (imp : ModelImporter) (scene : aiScene)
    (mName : String) (mNumMeshes newNode : Nat) (rest : List (Fin scene.mNumMeshes)) :
    ∀ (i : Nat) (w : World),
      w.nextHandle ≤
          (processNodeMeshes env imp scene mName mNumMeshes newNode i rest w).nextHandle ∧
      ∃ evs, (processNodeMeshes env imp scene mName mNumMeshes newNode i rest w).trace =
          w.trace ++ evs ∧
        ∀ e ∈ evs, ∀ g, e.isOpOn g = true → g = newNode ∨ (w.nextHandle ≤ g ∧
          g < (processNodeMeshes env imp scene mName mNumMeshes newNode i rest w).nextHandle) := by
  induction rest with
  | nil =>
    intro i w
    exact ⟨by simp [processNodeMeshes], [], by simp [processNodeMeshes], by simp⟩
  | cons m rest ih =>
    intro i w
    have hunf : processNodeMeshes env imp scene mName mNumMeshes newNode i (m :: rest) w =
        processNodeMeshes env imp scene mName mNumMeshes newNode (i + 1) rest
          (ProcessMesh env imp scene
            ((meshGameObject mName mNumMeshes newNode i w).2.2.emit
              (Event.SetName (meshGameObject mName mNumMeshes newNode i w).1
                (meshGameObject mName mNumMeshes newNode i w).2.1))
            (scene.mMeshes m) (some (meshGameObject mName mNumMeshes newNode i w).1)) := rfl
    rw [hunf]
    by_cases h : mNumMeshes > 1
    · obtain ⟨evs₁, hp, hstep⟩ := processNodeMeshes_many_step env imp scene mName mNumMeshes
        newNode i m w h
      rw [hstep]
      obtain ⟨hn, evs₂, ht, hops⟩ := ih (i + 1) ⟨w.nextHandle + 1, w.trace ++
        (Event.CreateGameObject w.nextHandle :: Event.SetParent w.nextHandle (some newNode) ::
          Event.SetName w.nextHandle (mName ++ ("_" ++ toString (i + 1))) ::
          Event.AddMeshFilter w.nextHandle ::
          Event.CreateAndSet w.nextHandle (scene.mMeshes m).mName (rootGameObjID env imp)
            (meshVertices env (scene.mMeshes m)) (meshIndices (scene.mMeshes m)) :: evs₁)⟩
      dsimp only at hn ht hops
      refine ⟨by omega, _, by rw [ht, List.append_assoc], ?_⟩
      intro e he g hg
      rcases List.mem_append.1 he with he | he
      · simp only [List.mem_cons] at he
        rcases he with rfl | rfl | rfl | rfl | rfl | he
        · simp [Event.isOpOn] at hg
        · simp only [Event.isOpOn, decide_eq_true_eq] at hg
          right; omega
        · simp only [Event.isOpOn, decide_eq_true_eq] at hg
          right; omega
        · simp [Event.isOpOn] at hg
        · simp [Event.isOpOn] at hg
        · rw [isOpOn_resource g e (hp e he)] at hg
          exact Bool.noConfusion hg
      · rcases hops e he g hg with hx | hx
        · exact Or.inl hx
        · right; omega
    · rw [meshGameObject_single _ _ _ _ _ h]
      dsimp only
      obtain ⟨hn₁, evs₁, ht₁, hp₁⟩ := ProcessMesh_trace env imp scene
        (w.emit (Event.SetName newNode mName)) (scene.mMeshes m) newNode
      obtain ⟨hn₂, evs₂, ht₂, hops⟩ := ih (i + 1)
        (ProcessMesh env imp scene (w.emit (Event.SetName newNode mName)) (scene.mMeshes m)
          (some newNode))
      have hn₁' : (ProcessMesh env imp scene (w.emit (Event.SetName newNode mName))
          (scene.mMeshes m) (some newNode)).nextHandle = w.nextHandle := by
        rw [hn₁]; rfl
      refine ⟨by omega, _,
        by rw [ht₂, ht₁]; simp only [World.emit, List.append_assoc]; rfl, ?_⟩
      intro e he g hg
      rcases List.mem_append.1 he with he | he
      · simp only [List.mem_cons, List.mem_singleton, List.not_mem_nil, or_false] at he
        rcases he with rfl
        simp only [Event.isOpOn, decide_eq_true_eq] at hg
        exact Or.inl hg.symm
      · rcases List.mem_append.1 he with he | he
        · simp only [List.mem_cons] at he
          rcases he with rfl | rfl | he
          · simp [Event.isOpOn] at hg
          · simp [Event.isOpOn] at hg
          · rw [isOpOn_resource g e (hp₁ e he)] at hg
            exact Bool.noConfusion hg
        · rcases hops e he g hg with hx | hx
          · exact Or.inl hx
          · right; omega

theorem GoTree_preorder_eq (t : GoTree) :
    t.preorder = t.handle :: GoTree.preorderList t.children := by
  cases t with
  | mk h cs => simp [GoTree.preorder, GoTree.handle, GoTree.children]

mutual
theorem ProcessNode_ordered (env : Env) (scene : aiScene) :
    ∀ (node : aiNode scene.mNumMeshes) (parent : weakGameObj) (h : Nat) (imp : ModelImporter)
      (w : World), h < w.nextHandle →
      NodeOrdered h w (ProcessNode env scene node parent (some h) imp w).2.1
        (ProcessNode env scene node parent (some h) imp w).2.2
  | aiNode.mk mName hasParent mTransformation mMeshes mChildren, parent, h, imp, w, hlt => by
    rw [ProcessNode_eq]
    obtain ⟨hh1, hhn, _⟩ :=
      processNodeHead_some env mName hasParent mTransformation parent h imp w
    obtain ⟨evsH, hhT, hhO⟩ :=
      processNodeHead_ops env mName hasParent mTransformation parent h imp w
    obtain ⟨hmn, evsM, hmT, hmO⟩ := processNodeMeshes_ops env
      (processNodeHead env mName hasParent mTransformation parent (some h) imp w).2.1
      scene mName mMeshes.length
      (processNodeHead env mName hasParent mTransformation parent (some h) imp w).1 mMeshes 0
      (processNodeHead env mName hasParent mTransformation parent (some h) imp w).2.2
    have hc := ProcessChildren_ordered env scene mChildren
      (processNodeHead env mName hasParent mTransformation parent (some h) imp w).1
      (processNodeHead env mName hasParent mTransformation parent (some h) imp w).2.1
      (processNodeMeshes env
        (processNodeHead env mName hasParent mTransformation parent (some h) imp w).2.1
        scene mName mMeshes.length
        (processNodeHead env mName hasParent mTransformation parent (some h) imp w).1 0 mMeshes
        (processNodeHead env mName hasParent mTransformation parent (some h) imp w).2.2)
    rw [hh1] at hc hmn hmT hmO ⊢
    generalize (processNodeHead env mName hasParent mTransformation parent (some h) imp w).2.1
      = impH at hc hmn hmT hmO ⊢
    generalize (processNodeHead env mName hasParent mTransformation parent (some h) imp w).2.2
      = wH at hhn hhT hc hmn hmT hmO ⊢
    generalize processNodeMeshes env impH scene mName mMeshes.length h 0 mMeshes wH
      = wM at hc hmn hmT hmO ⊢
    obtain ⟨hcn, evsC, hcT, hcO, hcR, hcP⟩ := hc
    generalize ProcessChildren env scene h mChildren impH wM = r at hcn hcT hcO hcR hcP ⊢
    have hframe : ∀ e ∈ evsH ++ evsM, ∀ g, e.isOpOn g = true →
        g = h ∨ (w.nextHandle ≤ g ∧ g < wM.nextHandle) := by
      intro e he g hg
      rcases List.mem_append.1 he with he | he
      · exact Or.inl (hhO e he g hg)
      · rcases hmO e he g hg with hx | hx
        · exact Or.inl hx
        · right; omega
    have hpre : ∀ g ∈ GoTree.preorderList r.2.2, ∀ e ∈ evsH ++ evsM, e.isOpOn g = false := by
      intro g hg
      refine no_op_of_frame (fun x => x = h ∨ (w.nextHandle ≤ x ∧ x < wM.nextHandle)) _ g
        hframe ?_
      have := hcR g hg
      omega
    have hpost : ∀ e ∈ evsC, e.isOpOn h = false := by
      refine no_op_of_frame (fun x => wM.nextHandle ≤ x ∧ x < r.2.1.nextHandle) _ h hcO ?_
      omega
    show NodeOrdered h w r.2.1 (GoTree.mk h r.2.2)
    refine ⟨by omega, rfl, (evsH ++ evsM) ++ evsC,
      by rw [hcT, hmT, hhT]; simp only [List.append_assoc], ?_, ?_, ?_⟩
    · intro e he g hg
      rcases List.mem_append.1 he with he | he
      · rcases hframe e he g hg with hx | hx
        · exact Or.inl hx
        · right; omega
      · have := hcO e he g hg
        right; omega
    · intro g hg
      have := hcR g hg
      simp only [GoTree.children] at hg
      have := hcR g hg
      omega
    · simp only [GoTree.preorder]
      rw [List.pairwise_cons]
      refine ⟨?_, ?_⟩
      · intro b hb
        exact Precedes_cross _ _ h b (hpre b hb) hpost
      · have := Pairwise_pad (evsH ++ evsM) evsC [] _ hcP hpre (by simp)
        simpa using this
theorem ProcessChildren_ordered (env : Env) (scene : aiScene) :
    ∀ (children : List (aiNode scene.mNumMeshes)) (h : Nat) (imp : ModelImporter) (w : World),
      ChildrenOrdered w (ProcessChildren env scene h children imp w).2.1
        (ProcessChildren env scene h children imp w).2.2
  | [], h, imp, w => by
    rw [ProcessChildren_nil]
    exact ⟨Nat.le_refl _, [], by simp, by simp, by simp [GoTree.preorderList],
      by simp [GoTree.preorderList]⟩
  | assimpChild :: rest, h, imp, w => by
    rw [ProcessChildren_cons]
    have h₁ := ProcessNode_ordered env scene assimpChild (some h) w.nextHandle imp
      (CreateGameObject w).2 (by simp [CreateGameObject])
    have h₂ := ProcessChildren_ordered env scene rest h
      (ProcessNode env scene assimpChild (some h) (some w.nextHandle) imp
        (CreateGameObject w).2).1
      (ProcessNode env scene assimpChild (some h) (some w.nextHandle) imp
        (CreateGameObject w).2).2.1
    generalize ProcessNode env scene assimpChild (some h) (some w.nextHandle) imp
      (CreateGameObject w).2 = r₁ at h₁ h₂ ⊢
    generalize ProcessChildren env scene h rest r₁.1 r₁.2.1 = r₂ at h₂ ⊢
    obtain ⟨hn₁, hd₁, evs₁, ht₁, ho₁, hr₁, hp₁⟩ := h₁
    obtain ⟨hn₂, evs₂, ht₂, ho₂, hr₂, hp₂⟩ := h₂
    simp only [CreateGameObject] at hn₁ ht₁ ho₁ hr₁
    have hframe₁ : ∀ e ∈ Event.CreateGameObject w.nextHandle :: evs₁, ∀ g,
        e.isOpOn g = true → w.nextHandle ≤ g ∧ g < r₁.2.1.nextHandle := by
      intro e he g hg
      rcases List.mem_cons.1 he with rfl | he
      · simp [Event.isOpOn] at hg
      · have := ho₁ e he g hg
        omega
    have hrange₁ : ∀ g ∈ r₁.2.2.preorder, w.nextHandle ≤ g ∧ g < r₁.2.1.nextHandle := by
      intro g hg
      rw [GoTree_preorder_eq, hd₁] at hg
      rcases List.mem_cons.1 hg with rfl | hg
      · omega
      · have := hr₁ g hg
        omega
    have hfirst : ∀ g ∈ r₁.2.2.preorder, ∀ e ∈ evs₂, e.isOpOn g = false := by
      intro g hg
      refine no_op_of_frame (fun x => r₁.2.1.nextHandle ≤ x ∧ x < r₂.2.1.nextHandle) _ g ho₂ ?_
      have := hrange₁ g hg
      omega
    have hsecond : ∀ g ∈ GoTree.preorderList r₂.2.2,
        ∀ e ∈ Event.CreateGameObject w.nextHandle :: evs₁, e.isOpOn g = false := by
      intro g hg
      refine no_op_of_frame (fun x => w.nextHandle ≤ x ∧ x < r₁.2.1.nextHandle) _ g hframe₁ ?_
      have := hr₂ g hg
      omega
    show ChildrenOrdered w r₂.2.1 (r₁.2.2 :: r₂.2.2)
    refine ⟨by omega, (Event.CreateGameObject w.nextHandle :: evs₁) ++ evs₂,
      by rw [ht₂, ht₁]; simp, ?_, ?_, ?_⟩
    · intro e he g hg
      rcases List.mem_append.1 he with he | he
      · have := hframe₁ e he g hg
        omega
      · have := ho₂ e he g hg
        omega
    · intro g hg
      simp only [GoTree.preorderList] at hg
      rcases List.mem_append.1 hg with hg | hg
      · have := hrange₁ g hg
        omega
      · have := hr₂ g hg
        omega
    · simp only [GoTree.preorderList]
      rw [List.pairwise_append]
      refine ⟨?_, ?_, ?_⟩
      · have := Pairwise_pad [Event.CreateGameObject w.nextHandle] evs₁ evs₂ _ hp₁
          (by intro g _ e he; simp only [List.mem_singleton] at he; subst he; rfl) hfirst
        simpa using this
      · have := Pairwise_pad (Event.CreateGameObject w.nextHandle :: evs₁) evs₂ [] _ hp₂
          hsecond (by simp)
        simpa using this
      · intro a ha b hb
        exact Precedes_cross _ _ a b (hsecond b hb) (hfirst a ha)
end

theorem GoTree_handle_mem_preorder (t : GoTree) : t.handle ∈ t.preorder := by
  rw [GoTree_preorder_eq]
  exact List.mem_cons_self _ _

theorem preorder_sublist_of_get (cs : List GoTree) :
    ∀ (i : Nat) (c : GoTree), cs[i]? = some c →
      c.preorder.Sublist (GoTree.preorderList cs) := by
  induction cs with
  | nil => intro i c hc; simp at hc
  | cons x xs ih =>
    intro i c hc
    simp only [GoTree.preorderList]
    cases i with
    | zero =>
      simp only [List.getElem?_cons_zero, Option.some.injEq] at hc
      subst hc
      exact List.sublist_append_left _ _
    | succ i =>
      simp only [List.getElem?_cons_succ] at hc
      exact (ih i c hc).trans (List.sublist_append_right _ _)

theorem descend_preorder_sublist (path : List Nat) :
    ∀ (tree t : GoTree), tree.descend path = some t → t.preorder.Sublist tree.preorder := by
  induction path with
  | nil =>
    intro tree t hd
    simp only [GoTree.descend, Option.some.injEq] at hd
    subst hd
    exact List.Sublist.refl _
  | cons i path ih =>
    intro tree t hd
    simp only [GoTree.descend] at hd
    cases hc : tree.children[i]? with
    | none => rw [hc] at hd; simp at hd
    | some child =>
      rw [hc] at hd
      rw [GoTree_preorder_eq tree]
      exact ((ih child t hd).trans (preorder_sublist_of_get _ i child hc)).trans
        (List.sublist_cons_self _ _)

theorem descend_mem_preorderList (t d : GoTree) (sub : List Nat) (hsub : sub ≠ [])
    (hd : t.descend sub = some d) : d.handle ∈ GoTree.preorderList t.children := by
  cases sub with
  | nil => exact absurd rfl hsub
  | cons i rest =>
    simp only [GoTree.descend] at hd
    cases hc : t.children[i]? with
    | none => rw [hc] at hd; simp at hd
    | some child =>
      rw [hc] at hd
      exact (preorder_sublist_of_get _ i child hc).subset
        ((descend_preorder_sublist rest child d hd).subset (GoTree_handle_mem_preorder d))

theorem preorderList_pair (R : Nat → Nat → Prop) (cs : List GoTree) :
    ∀ (i j : Nat) (ci cj : GoTree) (a b : Nat), i < j → cs[i]? = some ci → cs[j]? = some cj →
      a ∈ ci.preorder → b ∈ cj.preorder → (GoTree.preorderList cs).Pairwise R → R a b := by
  induction cs with
  | nil => intro i j ci cj a b _ hi; simp at hi
  | cons x xs ih =>
    intro i j ci cj a b hij hi hj ha hb hp
    simp only [GoTree.preorderList] at hp
    rw [List.pairwise_append] at hp
    cases j with
    | zero => omega
    | succ j =>
      simp only [List.getElem?_cons_succ] at hj
      cases i with
      | zero =>
        simp only [List.getElem?_cons_zero, Option.some.injEq] at hi
        subst hi
        exact hp.2.2 a ha b ((preorder_sublist_of_get xs j cj hj).subset hb)
      | succ i =>
        simp only [List.getElem?_cons_succ] at hi
        exact ih i j ci cj a b (by omega) hi hj ha hb hp.2.1

theorem descend_edge (sub : List Nat) :
    ∀ (t d : GoTree), sub ≠ [] → t.descend sub = some d →
      ∃ x, (x, d.handle) ∈ t.edges := by
  induction sub with
  | nil => intro t d hsub; exact absurd rfl hsub
  | cons i rest ih =>
    intro t d _ hd
    cases t with
    | mk h cs =>
      simp only [GoTree.descend, GoTree.children] at hd
      cases hc : cs[i]? with
      | none => rw [hc] at hd; simp at hd
      | some child =>
        rw [hc] at hd
        obtain ⟨hself, hsubedges⟩ := edgesFrom_get h cs i child hc
        by_cases hrest : rest = []
        · subst hrest
          simp only [GoTree.descend, Option.some.injEq] at hd
          subst hd
          exact ⟨h, by simpa [GoTree.edges] using hself⟩
        · obtain ⟨x, hx⟩ := ih child d hrest hd
          exact ⟨x, by simpa [GoTree.edges] using hsubedges _ hx⟩

/-- The pre-order of the handle tree of a whole import is the order of the
operations: whenever a handle comes before another, all naming and attach
operations on the first precede the attach of the second. -/
theorem ProcessNode_root_ordered (env : Env) (scene : aiScene)
    (root : aiNode scene.mNumMeshes) (imp : ModelImporter) (w : World) :
    (ProcessNode env scene root none none imp w).2.2.preorder.Pairwise
      (fun a b => Precedes (Event.isOpOn a) (Event.isAttachOf b)
        ((ProcessNode env scene root none none imp w).2.1.since w)) := by
  rw [ProcessNode_none_eq]
  obtain ⟨_, _, evs, ht, _, _, hp⟩ := ProcessNode_ordered env scene root none w.nextHandle
    imp (CreateGameObject w).2 (by simp [CreateGameObject])
  have hsince : (ProcessNode env scene root none (some w.nextHandle) imp
      (CreateGameObject w).2).2.1.since w = Event.CreateGameObject w.nextHandle :: evs := by
    apply World.since_append
    rw [ht]
    simp [CreateGameObject]
  rw [hsince]
  have := Pairwise_pad [Event.CreateGameObject w.nextHandle] evs [] _ hp
    (by intro g _ e he; simp only [List.mem_singleton] at he; subst he; rfl) (by simp)
  simpa using this

/-- C23: in the events of one import, for every external node `p` and every
node `d` below it, the game object of `d` is attached exactly once and every
naming or attach operation on the game object of `p` comes before that attach
operation; and for children `ci`, `cj` of a node with `ci` before `cj`, every
naming or attach operation on the game object of `ci` or of a node `s` below
`ci` comes before the attach operation of the game object of `cj`. -/
theorem ProcessNode_operations_are_pre_order (env : Env) (scene : aiScene)
    (root : aiNode scene.mNumMeshes) (imp : ModelImporter) (w : World) :
    (∀ (path sub : List Nat) (p d : aiNode scene.mNumMeshes),
      root.descend path = some p → sub ≠ [] → p.descend sub = some d →
      ∃ gp gd attachedTo,
        (ProcessNode env scene root none none imp w).2.2.descend path = some gp ∧
        gp.descend sub = some gd ∧
        parentsSetOn gd.handle ((ProcessNode env scene root none none imp w).2.1.since w) =
          [some attachedTo] ∧
        Precedes (Event.isOpOn gp.handle) (Event.isAttachOf gd.handle)
          ((ProcessNode env scene root none none imp w).2.1.since w)) ∧
    (∀ (path sub : List Nat) (i j : Nat) (p ci cj s : aiNode scene.mNumMeshes),
      root.descend path = some p → i < j → p.mChildren[i]? = some ci →
      p.mChildren[j]? = some cj → ci.descend sub = some s →
      ∃ gp gi gj gs,
        (ProcessNode env scene root none none imp w).2.2.descend path = some gp ∧
        gp.children[i]? = some gi ∧ gp.children[j]? = some gj ∧ gi.descend sub = some gs ∧
        Precedes (Event.isOpOn gs.handle) (Event.isAttachOf gj.handle)
          ((ProcessNode env scene root none none imp w).2.1.since w)) := by
  obtain ⟨hm, _, he⟩ := ProcessNode_edges_attached env scene root imp w
  have hp := ProcessNode_root_ordered env scene root imp w
  refine ⟨?_, ?_⟩
  · intro path sub p d hpath hsub hd
    obtain ⟨gp, hgp, hmp, hep⟩ := descend_mirrors path root _ p hm hpath
    obtain ⟨gd, hgd, _, _⟩ := descend_mirrors sub p gp d hmp hd
    obtain ⟨x, hx⟩ := descend_edge sub gp gd hsub hgd
    refine ⟨gp, gd, x, hgp, hgd, he _ _ (hep _ hx), ?_⟩
    have hsubl := hp.sublist (descend_preorder_sublist path _ gp hgp)
    rw [GoTree_preorder_eq, List.pairwise_cons] at hsubl
    exact hsubl.1 _ (descend_mem_preorderList gp gd sub hsub hgd)
  · intro path sub i j p ci cj s hpath hij hci hcj hs
    obtain ⟨gp, hgp, hmp, _⟩ := descend_mirrors path root _ p hm hpath
    obtain ⟨gi, hgi, _⟩ := child_edge p gp i ci hmp hci
    obtain ⟨gj, hgj, _⟩ := child_edge p gp j cj hmp hcj
    have hmi : Mirrors ci gi := by
      cases p with
      | mk mName hasParent mTransformation mMeshes mChildren =>
        cases gp with
        | mk h children =>
          simp only [Mirrors] at hmp
          simp only [aiNode.mChildren] at hci
          obtain ⟨t, ht, hmt⟩ := MirrorsList_get mChildren children i ci hmp hci
          simp only [GoTree.children] at hgi
          rw [ht] at hgi
          cases hgi
          exact hmt
    obtain ⟨gs, hgs, _, _⟩ := descend_mirrors sub ci gi s hmi hs
    refine ⟨gp, gi, gj, gs, hgp, hgi, hgj, hgs, ?_⟩
    have hsubl := hp.sublist (descend_preorder_sublist path _ gp hgp)
    rw [GoTree_preorder_eq, List.pairwise_cons] at hsubl
    exact preorderList_pair _ gp.children i j gi gj gs.handle gj.handle hij hgi hgj
      ((descend_preorder_sublist sub gi gs hgs).subset (GoTree_handle_mem_preorder gs))
      (GoTree_handle_mem_preorder gj) hsubl.2

/-- Witness for C23: in the sample scene `wheel` lies below the root (first
child of the first child), so every operation on the root's game object
precedes the attach of the game object of `wheel`. -/
theorem ProcessNode_operations_are_pre_order_witness :
    sampleScene.mRootNode.descend [] = some sampleScene.mRootNode ∧
      sampleScene.mRootNode.descend [0, 0] = some sampleWheel ∧
      ∃ gp gd attachedTo,
        (ProcessNode (sampleEnv [] none) sampleScene sampleScene.mRootNode none none
          sampleImporter emptyWorld).2.2.descend [] = some gp ∧
        gp.descend [0, 0] = some gd ∧
        parentsSetOn gd.handle ((ProcessNode (sampleEnv [] none) sampleScene
          sampleScene.mRootNode none none sampleImporter emptyWorld).2.1.since emptyWorld) =
            [some attachedTo] ∧
        Precedes (Event.isOpOn gp.handle) (Event.isAttachOf gd.handle)
          ((ProcessNode (sampleEnv [] none) sampleScene sampleScene.mRootNode none none
            sampleImporter emptyWorld).2.1.since emptyWorld) :=
  ⟨rfl, rfl,
    (ProcessNode_operations_are_pre_order (sampleEnv [] none) sampleScene
      sampleScene.mRootNode sampleImporter emptyWorld).1 [] [0, 0] sampleScene.mRootNode
      sampleWheel rfl (by decide) rfl⟩

/-! ## A load that succeeds has recorded a root -/

theorem attachedUnder_append (h : Nat) (a b : List Event) :
    attachedUnder h (a ++ b) = attachedUnder h a ++ attachedUnder h b := by
  simp [attachedUnder, parentCalls]

theorem attachedUnder_eq_nil (h : Nat) (evs : List Event)
    (hno : ∀ call ∈ parentCalls evs, call.2 ≠ some h) : attachedUnder h evs = [] := by
  unfold attachedUnder
  rw [List.filterMap_eq_nil_iff]
  intro call hc
  simp [hno call hc]

theorem meshesOn_append (h : Nat) (a b : List Event) :
    meshesOn h (a ++ b) = meshesOn h a ++ meshesOn h b := by
  simp [meshesOn]

theorem meshesOn_eq_nil (h : Nat) (evs : List Event) (hno : h ∉ meshHandles evs) :
    meshesOn h evs = [] := by
  unfold meshesOn
  rw [List.filterMap_eq_nil_iff]
  intro call hc
  have : call.1 ≠ h := by
    intro heq
    apply hno
    unfold meshHandles
    exact List.mem_map.mpr ⟨call, hc, heq⟩
  simp [this]

theorem SplitAt_pad (env : Env) (scene : aiScene) (p : aiNode scene.mNumMeshes) (gp : GoTree)
    (b : Nat) (pre mid post : List Event) (h : SplitAt env scene p gp b mid)
    (hpre : ∀ call ∈ parentCalls pre, call.2 ≠ some gp.handle)
    (hpost : ∀ call ∈ parentCalls post, call.2 ≠ some gp.handle)
    (hmpre : ∀ x ∈ meshHandles pre, x ≠ gp.handle ∧ (x < b ∨ b + p.mMeshes.length ≤ x))
    (hmpost : ∀ x ∈ meshHandles post, x ≠ gp.handle ∧ (x < b ∨ b + p.mMeshes.length ≤ x)) :
    SplitAt env scene p gp b (pre ++ (mid ++ post)) := by
  obtain ⟨ha, hc, hm, hs⟩ := h
  refine ⟨?_, ?_, ?_, ?_⟩
  · rw [attachedUnder_append, attachedUnder_append, attachedUnder_eq_nil _ pre hpre,
      attachedUnder_eq_nil _ post hpost, ha]
    simp
  · intro x hx
    exact List.mem_append_right _ (List.mem_append_left _ (hc x hx))
  · intro i m him
    have hi : i < p.mMeshes.length := by
      rcases List.getElem?_eq_some_iff.1 him with ⟨hlt, _⟩
      exact hlt
    rw [meshesOn_append, meshesOn_append, hm i m him,
      meshesOn_eq_nil _ pre (fun hx => by have := hmpre _ hx; omega),
      meshesOn_eq_nil _ post (fun hx => by have := hmpost _ hx; omega)]
    simp
  · rw [meshesOn_append, meshesOn_append, hs,
      meshesOn_eq_nil _ pre (fun hx => (hmpre _ hx).1 rfl),
      meshesOn_eq_nil _ post (fun hx => (hmpost _ hx).1 rfl)]
    simp

theorem processNodeHead_trace (env : Env) (mName : String) (hasParent : Bool)
    (mTransformation : aiMatrix4x4) (parentNode : weakGameObj) (h : Nat) (imp : ModelImporter)
    (w : World) :
    ∃ name position rotation scale,
      (processNodeHead env mName hasParent mTransformation parentNode (some h) imp
        w).2.2.trace = w.trace ++ [Event.SetName h name, Event.SetParent h parentNode,
          Event.SetPositionLocal h position, Event.SetRotationLocal h rotation,
          Event.SetScaleLocal h scale] := by
  cases hasParent
  · exact ⟨env.GetFileNameNoExtensionFromPath imp.m_filePath,
      (env.Decompose (aiMatrix4x4ToMatrix mTransformation)).2.2,
      (env.Decompose (aiMatrix4x4ToMatrix mTransformation)).2.1,
      (env.Decompose (aiMatrix4x4ToMatrix mTransformation)).1,
      by cases parentNode <;>
        simp [processNodeHead, SetGameObjectTransform, World.emit, weakGameObj.expired]⟩
  · exact ⟨mName,
      (env.Decompose (aiMatrix4x4ToMatrix mTransformation)).2.2,
      (env.Decompose (aiMatrix4x4ToMatrix mTransformation)).2.1,
      (env.Decompose (aiMatrix4x4ToMatrix mTransformation)).1,
      by cases parentNode <;>
        simp [processNodeHead, SetGameObjectTransform, World.emit, weakGameObj.expired]⟩

theorem meshesOn_calls_above (env : Env) (imp : ModelImporter) (scene : aiScene)
    (l : List (Fin scene.mNumMeshes)) :
    ∀ (b g : Nat), g < b →
      ((l.enumFrom b).map (fun p => meshCall env imp scene p.1 p.2)).filterMap
        (fun call => if call.1 = g then some (call.2.1, call.2.2.2.1, call.2.2.2.2) else none)
        = [] := by
  induction l with
  | nil => intro b g _; simp
  | cons x xs ih =>
    intro b g hg
    have hne : ¬ b = g := by omega
    simp only [List.enumFrom_cons, List.map_cons, List.filterMap_cons, meshCall, hne, if_false]
    exact ih (b + 1) g (by omega)

theorem meshesOn_calls_at (env : Env) (imp : ModelImporter) (scene : aiScene)
    (l : List (Fin scene.mNumMeshes)) :
    ∀ (b i : Nat) (m : Fin scene.mNumMeshes), l[i]? = some m →
      ((l.enumFrom b).map (fun p => meshCall env imp scene p.1 p.2)).filterMap
        (fun call => if call.1 = b + i then some (call.2.1, call.2.2.2.1, call.2.2.2.2)
          else none)
        = [meshData env (scene.mMeshes m)] := by
  induction l with
  | nil => intro b i m h; simp at h
  | cons x xs ih =>
    intro b i m h
    cases i with
    | zero =>
      simp only [List.getElem?_cons_zero, Option.some.injEq] at h
      subst h
      have := meshesOn_calls_above env imp scene xs (b + 1) b (by omega)
      simp only [List.enumFrom_cons, List.map_cons, List.filterMap_cons, meshCall,
        Nat.add_zero, if_true]
      simp only [meshCall] at this
      rw [this]
      rfl
    | succ i =>
      simp only [List.getElem?_cons_succ] at h
      have hne : ¬ b = b + (i + 1) := by omega
      have heq : b + (i + 1) = b + 1 + i := by omega
      simp only [List.enumFrom_cons, List.map_cons, List.filterMap_cons, meshCall, hne, if_false]
      rw [heq]
      exact ih (b + 1) i m h

theorem processNodeMeshes_split_many (env : Env) (imp : ModelImporter) (scene : aiScene)
    (mName : String) (newNode : Nat) (mMeshes : List (Fin scene.mNumMeshes)) (w : World)
    (hn : mMeshes.length > 1) :
    (processNodeMeshes env imp scene mName mMeshes.length newNode 0 mMeshes w).nextHandle =
        w.nextHandle + mMeshes.length ∧
      ∃ evs, (processNodeMeshes env imp scene mName mMeshes.length newNode 0 mMeshes w).trace =
          w.trace ++ evs ∧
        (∀ call ∈ parentCalls evs, call.2 = some newNode) ∧
        attachedUnder newNode evs = List.range' w.nextHandle mMeshes.length ∧
        (∀ x ∈ List.range' w.nextHandle mMeshes.length, Event.CreateGameObject x ∈ evs) ∧
        (∀ i m, mMeshes[i]? = some m →
          meshesOn (w.nextHandle + i) evs = [meshData env (scene.mMeshes m)]) ∧
        ∀ x ∈ meshHandles evs, w.nextHandle ≤ x ∧ x < w.nextHandle + mMeshes.length := by
  obtain ⟨hnext, evs, ht, hc, hpc, hm⟩ :=
    processNodeMeshes_many env imp scene mName mMeshes.length newNode hn mMeshes 0 w
  refine ⟨hnext, evs, ht, ?_, ?_, ?_, ?_, ?_⟩
  · intro call hcall
    rw [hpc] at hcall
    obtain ⟨p, _, rfl⟩ := List.mem_map.mp hcall
    rfl
  · unfold attachedUnder
    rw [hpc, List.filterMap_map]
    have : (fun call : Nat × weakGameObj => if call.2 = some newNode then some call.1 else none) ∘
        (fun p : Nat × Fin scene.mNumMeshes => (p.1, some newNode)) =
        fun p => some p.1 := by
      funext p
      simp
    rw [this]
    have hmap : List.filterMap (fun p : Nat × Fin scene.mNumMeshes => some p.1)
        (List.enumFrom w.nextHandle mMeshes) =
        (List.enumFrom w.nextHandle mMeshes).map Prod.fst := by
      induction (List.enumFrom w.nextHandle mMeshes) with
      | nil => rfl
      | cons x xs ih => simp [List.filterMap_cons, ih]
    rw [hmap, List.enumFrom_map_fst]
  · intro x hx
    have hx' : x ∈ evs.filterMap Event.created? := by
      rw [hc, List.enumFrom_map_fst]
      exact hx
    obtain ⟨e, he, hex⟩ := List.mem_filterMap.mp hx'
    cases e <;> simp only [Event.created?, Option.some.injEq] at hex <;> try contradiction
    subst hex
    exact he
  · intro i m him
    unfold meshesOn
    rw [hm]
    exact meshesOn_calls_at env imp scene mMeshes w.nextHandle i m him
  · intro x hx
    unfold meshHandles at hx
    rw [hm] at hx
    obtain ⟨call, hcall, rfl⟩ := List.mem_map.mp hx
    obtain ⟨p, hp, rfl⟩ := List.mem_map.mp hcall
    have := bounds_of_mem_enumFrom mMeshes w.nextHandle p hp
    simp only [meshCall]
    omega

theorem processNodeMeshes_split_single (env : Env) (imp : ModelImporter) (scene : aiScene)
    (mName : String) (newNode : Nat) (mMeshes : List (Fin scene.mNumMeshes)) (w : World)
    (hn : ¬ mMeshes.length > 1) :
    (processNodeMeshes env imp scene mName mMeshes.length newNode 0 mMeshes w).nextHandle =
        w.nextHandle ∧
      ∃ evs, (processNodeMeshes env imp scene mName mMeshes.length newNode 0 mMeshes w).trace =
          w.trace ++ evs ∧
        parentCalls evs = [] ∧ ∀ x ∈ meshHandles evs, x = newNode := by
  obtain ⟨hnext, evs, ht, hpc⟩ :=
    processNodeMeshes_single env imp scene mName mMeshes.length newNode hn mMeshes 0 w
  obtain ⟨_, evs', ht', _, hm⟩ :=
    processNodeMeshes_single_meshes env imp scene mName mMeshes.length newNode hn mMeshes 0 w
  have heq : evs = evs' := List.append_cancel_left (ht.symm.trans ht')
  subst heq
  refine ⟨hnext, evs, ht, hpc, ?_⟩
  intro x hx
  rw [hm] at hx
  obtain ⟨_, _, rfl⟩ := List.mem_map.mp hx
  rfl

theorem processNodeMeshes_split (env : Env) (imp : ModelImporter) (scene : aiScene)
    (mName : String) (newNode : Nat) (mMeshes : List (Fin scene.mNumMeshes)) (w : World) :
    w.nextHandle ≤
        (processNodeMeshes env imp scene mName mMeshes.length newNode 0 mMeshes w).nextHandle ∧
      ∃ evs, (processNodeMeshes env imp scene mName mMeshes.length newNode 0 mMeshes w).trace =
          w.trace ++ evs ∧
        (∀ call ∈ parentCalls evs, call.2 = some newNode) ∧
        (∀ x ∈ meshHandles evs, x = newNode ∨ (w.nextHandle ≤ x ∧ x <
          (processNodeMeshes env imp scene mName mMeshes.length newNode 0 mMeshes
            w).nextHandle)) ∧
        (mMeshes.length > 1 →
          (processNodeMeshes env imp scene mName mMeshes.length newNode 0 mMeshes
            w).nextHandle = w.nextHandle + mMeshes.length ∧
          attachedUnder newNode evs = List.range' w.nextHandle mMeshes.length ∧
          (∀ x ∈ List.range' w.nextHandle mMeshes.length, Event.CreateGameObject x ∈ evs) ∧
          (∀ i m, mMeshes[i]? = some m →
            meshesOn (w.nextHandle + i) evs = [meshData env (scene.mMeshes m)]) ∧
          ∀ x ∈ meshHandles evs, w.nextHandle ≤ x) := by
  by_cases hn : mMeshes.length > 1
  · obtain ⟨hnext, evs, ht, hpc, ha, hc, hm, hr⟩ :=
      processNodeMeshes_split_many env imp scene mName newNode mMeshes w hn
    refine ⟨by omega, evs, ht, hpc, ?_, ?_⟩
    · intro x hx
      have := hr x hx
      right; omega
    · intro _
      exact ⟨hnext, ha, hc, hm, fun x hx => (hr x hx).1⟩
  · obtain ⟨hnext, evs, ht, hpc, hr⟩ :=
      processNodeMeshes_split_single env imp scene mName newNode mMeshes w hn
    refine ⟨by omega, evs, ht, ?_, ?_, ?_⟩
    · intro call hcall
      rw [hpc] at hcall
      simp at hcall
    · intro x hx
      exact Or.inl (hr x hx)
    · intro h
      exact absurd h hn

mutual
theorem ProcessNode_split (env : Env) (scene : aiScene) :
    ∀ (node : aiNode scene.mNumMeshes) (parent : weakGameObj) (h : Nat) (imp : ModelImporter)
      (w : World), h < w.nextHandle →
      (∀ x, parent = some x → x < w.nextHandle ∧ x ≠ h) →
      NodeSplit env scene node parent h w (ProcessNode env scene node parent (some h) imp w).2.1
        (ProcessNode env scene node parent (some h) imp w).2.2
  | aiNode.mk mName hasParent mTransformation mMeshes mChildren, parent, h, imp, w, hlt,
      hpar => by
    rw [ProcessNode_eq]
    obtain ⟨hh1, hhn, _⟩ :=
      processNodeHead_some env mName hasParent mTransformation parent h imp w
    obtain ⟨name, position, rotation, scale, hhT⟩ :=
      processNodeHead_trace env mName hasParent mTransformation parent h imp w
    obtain ⟨hmn, evsM, hmT, hmP, hmR, hmS⟩ := processNodeMeshes_split env
      (processNodeHead env mName hasParent mTransformation parent (some h) imp w).2.1
      scene mName
      (processNodeHead env mName hasParent mTransformation parent (some h) imp w).1 mMeshes
      (processNodeHead env mName hasParent mTransformation parent (some h) imp w).2.2
    have hc := ProcessChildren_split env scene mChildren
      (processNodeHead env mName hasParent mTransformation parent (some h) imp w).1
      (processNodeHead env mName hasParent mTransformation parent (some h) imp w).2.1
      (processNodeMeshes env
        (processNodeHead env mName hasParent mTransformation parent (some h) imp w).2.1
        scene mName mMeshes.length
        (processNodeHead env mName hasParent mTransformation parent (some h) imp w).1 0 mMeshes
        (processNodeHead env mName hasParent mTransformation parent (some h) imp w).2.2)
      (by omega)
    rw [hh1] at hc hmn hmT hmP hmR hmS ⊢
    generalize (processNodeHead env mName hasParent mTransformation parent (some h) imp w).2.1
      = impH at hc hmn hmT hmP hmR hmS ⊢
    generalize (processNodeHead env mName hasParent mTransformation parent (some h) imp w).2.2
      = wH at hhn hhT hc hmn hmT hmP hmR hmS ⊢
    generalize processNodeMeshes env impH scene mName mMeshes.length h 0 mMeshes wH
      = wM at hc hmn hmT hmP hmR hmS ⊢
    obtain ⟨hcn, evsC, hcT, hcP, hcA, hcR, hcS⟩ := hc
    generalize ProcessChildren env scene h mChildren impH wM = r at hcn hcT hcP hcA hcR hcS ⊢
    show NodeSplit env scene (aiNode.mk mName hasParent mTransformation mMeshes mChildren)
      parent h w r.2.1 (GoTree.mk h r.2.2)
    have hHpc : parentCalls [Event.SetName h name, Event.SetParent h parent,
        Event.SetPositionLocal h position, Event.SetRotationLocal h rotation,
        Event.SetScaleLocal h scale] = [(h, parent)] := by
      simp [parentCalls, Event.parentCall?]
    have hHm : meshHandles [Event.SetName h name, Event.SetParent h parent,
        Event.SetPositionLocal h position, Event.SetRotationLocal h rotation,
        Event.SetScaleLocal h scale] = [] := by
      simp [meshHandles, Event.createdMesh?]
    generalize [Event.SetName h name, Event.SetParent h parent,
        Event.SetPositionLocal h position, Event.SetRotationLocal h rotation,
        Event.SetScaleLocal h scale] = evsH at hhT hHpc hHm
    have hparent : parent ≠ some h := fun hp => (hpar h hp).2 rfl
    refine ⟨by omega, rfl, evsH ++ (evsM ++ evsC),
      by rw [hcT, hmT, hhT]; simp only [List.append_assoc], ?_, ?_, ?_⟩
    · refine ⟨parentCalls evsM ++ parentCalls evsC, ?_, ?_⟩
      · rw [parentCalls_append, parentCalls_append, hHpc]
        rfl
      · intro call hcall
        rcases List.mem_append.1 hcall with hcall | hcall
        · exact ⟨h, hmP call hcall, Or.inl rfl⟩
        · obtain ⟨x, hx, hx'⟩ := hcP call hcall
          refine ⟨x, hx, ?_⟩
          rcases hx' with hx' | hx'
          · exact Or.inl hx'
          · right; omega
    · intro x hx
      rw [meshHandles_append, meshHandles_append, hHm] at hx
      rcases List.mem_append.1 hx with hx | hx
      · simp at hx
      · rcases List.mem_append.1 hx with hx | hx
        · rcases hmR x hx with hx | hx
          · exact Or.inl hx
          · right; omega
        · have := hcR x hx
          right; omega
    · intro path p gp hp hgp hn
      cases path with
      | nil =>
        simp only [aiNode.descend, Option.some.injEq] at hp
        simp only [GoTree.descend, Option.some.injEq] at hgp
        subst hp
        subst hgp
        simp only [aiNode.mMeshes] at hn ⊢
        obtain ⟨hnext, hA, hC, hM, hlow⟩ := hmS hn
        refine ⟨Or.inl rfl, wH.nextHandle, by omega, by omega, ?_, ?_, ?_, ?_⟩
        · simp only [GoTree.handle, GoTree.children, aiNode.mMeshes]
          rw [attachedUnder_append, attachedUnder_append, hA, hcA,
            attachedUnder_eq_nil h evsH (by
              intro call hcall
              rw [hHpc] at hcall
              simp only [List.mem_singleton] at hcall
              subst hcall
              exact hparent)]
          rfl
        · intro x hx
          simp only [aiNode.mMeshes] at hx
          exact List.mem_append_right _ (List.mem_append_left _ (hC x hx))
        · intro i m him
          simp only [aiNode.mMeshes] at him
          have hi : i < mMeshes.length := (List.getElem?_eq_some_iff.1 him).1
          rw [meshesOn_append, meshesOn_append, hM i m him,
            meshesOn_eq_nil _ evsH (by rw [hHm]; simp),
            meshesOn_eq_nil _ evsC (fun hx => by have := hcR _ hx; omega)]
          rfl
        · simp only [GoTree.handle]
          rw [meshesOn_append, meshesOn_append,
            meshesOn_eq_nil _ evsH (by rw [hHm]; simp),
            meshesOn_eq_nil _ evsM (fun hx => by have := hlow _ hx; omega),
            meshesOn_eq_nil _ evsC (fun hx => by have := hcR _ hx; omega)]
          rfl
      | cons i rest =>
        simp only [aiNode.descend, aiNode.mChildren] at hp
        simp only [GoTree.descend, GoTree.children] at hgp
        cases hci : mChildren[i]? with
        | none => rw [hci] at hp; simp at hp
        | some c =>
          cases hti : r.2.2[i]? with
          | none => rw [hti] at hgp; simp at hgp
          | some t =>
            rw [hci] at hp
            rw [hti] at hgp
            obtain ⟨hfresh, b, hb₁, hb₂, hsplit⟩ := hcS i c t rest p gp hci hti hp hgp hn
            refine ⟨Or.inr (by omega), b, by omega, hb₂, ?_⟩
            have := SplitAt_pad env scene p gp b (evsH ++ evsM) evsC [] hsplit
              (by
                intro call hcall
                rw [parentCalls_append, hHpc] at hcall
                rcases List.mem_append.1 hcall with hcall | hcall
                · simp only [List.mem_singleton] at hcall
                  subst hcall
                  intro hp'
                  have := (hpar _ hp').1
                  omega
                · rw [hmP call hcall]
                  intro hp'
                  simp only [Option.some.injEq] at hp'
                  omega)
              (by simp [parentCalls])
              (by
                intro x hx
                rw [meshHandles_append, hHm] at hx
                simp only [List.nil_append] at hx
                rcases hmR x hx with hx | hx <;> omega)
              (by simp [meshHandles])
            simpa [List.append_assoc] using this
theorem ProcessChildren_split (env : Env) (scene : aiScene) :
    ∀ (children : List (aiNode scene.mNumMeshes)) (h : Nat) (imp : ModelImporter) (w : World),
      h < w.nextHandle →
      ChildrenSplit env scene children h w (ProcessChildren env scene h children imp w).2.1
        (ProcessChildren env scene h children imp w).2.2
  | [], h, imp, w, hlt => by
    rw [ProcessChildren_nil]
    exact ⟨Nat.le_refl _, [], by simp, by simp [parentCalls], by simp [attachedUnder, parentCalls],
      by simp [meshHandles], by intro i c t path p gp hc; simp at hc⟩
  | assimpChild :: rest, h, imp, w, hlt => by
    rw [ProcessChildren_cons]
    have h₁ := ProcessNode_split env scene assimpChild (some h) w.nextHandle imp
      (CreateGameObject w).2 (by simp [CreateGameObject])
      (by
        intro x hx
        simp only [Option.some.injEq] at hx
        subst hx
        simp only [CreateGameObject]
        omega)
    have h₂ := ProcessChildren_split env scene rest h
      (ProcessNode env scene assimpChild (some h) (some w.nextHandle) imp
        (CreateGameObject w).2).1
      (ProcessNode env scene assimpChild (some h) (some w.nextHandle) imp
        (CreateGameObject w).2).2.1
      (by
        have := h₁.1
        simp only [CreateGameObject] at this ⊢
        omega)
    generalize ProcessNode env scene assimpChild (some h) (some w.nextHandle) imp
      (CreateGameObject w).2 = r₁ at h₁ h₂ ⊢
    generalize ProcessChildren env scene h rest r₁.1 r₁.2.1 = r₂ at h₂ ⊢
    obtain ⟨hn₁, hd₁, evs₁, ht₁, ⟨rest₁, hpc₁, hrest₁⟩, hr₁, hs₁⟩ := h₁
    obtain ⟨hn₂, evs₂, ht₂, hp₂, ha₂, hr₂, hs₂⟩ := h₂
    simp only [CreateGameObject] at hn₁ ht₁ hrest₁ hr₁ hs₁
    show ChildrenSplit env scene (assimpChild :: rest) h w r₂.2.1 (r₁.2.2 :: r₂.2.2)
    have hcre : parentCalls [Event.CreateGameObject w.nextHandle] = [] := by
      simp [parentCalls, Event.parentCall?]
    have hcrm : meshHandles [Event.CreateGameObject w.nextHandle] = [] := by
      simp [meshHandles, Event.createdMesh?]
    refine ⟨by omega, [Event.CreateGameObject w.nextHandle] ++ (evs₁ ++ evs₂),
      by rw [ht₂, ht₁]; simp, ?_, ?_, ?_, ?_⟩
    · intro call hcall
      rw [parentCalls_append, parentCalls_append, hcre, hpc₁] at hcall
      simp only [List.nil_append] at hcall
      rcases List.mem_append.1 hcall with hcall | hcall
      · rcases List.mem_cons.1 hcall with hcall | hcall
        · subst hcall
          exact ⟨h, rfl, Or.inl rfl⟩
        · obtain ⟨x, hx, hx'⟩ := hrest₁ call hcall
          refine ⟨x, hx, ?_⟩
          right; omega
      · obtain ⟨x, hx, hx'⟩ := hp₂ call hcall
        refine ⟨x, hx, ?_⟩
        rcases hx' with hx' | hx'
        · exact Or.inl hx'
        · right; omega
    · rw [attachedUnder_append, attachedUnder_append, ha₂,
        attachedUnder_eq_nil h _ (by rw [hcre]; simp)]
      have : attachedUnder h evs₁ = [w.nextHandle] := by
        unfold attachedUnder
        rw [hpc₁]
        simp only [List.filterMap_cons, if_true]
        rw [List.filterMap_eq_nil_iff.2]
        intro call hcall
        obtain ⟨x, hx, hx'⟩ := hrest₁ call hcall
        have hne : call.2 ≠ some h := by
          rw [hx]
          intro heq
          simp only [Option.some.injEq] at heq
          omega
        simp [hne]
      rw [this]
      simp [hd₁]
    · intro x hx
      rw [meshHandles_append, meshHandles_append, hcrm] at hx
      simp only [List.nil_append] at hx
      rcases List.mem_append.1 hx with hx | hx
      · have := hr₁ x hx
        omega
      · have := hr₂ x hx
        omega
    · intro i c t path p gp hc ht hp hgp hn
      cases i with
      | zero =>
        simp only [List.getElem?_cons_zero, Option.some.injEq] at hc ht
        subst hc
        subst ht
        obtain ⟨hfresh, b, hb₁, hb₂, hsplit⟩ := hs₁ path p gp hp hgp hn
        refine ⟨by omega, b, by omega, by omega, ?_⟩
        exact SplitAt_pad env scene p gp b [Event.CreateGameObject w.nextHandle] evs₁ evs₂ hsplit
          (by rw [hcre]; simp)
          (by
            intro call hcall
            obtain ⟨x, hx, hx'⟩ := hp₂ call hcall
            rw [hx]
            intro heq
            simp only [Option.some.injEq] at heq
            omega)
          (by rw [hcrm]; simp)
          (by
            intro x hx
            have := hr₂ x hx
            omega)
      | succ i =>
        simp only [List.getElem?_cons_succ] at hc ht
        obtain ⟨hfresh, b, hb₁, hb₂, hsplit⟩ := hs₂ i c t path p gp hc ht hp hgp hn
        refine ⟨by omega, b, by omega, hb₂, ?_⟩
        have := SplitAt_pad env scene p gp b ([Event.CreateGameObject w.nextHandle] ++ evs₁)
          evs₂ [] hsplit
          (by
            intro call hcall
            rw [parentCalls_append, hcre, hpc₁] at hcall
            simp only [List.nil_append] at hcall
            rcases List.mem_cons.1 hcall with hcall | hcall
            · subst hcall
              intro heq
              simp only [Option.some.injEq] at heq
              omega
            · obtain ⟨x, hx, hx'⟩ := hrest₁ call hcall
              rw [hx]
              intro heq
              simp only [Option.some.injEq] at heq
              omega)
          (by simp [parentCalls])
          (by
            intro x hx
            rw [meshHandles_append, hcrm] at hx
            simp only [List.nil_append] at hx
            have := hr₁ x hx
            omega)
          (by simp [meshHandles])
        simpa [List.append_assoc] using this
end

theorem MirrorsList_length {n : Nat} (cs : List (aiNode n)) :
    ∀ (ts : List GoTree), MirrorsList cs ts → ts.length = cs.length := by
  induction cs with
  | nil =>
    intro ts hm
    cases ts with
    | nil => rfl
    | cons t ts => simp [MirrorsList] at hm
  | cons c cs ih =>
    intro ts hm
    cases ts with
    | nil => simp [MirrorsList] at hm
    | cons t ts =>
      simp only [MirrorsList] at hm
      simp [ih ts hm.2]

theorem Mirrors_children_length {n : Nat} (p : aiNode n) (gp : GoTree) (hm : Mirrors p gp) :
    gp.children.length = p.mChildren.length := by
  cases p with
  | mk mName hasParent mTransformation mMeshes mChildren =>
    cases gp with
    | mk h children =>
      simp only [Mirrors] at hm
      exact MirrorsList_length mChildren children hm

/-- C2, counterexample: the root of the sample scene has three mesh
references and two child nodes; `ProcessNode` attaches five game objects
directly under the root's game object, the three for the meshes and those of
the two child nodes, all created during the call. -/
theorem ProcessNode_attaches_more_than_mesh_objects :
    sampleScene.mRootNode.mMeshes.length = 3 ∧
      (ProcessNode (sampleEnv [] none) sampleScene sampleScene.mRootNode none none
        sampleImporter emptyWorld).2.2.handle = 0 ∧
      attachedUnder 0 ((ProcessNode (sampleEnv [] none) sampleScene sampleScene.mRootNode none
        none sampleImporter emptyWorld).2.1.since emptyWorld) = [1, 2, 3, 4, 6] ∧
      ((ProcessNode (sampleEnv [] none) sampleScene sampleScene.mRootNode none none
        sampleImporter emptyWorld).2.1.since emptyWorld).filterMap Event.created? =
          [0, 1, 2, 3, 4, 5, 6] := by
  decide

/-- C2, as amended: after `ProcessNode` has processed an external tree from
its root, for every external node `p` with more than one mesh reference: the
game objects attached directly under the game object of `p` are one new game
object per mesh reference, in order, followed by the game objects of the
child nodes of `p`, one per child node; the new game object number `i`
receives exactly one mesh, the `i`-th referenced by `p`; and the game object
of `p` receives no mesh. -/
theorem ProcessNode_splits_meshes_before_children (env : Env) (scene : aiScene)
    (root : aiNode scene.mNumMeshes) (imp : ModelImporter) (w : World) :
    ∀ (path : List Nat) (p : aiNode scene.mNumMeshes),
      root.descend path = some p → p.mMeshes.length > 1 →
      ∃ gp b, (ProcessNode env scene root none none imp w).2.2.descend path = some gp ∧
        gp.children.length = p.mChildren.length ∧
        attachedUnder gp.handle ((ProcessNode env scene root none none imp w).2.1.since w) =
          List.range' b p.mMeshes.length ++ gp.children.map GoTree.handle ∧
        (∀ x ∈ List.range' b p.mMeshes.length,
          Event.CreateGameObject x ∈ (ProcessNode env scene root none none imp w).2.1.since w) ∧
        (∀ i m, p.mMeshes[i]? = some m →
          meshesOn (b + i) ((ProcessNode env scene root none none imp w).2.1.since w) =
            [meshData env (scene.mMeshes m)]) ∧
        meshesOn gp.handle ((ProcessNode env scene root none none imp w).2.1.since w) = [] := by
  intro path p hp hn
  obtain ⟨hm, _, _⟩ := ProcessNode_edges_attached env scene root imp w
  obtain ⟨gp, hgp, hmp, _⟩ := descend_mirrors path root _ p hm hp
  refine ⟨gp, ?_⟩
  have hlen := Mirrors_children_length p gp hmp
  revert hgp
  rw [ProcessNode_none_eq]
  intro hgp
  obtain ⟨_, _, evs, ht, _, _, hs⟩ := ProcessNode_split env scene root none w.nextHandle
    imp (CreateGameObject w).2 (by simp [CreateGameObject]) (by intro x hx; simp at hx)
  have hsince : (ProcessNode env scene root none (some w.nextHandle) imp
      (CreateGameObject w).2).2.1.since w = [Event.CreateGameObject w.nextHandle] ++ (evs ++ []) := by
    apply World.since_append
    rw [ht]
    simp [CreateGameObject]
  obtain ⟨_, b, _, _, hsplit⟩ := hs path p gp hp hgp hn
  have hpad := SplitAt_pad env scene p gp b [Event.CreateGameObject w.nextHandle] evs [] hsplit
    (by simp [parentCalls, Event.parentCall?]) (by simp [parentCalls])
    (by simp [meshHandles, Event.createdMesh?]) (by simp [meshHandles])
  rw [← hsince] at hpad
  obtain ⟨ha, hc, hmesh, hself⟩ := hpad
  exact ⟨b, hgp, hlen, ha, hc, hmesh, hself⟩

/-- Witness for C2 as amended: the root of the sample scene has three mesh
references. -/
theorem ProcessNode_splits_meshes_before_children_witness :
    sampleScene.mRootNode.descend [] = some sampleScene.mRootNode ∧
      sampleScene.mRootNode.mMeshes.length > 1 ∧
      ∃ gp b, (ProcessNode (sampleEnv [] none) sampleScene sampleScene.mRootNode none none
          sampleImporter emptyWorld).2.2.descend [] = some gp ∧
        gp.children.length = sampleScene.mRootNode.mChildren.length ∧
        attachedUnder gp.handle ((ProcessNode (sampleEnv [] none) sampleScene
          sampleScene.mRootNode none none sampleImporter emptyWorld).2.1.since emptyWorld) =
          List.range' b sampleScene.mRootNode.mMeshes.length ++
            gp.children.map GoTree.handle ∧
        (∀ x ∈ List.range' b sampleScene.mRootNode.mMeshes.length,
          Event.CreateGameObject x ∈ (ProcessNode (sampleEnv [] none) sampleScene
            sampleScene.mRootNode none none sampleImporter emptyWorld).2.1.since emptyWorld) ∧
        (∀ i m, sampleScene.mRootNode.mMeshes[i]? = some m →
          meshesOn (b + i) ((ProcessNode (sampleEnv [] none) sampleScene
            sampleScene.mRootNode none none sampleImporter emptyWorld).2.1.since emptyWorld) =
            [meshData (sampleEnv [] none) (sampleScene.mMeshes m)]) ∧
        meshesOn gp.handle ((ProcessNode (sampleEnv [] none) sampleScene
          sampleScene.mRootNode none none sampleImporter emptyWorld).2.1.since emptyWorld)
            = [] :=
  ⟨rfl, by decide,
    ProcessNode_splits_meshes_before_children (sampleEnv [] none) sampleScene
      sampleScene.mRootNode sampleImporter emptyWorld [] sampleScene.mRootNode rfl (by decide)⟩

end Directus
